import Mathlib

/-
Verification of the scene-graph object model of the choreonoid repository
(src/Util/SceneGraph.cpp and src/Util/MeshGenerator.cpp), as a shallow
embedding.  The scene graph is modelled as a heap of objects addressed by
natural-number ids (standing for the C++ object pointers); every mutating
member function becomes a function on an explicit `Scene` state.  Machine
floating-point coordinates are idealized as exact rationals.  Signal
emissions (sigUpdated, sigGraphConnection) are recorded in an event log so
that notification claims can be stated; the log also records each call of
removeOwner so that call-count claims can be stated.

Declarations whose C++ source is not among the given files (they live in
headers such as SceneGraph.h or in Util/BoundingBox.cpp) are modelled from
the specification and carry a doc comment saying so.
-/

namespace Choreonoid

/-- A point or vector in 3-space.  Rational coordinates stand in for the
C++ doubles and floats. -/
structure Vec3 where
  x : ℚ
  y : ℚ
  z : ℚ
deriving DecidableEq, Repr

/-- Componentwise minimum. -/
def vmin (a b : Vec3) : Vec3 := ⟨min a.x b.x, min a.y b.y, min a.z b.z⟩

/-- Componentwise maximum. -/
def vmax (a b : Vec3) : Vec3 := ⟨max a.x b.x, max a.y b.y, max a.z b.z⟩

/-- Modelled from the spec: the axis-aligned bounding-box type (class
BoundingBox of Util/BoundingBox.h, not among the given sources).  A box is
either empty (the cleared state) or is given by its minimum and maximum
corners. -/
inductive BoundingBox where
  | empty
  | corners (lo hi : Vec3)
deriving DecidableEq, Repr

/-- Modelled from the spec: BoundingBox::expandBy(BoundingBox) extends the
box to enclose the union of the two boxes. -/
def BoundingBox.expandBy : BoundingBox → BoundingBox → BoundingBox
  | b, .empty => b
  | .empty, b => b
  | .corners lo hi, .corners lo2 hi2 => .corners (vmin lo lo2) (vmax hi hi2)

/-- Modelled from the spec: BoundingBox::expandBy(point) extends the box to
enclose one more point. -/
def BoundingBox.expandByPoint : BoundingBox → Vec3 → BoundingBox
  | .empty, p => .corners p p
  | .corners lo hi, p => .corners (vmin lo p) (vmax hi p)

/-- An affine transform (Eigen Affine3 idealized): a linear part given by
its three rows, plus a translation. -/
structure Affine3 where
  r1 : Vec3
  r2 : Vec3
  r3 : Vec3
  t : Vec3
deriving DecidableEq, Repr

/-- Dot product of two vectors. -/
def dot (a b : Vec3) : ℚ := a.x * b.x + a.y * b.y + a.z * b.z

/-- Apply an affine transform to a point. -/
def Affine3.apply (T : Affine3) (p : Vec3) : Vec3 :=
  ⟨dot T.r1 p + T.t.x, dot T.r2 p + T.t.y, dot T.r3 p + T.t.z⟩

/-- The affine transform scale.asDiagonal() used by SgScaleTransform. -/
def Affine3.diagonal (s : Vec3) : Affine3 :=
  ⟨⟨s.x, 0, 0⟩, ⟨0, s.y, 0⟩, ⟨0, 0, s.z⟩, ⟨0, 0, 0⟩⟩

/-- Modelled from the spec: BoundingBox::transform(T) replaces the box by
the axis-aligned box of its eight transformed corners; an empty box stays
empty. -/
def BoundingBox.transform : BoundingBox → Affine3 → BoundingBox
  | .empty, _ => .empty
  | .corners lo hi, T =>
    let cs : List Vec3 :=
      [⟨lo.x, lo.y, lo.z⟩, ⟨lo.x, lo.y, hi.z⟩, ⟨lo.x, hi.y, lo.z⟩, ⟨lo.x, hi.y, hi.z⟩,
       ⟨hi.x, lo.y, lo.z⟩, ⟨hi.x, lo.y, hi.z⟩, ⟨hi.x, hi.y, lo.z⟩, ⟨hi.x, hi.y, hi.z⟩]
    cs.foldl (fun b c => b.expandByPoint (T.apply c)) .empty

/-- Modelled from the spec: the action tag of the update descriptor SgUpdate
(declared in SceneGraph.h, not among the given sources): a subtree was
added, removed, or content was modified. -/
inductive SgAction where
  | added
  | removed
  | modified
deriving DecidableEq, Repr

/-- Observable events.  `updated` records one firing of an object's
sigUpdated signal; `graphConnection` records one firing of its
sigGraphConnection signal with the emitted Bool; `ownerRemoved` is
instrumentation recording each call of SgObject::removeOwner, so that
claims about how often removeOwner is called can be stated. -/
inductive Event where
  | updated (id : Nat) (action : SgAction)
  | graphConnection (id : Nat) (isOn : Bool)
  | ownerRemoved (id : Nat) (owner : Nat)
deriving DecidableEq, Repr

/-- The kind of a scene object, carrying the kind-specific fields.
`group` also stands for the SgGroup subclasses that change only traversal
semantics (SgInvariantGroup, SgUnpickableGroup, SgOverlay): they inherit
the SgGroup child/bounding-box mechanics verbatim.  `mesh` keeps the
payload references and the stored bounding box of SgMesh; its triangle
index data, which no claim touches through the graph, is modelled
separately for the mesh-generator claims. -/
inductive SgKind where
  | node
  | group
  | posTransform (T : Affine3)
  | scaleTransform (scale : Vec3)
  | shape (mesh material texture : Option Nat)
  | mesh (vertices normals colors : Option Nat) (bbox : BoundingBox)
  | vertexArray (data : List Vec3)
  | material
  | texture (image textureTransform : Option Nat)
  | image (pixels : List Nat)
  | textureTransform
deriving DecidableEq, Repr

/-- Does the object inherit SgGroup's bounding-box cache and its
transferUpdate override? -/
def SgKind.isGroupKind : SgKind → Bool
  | .group | .posTransform _ | .scaleTransform _ => true
  | _ => false

/-- The per-object state: SgObject's name and owner container, plus the
child list and bounding-box cache fields contributed by SgGroup and
SgTransform (unused and constant for kinds that do not have them).
The owner container is declared in SceneGraph.h (not among the given
sources); modelled from the spec as a multiset, kept as a list whose order
is irrelevant to every claim. -/
structure SgNodeState where
  name : String := ""
  owners : List Nat := []
  kind : SgKind
  children : List Nat := []
  isBboxCacheValid : Bool := false
  bboxCache : BoundingBox := .empty
  untransformedBboxCache : BoundingBox := .empty
deriving DecidableEq, Repr

/-- The heap of scene objects (id = position) together with the event log. -/
structure Scene where
  nodes : List SgNodeState
  log : List Event := []
deriving DecidableEq, Repr

/-- Dereference an object id. -/
def Scene.get (s : Scene) (id : Nat) : Option SgNodeState := s.nodes[id]?

/-- Overwrite the object at an id (no-op on a dangling id). -/
def Scene.put (s : Scene) (id : Nat) (n : SgNodeState) : Scene :=
  { s with nodes := s.nodes.set id n }

/-- Update the object at an id by a function (no-op on a dangling id). -/
def Scene.modifyNode (s : Scene) (id : Nat) (f : SgNodeState → SgNodeState) : Scene :=
  match s.nodes[id]? with
  | none => s
  | some n => s.put id (f n)

/-- Append an event to the log. -/
def Scene.emit (s : Scene) (e : Event) : Scene := { s with log := s.log ++ [e] }

/-- Allocate a fresh object, returning its id. -/
def Scene.alloc (s : Scene) (n : SgNodeState) : Scene × Nat :=
  ({ s with nodes := s.nodes ++ [n] }, s.nodes.length)

/-- The child list of an object (empty for a dangling id). -/
def childrenOf (s : Scene) (id : Nat) : List Nat := ((s.get id).map (·.children)).getD []

/-- The owner multiset of an object (empty for a dangling id). -/
def ownersOf (s : Scene) (id : Nat) : List Nat := ((s.get id).map (·.owners)).getD []

/-- The kind of an object. -/
def kindOf (s : Scene) (id : Nat) : Option SgKind := (s.get id).map (·.kind)

/-- The bounding-box-cache validity flag of an object. -/
def validOf (s : Scene) (id : Nat) : Bool := ((s.get id).map (·.isBboxCacheValid)).getD false

/-- The cached bounding box of an object. -/
def cacheOf (s : Scene) (id : Nat) : BoundingBox := ((s.get id).map (·.bboxCache)).getD .empty

/-- The cached untransformed bounding box of a transform object. -/
def uncacheOf (s : Scene) (id : Nat) : BoundingBox :=
  ((s.get id).map (·.untransformedBboxCache)).getD .empty

/-- Modelled from the spec: SgGroup::invalidateBoundingBox (inline in
SceneGraph.h, not among the given sources) marks the cache not-valid. -/
def invalidateBoundingBox (s : Scene) (id : Nat) : Scene :=
  s.modifyNode id (fun n => { n with isBboxCacheValid := false })

/-- SgObject::transferUpdate / SgGroup::transferUpdate: invalidate the
bounding-box cache when the receiver is a group, fire the sigUpdated
signal, and recurse into every current owner.  Fuel bounds the recursion
depth (the C++ walk terminates because the owner graph is acyclic); every
recursive call decrements it.  The path pushed onto the SgUpdate
descriptor is not modelled: no claim reads it. -/
def transferUpdate : Nat → Scene → Nat → SgAction → Scene
  | 0, s, _, _ => s
  | fuel + 1, s, id, a =>
    match s.get id with
    | none => s
    | some n =>
      let s1 := if n.kind.isGroupKind then invalidateBoundingBox s id else s
      let s2 := s1.emit (.updated id a)
      n.owners.foldl (fun acc o => transferUpdate fuel acc o a) s2

/-- Modelled from the spec: SgObject::notifyUpdate (inline in SceneGraph.h,
not among the given sources) announces a local mutation by starting the
transferUpdate walk at this object with the given action descriptor. -/
def notifyUpdate (fuel : Nat) (s : Scene) (id : Nat) (a : SgAction) : Scene :=
  transferUpdate fuel s id a

/-- SgObject::addOwner(node): insert into the owner multiset; if the
multiset now has exactly one element, fire sigGraphConnection(true). -/
def addOwner (s : Scene) (id owner : Nat) : Scene :=
  match s.get id with
  | none => s
  | some n =>
    let n2 := { n with owners := owner :: n.owners }
    let s1 := s.put id n2
    if n2.owners.length = 1 then s1.emit (.graphConnection id true) else s1

/-- SgObject::addOwner(node, update): insert into the owner multiset, run
the transferUpdate walk from this object, then fire
sigGraphConnection(true) if the multiset has exactly one element. -/
def addOwnerWithUpdate (fuel : Nat) (s : Scene) (id owner : Nat) (a : SgAction) : Scene :=
  match s.get id with
  | none => s
  | some n =>
    let n2 := { n with owners := owner :: n.owners }
    let s1 := s.put id n2
    let s2 := transferUpdate fuel s1 id a
    if n2.owners.length = 1 then s2.emit (.graphConnection id true) else s2

/-- SgObject::removeOwner(node): remove one occurrence from the owner
multiset (the container semantics are spec-modelled, see SgNodeState); if
the multiset is now empty, fire sigGraphConnection(false).  The call
itself is recorded in the log. -/
def removeOwner (s : Scene) (id owner : Nat) : Scene :=
  match s.get id with
  | none => s
  | some n =>
    let s0 := s.emit (.ownerRemoved id owner)
    let n2 := { n with owners := n.owners.erase owner }
    let s1 := s0.put id n2
    if n2.owners.isEmpty then s1.emit (.graphConnection id false) else s1

/-- SgGroup::addChild(node, doNotify): ignore a null pointer; otherwise
append the node to the child list, then register this group as an owner,
wrapped in an ADDED update walk when doNotify is set. -/
def addChild (fuel : Nat) (s : Scene) (g : Nat) (nodeRef : Option Nat) (doNotify : Bool) :
    Scene :=
  match nodeRef with
  | none => s
  | some n =>
    match s.get g with
    | none => s
    | some gn =>
      let s1 := s.put g { gn with children := gn.children ++ [n] }
      if doNotify then addOwnerWithUpdate fuel s1 n g .added
      else addOwner s1 n g

/-- The erase loop of SgGroup::removeChild: walk the child list; at every
occurrence of the node, fire the REMOVED notification (when doNotify),
drop the occurrence, and call removeOwner.  Returns the final state, the
kept children, and whether anything was removed. -/
def removeChildLoop (fuel g n : Nat) (doNotify : Bool) :
    Scene → List Nat → Scene × List Nat × Bool
  | s, [] => (s, [], false)
  | s, c :: cs =>
    if c = n then
      let s1 := if doNotify then notifyUpdate fuel s c .removed else s
      let s2 := removeOwner s1 c g
      let r := removeChildLoop fuel g n doNotify s2 cs
      (r.1, r.2.1, true)
    else
      let r := removeChildLoop fuel g n doNotify s cs
      (r.1, c :: r.2.1, r.2.2)

/-- SgGroup::removeChild(node, doNotify): remove every occurrence of the
node from the child list, calling removeOwner per occurrence; return
whether at least one occurrence was removed. -/
def removeChild (fuel : Nat) (s : Scene) (g n : Nat) (doNotify : Bool) : Scene × Bool :=
  match s.get g with
  | none => (s, false)
  | some gn =>
    let r := removeChildLoop fuel g n doNotify s gn.children
    (r.1.modifyNode g (fun m => { m with children := r.2.1 }), r.2.2)

/-- SgGroup::removeChildAt(index, doNotify): fire the REMOVED notification
(when doNotify), call removeOwner, and erase the entry at the index (the
source assumes a valid index; an out-of-range index is a no-op here). -/
def removeChildAt (fuel : Nat) (s : Scene) (g : Nat) (index : Nat) (doNotify : Bool) :
    Scene :=
  match s.get g with
  | none => s
  | some gn =>
    match gn.children[index]? with
    | none => s
    | some c =>
      let s1 := if doNotify then notifyUpdate fuel s c .removed else s
      let s2 := removeOwner s1 c g
      s2.modifyNode g (fun m => { m with children := m.children.eraseIdx index })

/-- SgGroup::clearChildren(doNotify): fire the REMOVED notification for
every child (when doNotify) and clear the child list.  The source does not
call removeOwner here. -/
def clearChildren (fuel : Nat) (s : Scene) (g : Nat) (doNotify : Bool) : Scene :=
  match s.get g with
  | none => s
  | some gn =>
    let s1 :=
      if doNotify then gn.children.foldl (fun acc c => notifyUpdate fuel acc c .removed) s
      else s
    s1.modifyNode g (fun m => { m with children := [] })

/-- SgShape::boundingBox reads the bounding box stored in its mesh (empty
when there is no mesh, falling back to SgNode::boundingBox). -/
def meshBBox (s : Scene) (m : Option Nat) : BoundingBox :=
  match m with
  | none => .empty
  | some mid =>
    match kindOf s mid with
    | some (.mesh _ _ _ b) => b
    | _ => .empty

mutual

/-- The boundingBox() virtual: SgNode returns the static empty box; SgShape
returns its mesh box; SgMeshBase returns its stored box; SgGroup returns
the cache when valid and otherwise recomputes it as the union of the
children's boundingBox() results and marks it valid; SgPosTransform and
SgScaleTransform additionally store the pre-transform union in the
untransformed cache and transform the result.  Fuel bounds the recursion
(the child graph is acyclic in the C++ design); every recursive call
decrements it, and exhaustion yields none.  Non-node payload kinds are
never asked for a bounding box; they answer the empty box. -/
def boundingBox : Nat → Scene → Nat → Option (BoundingBox × Scene)
  | 0, _, _ => none
  | fuel + 1, s, id =>
    match s.get id with
    | none => none
    | some n =>
      match n.kind with
      | .node => some (.empty, s)
      | .shape m _ _ => some (meshBBox s m, s)
      | .mesh _ _ _ b => some (b, s)
      | .vertexArray _ => some (.empty, s)
      | .material => some (.empty, s)
      | .texture _ _ => some (.empty, s)
      | .image _ => some (.empty, s)
      | .textureTransform => some (.empty, s)
      | .group =>
        if n.isBboxCacheValid then some (n.bboxCache, s)
        else
          match childUnion fuel s n.children .empty with
          | none => none
          | some (u, s1) =>
            some (u, s1.modifyNode id
              (fun m => { m with isBboxCacheValid := true, bboxCache := u }))
      | .posTransform T =>
        if n.isBboxCacheValid then some (n.bboxCache, s)
        else
          match childUnion fuel s n.children .empty with
          | none => none
          | some (u, s1) =>
            some (u.transform T, s1.modifyNode id
              (fun m => { m with isBboxCacheValid := true,
                                 untransformedBboxCache := u,
                                 bboxCache := u.transform T }))
      | .scaleTransform sc =>
        if n.isBboxCacheValid then some (n.bboxCache, s)
        else
          match childUnion fuel s n.children .empty with
          | none => none
          | some (u, s1) =>
            some (u.transform (Affine3.diagonal sc), s1.modifyNode id
              (fun m => { m with isBboxCacheValid := true,
                                 untransformedBboxCache := u,
                                 bboxCache := u.transform (Affine3.diagonal sc) }))

/-- The loop of SgGroup::boundingBox: fold expandBy over the children's
boundingBox() results, threading the state. -/
def childUnion : Nat → Scene → List Nat → BoundingBox → Option (BoundingBox × Scene)
  | _, s, [], acc => some (acc, s)
  | 0, _, _ :: _, _ => none
  | fuel + 1, s, c :: cs, acc =>
    match boundingBox fuel s c with
    | none => none
    | some (b, s1) => childUnion fuel s1 cs (acc.expandBy b)

end

/-- SgTransform::untransformedBoundingBox: if the cache is not valid, run
boundingBox() first; then return the untransformed cache. -/
def untransformedBoundingBox (fuel : Nat) (s : Scene) (id : Nat) :
    Option (BoundingBox × Scene) :=
  match s.get id with
  | none => none
  | some n =>
    if n.isBboxCacheValid then some (n.untransformedBboxCache, s)
    else
      match boundingBox fuel s id with
      | none => none
      | some (_, s1) => some (uncacheOf s1 id, s1)

/-- The copy constructor SgGroup(const SgGroup&): construct a fresh group,
addChild(child, false) for every child of the original, then copy the
bounding-box cache and mark it valid. -/
def sgGroupCopy (s : Scene) (orgId : Nat) : Scene × Option Nat :=
  match s.get orgId with
  | none => (s, none)
  | some org =>
    let r := s.alloc { name := org.name, kind := .group }
    let s2 := org.children.foldl (fun acc c => addChild 0 acc r.2 (some c) false) r.1
    (s2.modifyNode r.2
      (fun n => { n with isBboxCacheValid := true, bboxCache := org.bboxCache }), some r.2)

/-- SgShape::setMesh: deregister the old mesh, store the new reference,
register ownership (each step skipped for a null reference). -/
def setMesh (s : Scene) (sh : Nat) (m : Option Nat) : Scene :=
  match s.get sh with
  | some n =>
    match n.kind with
    | .shape oldm mat tex =>
      let s1 := match oldm with | some om => removeOwner s om sh | none => s
      let s2 := s1.modifyNode sh (fun k => { k with kind := .shape m mat tex })
      match m with | some mm => addOwner s2 mm sh | none => s2
    | _ => s
  | none => s

/-- SgShape::setMaterial, with the same deregister/store/register shape as
setMesh. -/
def setMaterial (s : Scene) (sh : Nat) (mat : Option Nat) : Scene :=
  match s.get sh with
  | some n =>
    match n.kind with
    | .shape m oldmat tex =>
      let s1 := match oldmat with | some o => removeOwner s o sh | none => s
      let s2 := s1.modifyNode sh (fun k => { k with kind := .shape m mat tex })
      match mat with | some mm => addOwner s2 mm sh | none => s2
    | _ => s
  | none => s

/-- SgShape::setTexture, with the same deregister/store/register shape as
setMesh. -/
def setTexture (s : Scene) (sh : Nat) (tex : Option Nat) : Scene :=
  match s.get sh with
  | some n =>
    match n.kind with
    | .shape m mat oldtex =>
      let s1 := match oldtex with | some o => removeOwner s o sh | none => s
      let s2 := s1.modifyNode sh (fun k => { k with kind := .shape m mat tex })
      match tex with | some t => addOwner s2 t sh | none => s2
    | _ => s
  | none => s

/-- SgMeshBase::setVertices on a mesh object. -/
def setVertices (s : Scene) (mid : Nat) (v : Option Nat) : Scene :=
  match s.get mid with
  | some n =>
    match n.kind with
    | .mesh oldv nrm col b =>
      let s1 := match oldv with | some o => removeOwner s o mid | none => s
      let s2 := s1.modifyNode mid (fun k => { k with kind := .mesh v nrm col b })
      match v with | some vv => addOwner s2 vv mid | none => s2
    | _ => s
  | none => s

/-- SgMeshBase::setNormals on a mesh object. -/
def setNormals (s : Scene) (mid : Nat) (nv : Option Nat) : Scene :=
  match s.get mid with
  | some n =>
    match n.kind with
    | .mesh v oldn col b =>
      let s1 := match oldn with | some o => removeOwner s o mid | none => s
      let s2 := s1.modifyNode mid (fun k => { k with kind := .mesh v nv col b })
      match nv with | some vv => addOwner s2 vv mid | none => s2
    | _ => s
  | none => s

/-- SgMeshBase::setColors on a mesh object. -/
def setColors (s : Scene) (mid : Nat) (cv : Option Nat) : Scene :=
  match s.get mid with
  | some n =>
    match n.kind with
    | .mesh v nrm oldc b =>
      let s1 := match oldc with | some o => removeOwner s o mid | none => s
      let s2 := s1.modifyNode mid (fun k => { k with kind := .mesh v nrm cv b })
      match cv with | some vv => addOwner s2 vv mid | none => s2
    | _ => s
  | none => s

/-- SgTexture::setImage. -/
def setImage (s : Scene) (t : Nat) (img : Option Nat) : Scene :=
  match s.get t with
  | some n =>
    match n.kind with
    | .texture oldi tt =>
      let s1 := match oldi with | some o => removeOwner s o t | none => s
      let s2 := s1.modifyNode t (fun k => { k with kind := .texture img tt })
      match img with | some i => addOwner s2 i t | none => s2
    | _ => s
  | none => s

/-- SgTexture::setTextureTransform. -/
def setTextureTransformRef (s : Scene) (t : Nat) (tt : Option Nat) : Scene :=
  match s.get t with
  | some n =>
    match n.kind with
    | .texture img oldtt =>
      let s1 := match oldtt with | some o => removeOwner s o t | none => s
      let s2 := s1.modifyNode t (fun k => { k with kind := .texture img tt })
      match tt with | some i => addOwner s2 i t | none => s2
    | _ => s
  | none => s

/-- The per-operation clone dictionary SgCloneMap: a map from original id
to clone id (an association list; keys are inserted only when absent, as
in the source), plus the non-node cloning flag, which defaults to true. -/
structure SgCloneMap where
  entries : List (Nat × Nat) := []
  isNonNodeCloningEnabled : Bool := true
deriving DecidableEq, Repr

/-- Lookup in the clone dictionary. -/
def SgCloneMap.find (cm : SgCloneMap) (org : Nat) : Option Nat :=
  (cm.entries.find? (fun e => e.fst = org)).map Prod.snd

/-- Insertion into the clone dictionary. -/
def SgCloneMap.insert (cm : SgCloneMap) (org c : Nat) : SgCloneMap :=
  { cm with entries := (org, c) :: cm.entries }

mutual

/-- SgCloneMap::findOrCreateClone: if the original is already a key, return
the stored clone; otherwise run the original's polymorphic clone through
this same map, store the result under the original, and return it.  Fuel
bounds the recursion (the source assumes an acyclic graph); every
recursive call decrements it. -/
def findOrCreateClone (fuel : Nat) (s : Scene) (cm : SgCloneMap) (org : Nat) :
    Option (Scene × SgCloneMap × Nat) :=
  match fuel with
  | 0 => none
  | fuel + 1 =>
    match cm.find org with
    | some c => some (s, cm, c)
    | none =>
      match s.get org with
      | none => none
      | some n =>
        match cloneObject fuel s cm n with
        | none => none
        | some (s1, cm1, c) => some (s1, cm1.insert org c, c)

/-- The polymorphic clone(cloneMap) of each concrete class, transcribed
from the copy-with-map constructors of the source: groups and transforms
clone every child through the map and addChild it with doNotify false,
then copy the cache fields (SgGroup and SgTransform constructors); SgShape,
SgMesh and SgTexture clone their payload references through the map when
non-node cloning is enabled and otherwise store the original references
verbatim; SgNode, SgMaterial, SgImage, SgTextureTransform and the vertex
arrays clone by plain copy.  (SgImage copies share the underlying pixel
buffer copy-on-write in the source; at the object level a fresh SgImage is
allocated, which is what the id model records.) -/
def cloneObject (fuel : Nat) (s : Scene) (cm : SgCloneMap) (n : SgNodeState) :
    Option (Scene × SgCloneMap × Nat) :=
  match fuel with
  | 0 => none
  | fuel + 1 =>
    match n.kind with
    | .node =>
      let r := s.alloc { name := n.name, kind := .node }
      some (r.1, cm, r.2)
    | .vertexArray d =>
      let r := s.alloc { name := n.name, kind := .vertexArray d }
      some (r.1, cm, r.2)
    | .material =>
      let r := s.alloc { name := n.name, kind := .material }
      some (r.1, cm, r.2)
    | .image px =>
      let r := s.alloc { name := n.name, kind := .image px }
      some (r.1, cm, r.2)
    | .textureTransform =>
      let r := s.alloc { name := n.name, kind := .textureTransform }
      some (r.1, cm, r.2)
    | .group =>
      let r := s.alloc { name := n.name, kind := .group }
      match cloneAddChildren fuel r.1 cm r.2 n.children with
      | none => none
      | some (s2, cm2) =>
        some (s2.modifyNode r.2
          (fun k => { k with isBboxCacheValid := true, bboxCache := n.bboxCache }),
          cm2, r.2)
    | .posTransform T =>
      let r := s.alloc { name := n.name, kind := .posTransform T }
      match cloneAddChildren fuel r.1 cm r.2 n.children with
      | none => none
      | some (s2, cm2) =>
        some (s2.modifyNode r.2
          (fun k => { k with isBboxCacheValid := true, bboxCache := n.bboxCache,
                             untransformedBboxCache := n.untransformedBboxCache }),
          cm2, r.2)
    | .scaleTransform sc =>
      let r := s.alloc { name := n.name, kind := .scaleTransform sc }
      match cloneAddChildren fuel r.1 cm r.2 n.children with
      | none => none
      | some (s2, cm2) =>
        some (s2.modifyNode r.2
          (fun k => { k with isBboxCacheValid := true, bboxCache := n.bboxCache,
                             untransformedBboxCache := n.untransformedBboxCache }),
          cm2, r.2)
    | .shape m mat tex =>
      let r := s.alloc { name := n.name, kind := .shape none none none }
      if cm.isNonNodeCloningEnabled then
        match cloneOptionalRef fuel r.1 cm m with
        | none => none
        | some (s2, cm2, m2) =>
          match cloneOptionalRef fuel (setMesh s2 r.2 m2) cm2 mat with
          | none => none
          | some (s3, cm3, mat3) =>
            match cloneOptionalRef fuel (setMaterial s3 r.2 mat3) cm3 tex with
            | none => none
            | some (s4, cm4, tex4) => some (setTexture s4 r.2 tex4, cm4, r.2)
      else
        some (setTexture (setMaterial (setMesh r.1 r.2 m) r.2 mat) r.2 tex, cm, r.2)
    | .mesh v nrm col b =>
      let r := s.alloc { name := n.name, kind := .mesh none none none b }
      if cm.isNonNodeCloningEnabled then
        match cloneOptionalRef fuel r.1 cm v with
        | none => none
        | some (s2, cm2, v2) =>
          match cloneOptionalRef fuel (setVertices s2 r.2 v2) cm2 nrm with
          | none => none
          | some (s3, cm3, n3) =>
            match cloneOptionalRef fuel (setNormals s3 r.2 n3) cm3 col with
            | none => none
            | some (s4, cm4, c4) => some (setColors s4 r.2 c4, cm4, r.2)
      else
        some (setColors (setNormals (setVertices r.1 r.2 v) r.2 nrm) r.2 col, cm, r.2)
    | .texture img tt =>
      let r := s.alloc { name := n.name, kind := .texture none none }
      if cm.isNonNodeCloningEnabled then
        match cloneOptionalRef fuel r.1 cm img with
        | none => none
        | some (s2, cm2, i2) =>
          match cloneOptionalRef fuel (setImage s2 r.2 i2) cm2 tt with
          | none => none
          | some (s3, cm3, t3) => some (setTextureTransformRef s3 r.2 t3, cm3, r.2)
      else
        some (setTextureTransformRef (setImage r.1 r.2 img) r.2 tt, cm, r.2)

/-- Clone an optional payload reference through the map (the
`if(org.field())` guards of the source: a null reference stays null). -/
def cloneOptionalRef (fuel : Nat) (s : Scene) (cm : SgCloneMap) :
    Option Nat → Option (Scene × SgCloneMap × Option Nat)
  | none => some (s, cm, none)
  | some r =>
    match fuel with
    | 0 => none
    | fuel + 1 =>
      match findOrCreateClone fuel s cm r with
      | none => none
      | some (s1, cm1, c) => some (s1, cm1, some c)

/-- The child loop of the SgGroup copy-with-map constructor:
addChild(cloneMap.getClone(child), false) for every child of the
original. -/
def cloneAddChildren (fuel : Nat) (s : Scene) (cm : SgCloneMap) (g : Nat) :
    List Nat → Option (Scene × SgCloneMap)
  | [] => some (s, cm)
  | c :: cs =>
    match fuel with
    | 0 => none
    | fuel + 1 =>
      match findOrCreateClone fuel s cm c with
      | none => none
      | some (s1, cm1, c1) =>
        cloneAddChildren fuel (addChild 0 s1 g (some c1) false) cm1 g cs

end

/-- Writing through an SgVertexArray handle (e.g. assigning through the
reference returned by vertices()): replace the stored coordinate data of
the addressed array object. -/
def mutateVertexArray (s : Scene) (va : Nat) (d : List Vec3) : Scene :=
  match s.get va with
  | some n =>
    match n.kind with
    | .vertexArray _ => s.put va { n with kind := .vertexArray d }
    | _ => s
  | none => s

/-- The vertex data stored in an array object. -/
def vertexDataOf (s : Scene) (va : Nat) : Option (List Vec3) :=
  match kindOf s va with
  | some (.vertexArray d) => some d
  | _ => none

/-- The concrete node classes that implement accept(visitor) in the
source. -/
inductive NodeClass where
  | sgNode
  | sgGroup
  | sgInvariantGroup
  | sgPosTransform
  | sgScaleTransform
  | sgUnpickableGroup
  | sgShape
  | sgPointSet
  | sgLineSet
  | sgPreprocessed
  | sgLight
  | sgDirectionalLight
  | sgPointLight
  | sgSpotLight
  | sgCamera
  | sgPerspectiveCamera
  | sgOrthographicCamera
  | sgFog
  | sgOverlay
deriving DecidableEq, Repr

/-- The visit methods of the SceneVisitor interface that the accept
implementations of the source invoke. -/
inductive VisitMethod where
  | visitNode
  | visitGroup
  | visitInvariantGroup
  | visitPosTransform
  | visitScaleTransform
  | visitUnpickableGroup
  | visitShape
  | visitPointSet
  | visitLineSet
  | visitPreprocessed
  | visitLight
  | visitCamera
  | visitOverlay
deriving DecidableEq, Repr

/-- accept(visitor), transcribed class by class from the source: the list
of visitor invocations (method, argument) that the accept body performs on
a node self.  SgFog::accept has an empty body and performs none. -/
def accept (k : NodeClass) (self : Nat) : List (VisitMethod × Nat) :=
  match k with
  | .sgNode => [(.visitNode, self)]
  | .sgGroup => [(.visitGroup, self)]
  | .sgInvariantGroup => [(.visitInvariantGroup, self)]
  | .sgPosTransform => [(.visitPosTransform, self)]
  | .sgScaleTransform => [(.visitScaleTransform, self)]
  | .sgUnpickableGroup => [(.visitUnpickableGroup, self)]
  | .sgShape => [(.visitShape, self)]
  | .sgPointSet => [(.visitPointSet, self)]
  | .sgLineSet => [(.visitLineSet, self)]
  | .sgPreprocessed => [(.visitPreprocessed, self)]
  | .sgLight => [(.visitLight, self)]
  | .sgDirectionalLight => [(.visitLight, self)]
  | .sgPointLight => [(.visitLight, self)]
  | .sgSpotLight => [(.visitLight, self)]
  | .sgCamera => [(.visitCamera, self)]
  | .sgPerspectiveCamera => [(.visitCamera, self)]
  | .sgOrthographicCamera => [(.visitCamera, self)]
  | .sgFog => []
  | .sgOverlay => [(.visitOverlay, self)]

/-- The kind-specific visitor method of each class: the method the closed
SceneVisitor interface provides for that node kind.  Light and camera
subclasses dispatch as their base kind; the interface provides no
fog-specific method. -/
def kindVisitMethod : NodeClass → Option VisitMethod
  | .sgNode => some .visitNode
  | .sgGroup => some .visitGroup
  | .sgInvariantGroup => some .visitInvariantGroup
  | .sgPosTransform => some .visitPosTransform
  | .sgScaleTransform => some .visitScaleTransform
  | .sgUnpickableGroup => some .visitUnpickableGroup
  | .sgShape => some .visitShape
  | .sgPointSet => some .visitPointSet
  | .sgLineSet => some .visitLineSet
  | .sgPreprocessed => some .visitPreprocessed
  | .sgLight => some .visitLight
  | .sgDirectionalLight => some .visitLight
  | .sgPointLight => some .visitLight
  | .sgSpotLight => some .visitLight
  | .sgCamera => some .visitCamera
  | .sgPerspectiveCamera => some .visitCamera
  | .sgOrthographicCamera => some .visitCamera
  | .sgFog => none
  | .sgOverlay => some .visitOverlay

/-- The SgMesh fields written by SgMesh::setBox and read by the claims:
the vertex array contents, the triangle index list, the stored primitive
box size, and the stored bounding box.  The normal generation step of the
source (MeshNormalGenerator, a file not among the given sources) is not
modelled; no claim reads normals. -/
structure SgMeshData where
  vertices : List Vec3 := []
  triangleVertices : List Nat := []
  primitiveBox : Option Vec3 := none
  bbox : BoundingBox := .empty
deriving DecidableEq, Repr

/-- The eight box corner vertices pushed by SgMesh::setBox and
MeshGenerator::generateBox, at half the size per axis. -/
def boxVertices (size : Vec3) : List Vec3 :=
  let x := size.x / 2
  let y := size.y / 2
  let z := size.z / 2
  [⟨x, y, z⟩, ⟨-x, y, z⟩, ⟨-x, -y, z⟩, ⟨x, -y, z⟩,
   ⟨x, y, -z⟩, ⟨-x, y, -z⟩, ⟨-x, -y, -z⟩, ⟨x, -y, -z⟩]

/-- The twelve triangles added by SgMesh::setBox and
MeshGenerator::generateBox. -/
def boxTriangles : List Nat :=
  [0, 1, 2, 2, 3, 0, 0, 5, 1, 0, 4, 5, 1, 5, 6, 1, 6, 2,
   2, 6, 7, 2, 7, 3, 3, 7, 4, 3, 4, 0, 4, 6, 5, 4, 7, 6]

/-- SgMeshBase::updateBoundingBox on present vertices: fold expandBy over
every vertex. -/
def meshBoundsOf (vs : List Vec3) : BoundingBox :=
  vs.foldl .expandByPoint .empty

/-- SgMesh::setBox(size): reject (returning false, with the mesh
untouched) when a size component is negative; otherwise store the eight
box vertices, the twelve triangles, the Box primitive descriptor, and the
recomputed bounding box, returning true. -/
def setBox (m : SgMeshData) (size : Vec3) : Bool × SgMeshData :=
  if size.x < 0 ∨ size.y < 0 ∨ size.z < 0 then (false, m)
  else
    (true,
     { vertices := boxVertices size
       triangleVertices := boxTriangles
       primitiveBox := some size
       bbox := meshBoundsOf (boxVertices size) })

/-- MeshGenerator::generateBox(size): return the null pointer (none) when
a size component is negative; otherwise build a fresh mesh with the same
data as setBox. -/
def generateBox (size : Vec3) : Option SgMeshData :=
  if size.x < 0 ∨ size.y < 0 ∨ size.z < 0 then none
  else
    some
      { vertices := boxVertices size
        triangleVertices := boxTriangles
        primitiveBox := some size
        bbox := meshBoundsOf (boxVertices size) }

/-! ### Basic heap lemmas -/

theorem get_isSome_iff (s : Scene) (id : Nat) : (s.get id).isSome ↔ id < s.nodes.length := by
  rw [Scene.get]
  constructor
  · intro h
    by_contra hlt
    rw [List.getElem?_eq_none (by omega)] at h
    simp at h
  · intro h
    rw [List.getElem?_eq_some_iff.mpr ⟨h, rfl⟩]
    rfl

theorem get_lt_length {s : Scene} {id : Nat} {n : SgNodeState} (h : s.get id = some n) :
    id < s.nodes.length := by
  have := (get_isSome_iff s id).mp (by simp [h])
  exact this

theorem put_length (s : Scene) (id : Nat) (n : SgNodeState) :
    (s.put id n).nodes.length = s.nodes.length := by
  simp [Scene.put]

theorem put_log (s : Scene) (id : Nat) (n : SgNodeState) : (s.put id n).log = s.log := rfl

theorem get_put_self {s : Scene} {id : Nat} (h : id < s.nodes.length) (n : SgNodeState) :
    (s.put id n).get id = some n := by
  simp [Scene.put, Scene.get, List.getElem?_set, h]

theorem get_put_other {s : Scene} {id j : Nat} (h : j ≠ id) (n : SgNodeState) :
    (s.put id n).get j = s.get j := by
  simp [Scene.put, Scene.get, List.getElem?_set, Ne.symm h]

theorem modifyNode_length (s : Scene) (id : Nat) (f : SgNodeState → SgNodeState) :
    (s.modifyNode id f).nodes.length = s.nodes.length := by
  unfold Scene.modifyNode
  cases s.nodes[id]? <;> simp [put_length]

theorem modifyNode_log (s : Scene) (id : Nat) (f : SgNodeState → SgNodeState) :
    (s.modifyNode id f).log = s.log := by
  unfold Scene.modifyNode
  cases s.nodes[id]? <;> simp [put_log]

theorem get_modifyNode_self {s : Scene} {id : Nat} {n : SgNodeState}
    (f : SgNodeState → SgNodeState) (h : s.get id = some n) :
    (s.modifyNode id f).get id = some (f n) := by
  unfold Scene.modifyNode
  have : s.nodes[id]? = some n := h
  rw [this]
  exact get_put_self (get_lt_length h) _

theorem get_modifyNode_other {s : Scene} {id j : Nat} (f : SgNodeState → SgNodeState)
    (h : j ≠ id) : (s.modifyNode id f).get j = s.get j := by
  unfold Scene.modifyNode
  cases s.nodes[id]? <;> first | rfl | exact get_put_other h _

theorem emit_length (s : Scene) (e : Event) : (s.emit e).nodes.length = s.nodes.length := rfl

theorem get_emit (s : Scene) (e : Event) (id : Nat) : (s.emit e).get id = s.get id := rfl

theorem emit_log (s : Scene) (e : Event) : (s.emit e).log = s.log ++ [e] := rfl

theorem invalidate_length (s : Scene) (id : Nat) :
    (invalidateBoundingBox s id).nodes.length = s.nodes.length := modifyNode_length ..

theorem invalidate_log (s : Scene) (id : Nat) :
    (invalidateBoundingBox s id).log = s.log := modifyNode_log ..

/-! ### The structural frame: operations that touch only caches and the log -/

/-- Two scenes with the same object population, kinds, child lists, owner
multisets and names (they may differ in cache fields and log). -/
structure SameStruct (s t : Scene) : Prop where
  len : t.nodes.length = s.nodes.length
  kinds : ∀ id, kindOf t id = kindOf s id
  childs : ∀ id, childrenOf t id = childrenOf s id
  owns : ∀ id, ownersOf t id = ownersOf s id

theorem SameStruct.refl (s : Scene) : SameStruct s s :=
  ⟨Eq.refl _, fun _ => Eq.refl _, fun _ => Eq.refl _, fun _ => Eq.refl _⟩

theorem SameStruct.trans {s t u : Scene} (h1 : SameStruct s t) (h2 : SameStruct t u) :
    SameStruct s u :=
  ⟨h2.len.trans h1.len, fun id => (h2.kinds id).trans (h1.kinds id),
   fun id => (h2.childs id).trans (h1.childs id), fun id => (h2.owns id).trans (h1.owns id)⟩

theorem sameStruct_emit (s : Scene) (e : Event) : SameStruct s (s.emit e) :=
  ⟨rfl, fun _ => rfl, fun _ => rfl, fun _ => rfl⟩

/-- A modifyNode that rewrites only cache fields leaves the structure. -/
theorem sameStruct_modify_cache (s : Scene) (id : Nat) (f : SgNodeState → SgNodeState)
    (hk : ∀ n, (f n).kind = n.kind) (hc : ∀ n, (f n).children = n.children)
    (ho : ∀ n, (f n).owners = n.owners) : SameStruct s (s.modifyNode id f) := by
  refine ⟨modifyNode_length .., ?_, ?_, ?_⟩ <;> intro j <;>
    rcases Decidable.em (j = id) with h | h
  · subst h
    cases hg : s.get j with
    | none =>
      unfold Scene.modifyNode
      rw [show s.nodes[j]? = none from hg]
    | some n => rw [kindOf, kindOf, get_modifyNode_self f hg, hg]; simp [hk]
  · rw [kindOf, kindOf, get_modifyNode_other f h]
  · subst h
    cases hg : s.get j with
    | none =>
      unfold Scene.modifyNode
      rw [show s.nodes[j]? = none from hg]
    | some n => rw [childrenOf, childrenOf, get_modifyNode_self f hg, hg]; simp [hc]
  · rw [childrenOf, childrenOf, get_modifyNode_other f h]
  · subst h
    cases hg : s.get j with
    | none =>
      unfold Scene.modifyNode
      rw [show s.nodes[j]? = none from hg]
    | some n => rw [ownersOf, ownersOf, get_modifyNode_self f hg, hg]; simp [ho]
  · rw [ownersOf, ownersOf, get_modifyNode_other f h]

theorem sameStruct_invalidate (s : Scene) (id : Nat) :
    SameStruct s (invalidateBoundingBox s id) :=
  sameStruct_modify_cache s id _ (fun _ => rfl) (fun _ => rfl) (fun _ => rfl)

/-- A foldl whose step preserves a unary scene property preserves it. -/
theorem foldl_preserve {α : Type} {f : Scene → α → Scene} {P : Scene → Prop}
    (h : ∀ s x, P s → P (f s x)) : ∀ (l : List α) (s : Scene), P s → P (l.foldl f s) := by
  intro l
  induction l with
  | nil => intro s hs; exact hs
  | cons x xs ih => intro s hs; exact ih _ (h s x hs)

/-- transferUpdate touches only caches and the log. -/
theorem sameStruct_transferUpdate :
    ∀ fuel s id a, SameStruct s (transferUpdate fuel s id a) := by
  intro fuel
  induction fuel with
  | zero => intro s id a; exact SameStruct.refl s
  | succ f ih =>
    intro s id a
    show SameStruct s (transferUpdate (f + 1) s id a)
    unfold transferUpdate
    cases hg : s.get id with
    | none => exact SameStruct.refl s
    | some n =>
      have h1 : SameStruct s (if n.kind.isGroupKind then invalidateBoundingBox s id else s) := by
        cases n.kind.isGroupKind <;> simp [sameStruct_invalidate, SameStruct.refl]
      have h2 : SameStruct s (((if n.kind.isGroupKind then invalidateBoundingBox s id
          else s)).emit (.updated id a)) := h1.trans (sameStruct_emit _ _)
      refine h2.trans (foldl_preserve (P := fun t => SameStruct (((if n.kind.isGroupKind
        then invalidateBoundingBox s id else s)).emit (.updated id a)) t) ?_ n.owners _
        (SameStruct.refl _))
      intro t o ht
      exact ht.trans (ih t o a)

theorem transferUpdate_length (fuel : Nat) (s : Scene) (id : Nat) (a : SgAction) :
    (transferUpdate fuel s id a).nodes.length = s.nodes.length :=
  (sameStruct_transferUpdate fuel s id a).len

/-! ### Event-log lemmas -/

/-- The transferUpdate walk appends only sigUpdated events to the log. -/
theorem transferUpdate_log_updated :
    ∀ fuel s id a, ∃ ext, (transferUpdate fuel s id a).log = s.log ++ ext ∧
      ∀ e ∈ ext, ∃ j b, e = Event.updated j b := by
  intro fuel
  induction fuel with
  | zero => intro s id a; exact ⟨[], by simp [transferUpdate], by simp⟩
  | succ f ih =>
    intro s id a
    show ∃ ext, (transferUpdate (f + 1) s id a).log = s.log ++ ext ∧ _
    unfold transferUpdate
    cases hg : s.get id with
    | none => exact ⟨[], by simp, by simp⟩
    | some n =>
      have hfold : ∀ (l : List Nat) (s0 : Scene),
          ∃ ext, ((l.foldl (fun acc o => transferUpdate f acc o a) s0)).log = s0.log ++ ext ∧
            ∀ e ∈ ext, ∃ j b, e = Event.updated j b := by
        intro l
        induction l with
        | nil => intro s0; exact ⟨[], by simp, by simp⟩
        | cons o os ihl =>
          intro s0
          rcases ih s0 o a with ⟨e1, he1, hu1⟩
          rcases ihl (transferUpdate f s0 o a) with ⟨e2, he2, hu2⟩
          refine ⟨e1 ++ e2, ?_, ?_⟩
          · rw [List.foldl_cons, he2, he1, List.append_assoc]
          · intro e he
            rcases List.mem_append.mp he with h | h
            · exact hu1 e h
            · exact hu2 e h
      rcases hfold n.owners ((if n.kind.isGroupKind then invalidateBoundingBox s id
          else s).emit (.updated id a)) with ⟨ext, hext, hu⟩
      refine ⟨.updated id a :: ext, ?_, ?_⟩
      · rw [hext]
        have hlog : ((if n.kind.isGroupKind then invalidateBoundingBox s id
            else s).emit (.updated id a)).log = s.log ++ [Event.updated id a] := by
          cases n.kind.isGroupKind <;> simp [emit_log, invalidate_log]
        rw [hlog, List.append_assoc]
        rfl
      · intro e he
        rcases List.mem_cons.mp he with h | h
        · exact ⟨id, a, h⟩
        · exact hu e h

/-- A log filter that ignores sigUpdated events sees no change from a
transferUpdate walk. -/
theorem transferUpdate_log_filter (p : Event → Bool)
    (hp : ∀ j b, p (Event.updated j b) = false) (fuel : Nat) (s : Scene) (id : Nat)
    (a : SgAction) :
    (transferUpdate fuel s id a).log.filter p = s.log.filter p := by
  rcases transferUpdate_log_updated fuel s id a with ⟨ext, hext, hu⟩
  rw [hext, List.filter_append]
  have : ext.filter p = [] := by
    rw [List.filter_eq_nil_iff]
    intro e he
    rcases hu e he with ⟨j, b, rfl⟩
    simp [hp]
  rw [this, List.append_nil]

/-- The sigGraphConnection events concerning one object. -/
def connEventsAt (x : Nat) (l : List Event) : List Event :=
  l.filter fun e =>
    match e with
    | .graphConnection y _ => y == x
    | _ => false

/-- The recorded removeOwner calls on object x by owner g. -/
def ownerRemovedCount (x g : Nat) (l : List Event) : Nat :=
  l.count (Event.ownerRemoved x g)

/-! ### Cache-validity lemmas -/

theorem validOf_invalidate_self (s : Scene) (id : Nat) :
    validOf (invalidateBoundingBox s id) id = false := by
  unfold invalidateBoundingBox
  cases hg : s.get id with
  | none =>
    unfold Scene.modifyNode
    rw [show s.nodes[id]? = none from hg]
    have h2 : s.nodes[id]? = none := hg
    simp [validOf, Scene.get, h2]
  | some n => simp [validOf, get_modifyNode_self _ hg]

theorem validOf_invalidate_other {s : Scene} {id j : Nat} (h : j ≠ id) :
    validOf (invalidateBoundingBox s id) j = validOf s j := by
  unfold invalidateBoundingBox
  rw [validOf, get_modifyNode_other _ h, validOf]

/-- transferUpdate never validates a cache. -/
theorem tu_valid_false_persist :
    ∀ fuel s id a g, validOf s g = false → validOf (transferUpdate fuel s id a) g = false := by
  intro fuel
  induction fuel with
  | zero => intro s id a g h; exact h
  | succ f ih =>
    intro s id a g h
    show validOf (transferUpdate (f + 1) s id a) g = false
    unfold transferUpdate
    cases hg : s.get id with
    | none => exact h
    | some n =>
      refine foldl_preserve (P := fun t => validOf t g = false)
        (fun t o ht => ih t o a g ht) n.owners _ ?_
      have h1 : validOf (if n.kind.isGroupKind then invalidateBoundingBox s id else s) g
          = false := by
        cases hk : n.kind.isGroupKind
        · simpa using h
        · simp only [if_pos]
          rcases Decidable.em (g = id) with rfl | hne
          · exact validOf_invalidate_self s g
          · rw [validOf_invalidate_other hne]; exact h
      simpa [validOf, get_emit] using h1

/-- A group that receives a transferUpdate walk directly has an invalid
cache afterwards. -/
theorem tu_invalidates_group (f : Nat) {s : Scene} {g : Nat} {gk : SgKind} (a : SgAction)
    (hk : kindOf s g = some gk) (hgrp : gk.isGroupKind = true) :
    validOf (transferUpdate (f + 1) s g a) g = false := by
  have hget : ∃ n, s.get g = some n ∧ n.kind = gk := by
    unfold kindOf at hk
    cases hg : s.get g with
    | none => rw [hg] at hk; simp at hk
    | some n => rw [hg] at hk; exact ⟨n, rfl, by simpa using hk⟩
  rcases hget with ⟨n, hg, hnk⟩
  show validOf (transferUpdate (f + 1) s g a) g = false
  unfold transferUpdate
  rw [hg]
  have hkind : n.kind.isGroupKind = true := by rw [hnk]; exact hgrp
  simp only [hkind, if_pos]
  refine foldl_preserve (P := fun t => validOf t g = false)
    (fun t o ht => tu_valid_false_persist f t o a g ht) n.owners _ ?_
  have := validOf_invalidate_self s g
  simpa [validOf, get_emit] using this

/-- Any foldl of transferUpdate walks over a list containing a group
invalidates that group. -/
theorem foldl_tu_invalidates (f : Nat) (a : SgAction) {g : Nat} :
    ∀ (l : List Nat) (s : Scene), g ∈ l → ∀ gk, kindOf s g = some gk →
      gk.isGroupKind = true →
      validOf (l.foldl (fun acc o => transferUpdate (f + 1) acc o a) s) g = false := by
  intro l
  induction l with
  | nil => intro s h; cases h
  | cons o os ih =>
    intro s hmem gk hk hgrp
    rw [List.foldl_cons]
    rcases List.mem_cons.mp hmem with h | h
    · subst h
      exact foldl_preserve (P := fun t => validOf t g = false)
        (fun t x ht => tu_valid_false_persist (f + 1) t x a g ht) os _
        (tu_invalidates_group f a hk hgrp)
    · have hk2 : kindOf (transferUpdate (f + 1) s o a) g = some gk := by
        rw [(sameStruct_transferUpdate (f + 1) s o a).kinds]; exact hk
      exact ih _ h gk hk2 hgrp

/-! ### Projection lemmas for the owner and child operations -/

theorem kindOf_put_of_eq {s : Scene} {x : Nat} {n n0 : SgNodeState} (hg : s.get x = some n0)
    (hk : n.kind = n0.kind) : ∀ j, kindOf (s.put x n) j = kindOf s j := by
  intro j
  rcases Decidable.em (j = x) with rfl | hne
  · rw [kindOf, get_put_self (get_lt_length hg), kindOf, hg]
    simp [hk]
  · rw [kindOf, get_put_other hne, kindOf]

theorem childrenOf_put_of_eq {s : Scene} {x : Nat} {n n0 : SgNodeState}
    (hg : s.get x = some n0) (hc : n.children = n0.children) :
    ∀ j, childrenOf (s.put x n) j = childrenOf s j := by
  intro j
  rcases Decidable.em (j = x) with rfl | hne
  · rw [childrenOf, get_put_self (get_lt_length hg), childrenOf, hg]
    simp [hc]
  · rw [childrenOf, get_put_other hne, childrenOf]

theorem ownersOf_put_of_eq {s : Scene} {x : Nat} {n n0 : SgNodeState}
    (hg : s.get x = some n0) (ho : n.owners = n0.owners) :
    ∀ j, ownersOf (s.put x n) j = ownersOf s j := by
  intro j
  rcases Decidable.em (j = x) with rfl | hne
  · rw [ownersOf, get_put_self (get_lt_length hg), ownersOf, hg]
    simp [ho]
  · rw [ownersOf, get_put_other hne, ownersOf]

theorem validOf_put_of_eq {s : Scene} {x : Nat} {n n0 : SgNodeState}
    (hg : s.get x = some n0) (hv : n.isBboxCacheValid = n0.isBboxCacheValid) :
    ∀ j, validOf (s.put x n) j = validOf s j := by
  intro j
  rcases Decidable.em (j = x) with rfl | hne
  · rw [validOf, get_put_self (get_lt_length hg), validOf, hg]
    simp [hv]
  · rw [validOf, get_put_other hne, validOf]

/-- Unfolding equations for addOwner. -/
theorem addOwner_eq_none {s : Scene} {x : Nat} (o : Nat) (hg : s.get x = none) :
    addOwner s x o = s := by
  unfold addOwner
  rw [hg]

theorem addOwner_eq_some {s : Scene} {x : Nat} (o : Nat) {n : SgNodeState}
    (hg : s.get x = some n) :
    addOwner s x o =
      (if (o :: n.owners).length = 1
       then (s.put x { n with owners := o :: n.owners }).emit (.graphConnection x true)
       else s.put x { n with owners := o :: n.owners }) := by
  unfold addOwner
  rw [hg]

/-- Unfolding equations for removeOwner. -/
theorem removeOwner_eq_none {s : Scene} {x : Nat} (o : Nat) (hg : s.get x = none) :
    removeOwner s x o = s := by
  unfold removeOwner
  rw [hg]

theorem removeOwner_eq_some {s : Scene} {x : Nat} (o : Nat) {n : SgNodeState}
    (hg : s.get x = some n) :
    removeOwner s x o =
      (if (n.owners.erase o).isEmpty
       then ((s.emit (.ownerRemoved x o)).put x
          { n with owners := n.owners.erase o }).emit (.graphConnection x false)
       else (s.emit (.ownerRemoved x o)).put x { n with owners := n.owners.erase o }) := by
  unfold removeOwner
  rw [hg]

/-- Unfolding equations for addOwner(node, update). -/
theorem addOwnerWithUpdate_eq_none {s : Scene} {x : Nat} (fuel o : Nat) (a : SgAction)
    (hg : s.get x = none) : addOwnerWithUpdate fuel s x o a = s := by
  unfold addOwnerWithUpdate
  rw [hg]

theorem addOwnerWithUpdate_eq_some {s : Scene} {x : Nat} (fuel o : Nat) (a : SgAction)
    {n : SgNodeState} (hg : s.get x = some n) :
    addOwnerWithUpdate fuel s x o a =
      (if (o :: n.owners).length = 1
       then (transferUpdate fuel (s.put x { n with owners := o :: n.owners }) x a).emit
         (.graphConnection x true)
       else transferUpdate fuel (s.put x { n with owners := o :: n.owners }) x a) := by
  unfold addOwnerWithUpdate
  rw [hg]

theorem get_ite_emit (c : Prop) [Decidable c] (t : Scene) (e : Event) (j : Nat) :
    (if c then t.emit e else t).get j = t.get j := by
  split <;> rfl

theorem length_ite_emit (c : Prop) [Decidable c] (t : Scene) (e : Event) :
    (if c then t.emit e else t).nodes.length = t.nodes.length := by
  split <;> rfl

/-- addOwner: length, kinds, children and cache flags are untouched; the
target's owner multiset gains one occurrence; other objects keep theirs. -/
theorem addOwner_projs (s : Scene) (x o : Nat) :
    (addOwner s x o).nodes.length = s.nodes.length ∧
    (∀ j, kindOf (addOwner s x o) j = kindOf s j) ∧
    (∀ j, childrenOf (addOwner s x o) j = childrenOf s j) ∧
    (∀ j, validOf (addOwner s x o) j = validOf s j) ∧
    (∀ j, j ≠ x → ownersOf (addOwner s x o) j = ownersOf s j) ∧
    ((s.get x).isSome → ownersOf (addOwner s x o) x = o :: ownersOf s x) := by
  cases hg : s.get x with
  | none =>
    rw [addOwner_eq_none o hg]
    exact ⟨rfl, fun _ => rfl, fun _ => rfl, fun _ => rfl, fun _ _ => rfl, by simp [hg]⟩
  | some n =>
    rw [addOwner_eq_some o hg]
    have hget : ∀ j, (if (o :: n.owners).length = 1
        then (s.put x { n with owners := o :: n.owners }).emit (.graphConnection x true)
        else s.put x { n with owners := o :: n.owners }).get j
        = (s.put x { n with owners := o :: n.owners }).get j :=
      get_ite_emit _ _ _
    refine ⟨?_, ?_, ?_, ?_, ?_, ?_⟩
    · rw [length_ite_emit, put_length]
    · intro j
      rw [kindOf, hget j, ← kindOf]
      exact kindOf_put_of_eq (n := { n with owners := o :: n.owners }) hg rfl j
    · intro j
      rw [childrenOf, hget j, ← childrenOf]
      exact childrenOf_put_of_eq (n := { n with owners := o :: n.owners }) hg rfl j
    · intro j
      rw [validOf, hget j, ← validOf]
      exact validOf_put_of_eq (n := { n with owners := o :: n.owners }) hg rfl j
    · intro j hne
      rw [ownersOf, hget j, get_put_other hne, ownersOf]
    · intro _
      rw [ownersOf, hget x, get_put_self (get_lt_length hg), ownersOf, hg]
      rfl

/-- removeOwner: length, kinds, children and cache flags are untouched;
the target's owner multiset loses one occurrence; other objects keep
theirs. -/
theorem removeOwner_projs (s : Scene) (x o : Nat) :
    (removeOwner s x o).nodes.length = s.nodes.length ∧
    (∀ j, kindOf (removeOwner s x o) j = kindOf s j) ∧
    (∀ j, childrenOf (removeOwner s x o) j = childrenOf s j) ∧
    (∀ j, validOf (removeOwner s x o) j = validOf s j) ∧
    (∀ j, j ≠ x → ownersOf (removeOwner s x o) j = ownersOf s j) ∧
    ((s.get x).isSome → ownersOf (removeOwner s x o) x = (ownersOf s x).erase o) := by
  cases hg : s.get x with
  | none =>
    rw [removeOwner_eq_none o hg]
    exact ⟨rfl, fun _ => rfl, fun _ => rfl, fun _ => rfl, fun _ _ => rfl, by simp [hg]⟩
  | some n =>
    rw [removeOwner_eq_some o hg]
    have hg0 : (s.emit (.ownerRemoved x o)).get x = some n := hg
    have hget : ∀ j, (if (n.owners.erase o).isEmpty
        then ((s.emit (.ownerRemoved x o)).put x
          { n with owners := n.owners.erase o }).emit (.graphConnection x false)
        else (s.emit (.ownerRemoved x o)).put x { n with owners := n.owners.erase o }).get j
        = ((s.emit (.ownerRemoved x o)).put x { n with owners := n.owners.erase o }).get j :=
      get_ite_emit _ _ _
    refine ⟨?_, ?_, ?_, ?_, ?_, ?_⟩
    · rw [length_ite_emit, put_length, emit_length]
    · intro j
      rw [kindOf, hget j, ← kindOf]
      exact kindOf_put_of_eq (n := { n with owners := n.owners.erase o }) hg0 rfl j
    · intro j
      rw [childrenOf, hget j, ← childrenOf]
      exact childrenOf_put_of_eq (n := { n with owners := n.owners.erase o }) hg0 rfl j
    · intro j
      rw [validOf, hget j, ← validOf]
      exact validOf_put_of_eq (n := { n with owners := n.owners.erase o }) hg0 rfl j
    · intro j hne
      rw [ownersOf, hget j, get_put_other hne, ownersOf]
      rfl
    · intro _
      rw [ownersOf, hget x, get_put_self (get_lt_length hg0), ownersOf, hg]
      rfl

/-- addOwner(node, update): same structural effect as addOwner (the cache
flags may change through the update walk). -/
theorem addOwnerWithUpdate_projs (fuel : Nat) (s : Scene) (x o : Nat) (a : SgAction) :
    (addOwnerWithUpdate fuel s x o a).nodes.length = s.nodes.length ∧
    (∀ j, kindOf (addOwnerWithUpdate fuel s x o a) j = kindOf s j) ∧
    (∀ j, childrenOf (addOwnerWithUpdate fuel s x o a) j = childrenOf s j) ∧
    (∀ j, j ≠ x → ownersOf (addOwnerWithUpdate fuel s x o a) j = ownersOf s j) ∧
    ((s.get x).isSome → ownersOf (addOwnerWithUpdate fuel s x o a) x = o :: ownersOf s x) := by
  cases hg : s.get x with
  | none =>
    rw [addOwnerWithUpdate_eq_none fuel o a hg]
    exact ⟨rfl, fun _ => rfl, fun _ => rfl, fun _ _ => rfl, by simp [hg]⟩
  | some n =>
    rw [addOwnerWithUpdate_eq_some fuel o a hg]
    set s1 := s.put x { n with owners := o :: n.owners } with hs1
    have hst := sameStruct_transferUpdate fuel s1 x a
    have hget : ∀ j, (if (o :: n.owners).length = 1
        then (transferUpdate fuel s1 x a).emit (.graphConnection x true)
        else transferUpdate fuel s1 x a).get j = (transferUpdate fuel s1 x a).get j :=
      get_ite_emit _ _ _
    refine ⟨?_, ?_, ?_, ?_, ?_⟩
    · rw [length_ite_emit, hst.len, hs1, put_length]
    · intro j
      rw [kindOf, hget j, ← kindOf, hst.kinds j]
      exact kindOf_put_of_eq (n := { n with owners := o :: n.owners }) hg rfl j
    · intro j
      rw [childrenOf, hget j, ← childrenOf, hst.childs j]
      exact childrenOf_put_of_eq (n := { n with owners := o :: n.owners }) hg rfl j
    · intro j hne
      rw [ownersOf, hget j, ← ownersOf, hst.owns j, ownersOf, get_put_other hne, ownersOf]
    · intro _
      rw [ownersOf, hget x, ← ownersOf, hst.owns x, ownersOf,
        get_put_self (get_lt_length hg), ownersOf, hg]
      rfl

/-- addChild on a present group: the child list gains the node at the end,
the node's owner multiset gains the group, and nothing else structural
changes. -/
theorem addChild_projs (fuel : Nat) (s : Scene) (g n : Nat) (dn : Bool) {gn : SgNodeState}
    (hg : s.get g = some gn) :
    (addChild fuel s g (some n) dn).nodes.length = s.nodes.length ∧
    (∀ j, kindOf (addChild fuel s g (some n) dn) j = kindOf s j) ∧
    childrenOf (addChild fuel s g (some n) dn) g = childrenOf s g ++ [n] ∧
    (∀ j, j ≠ g → childrenOf (addChild fuel s g (some n) dn) j = childrenOf s j) ∧
    ((s.get n).isSome → ownersOf (addChild fuel s g (some n) dn) n = g :: ownersOf s n) ∧
    (∀ j, j ≠ n → ownersOf (addChild fuel s g (some n) dn) j = ownersOf s j) := by
  unfold addChild
  rw [hg]
  set s1 := s.put g { gn with children := gn.children ++ [n] } with hs1
  have hlen1 : s1.nodes.length = s.nodes.length := put_length ..
  have hk1 : ∀ j, kindOf s1 j = kindOf s j := kindOf_put_of_eq hg rfl
  have ho1 : ∀ j, ownersOf s1 j = ownersOf s j := ownersOf_put_of_eq hg rfl
  have hc1g : childrenOf s1 g = childrenOf s g ++ [n] := by
    rw [childrenOf, show s1.get g = some { gn with children := gn.children ++ [n] } from
      get_put_self (get_lt_length hg) _, childrenOf, hg]
    rfl
  have hc1o : ∀ j, j ≠ g → childrenOf s1 j = childrenOf s j := by
    intro j hne
    rw [childrenOf, show s1.get j = s.get j from get_put_other hne _, childrenOf]
  have hsome1 : ∀ j, (s1.get j).isSome = (s.get j).isSome := by
    intro j
    rcases Decidable.em (j = g) with rfl | hne
    · rw [get_put_self (get_lt_length hg), hg]
      rfl
    · rw [get_put_other hne]
  cases dn with
  | false =>
    simp only [Bool.false_eq_true, if_neg, if_false]
    obtain ⟨al, ak, ac, _, aoo, aos⟩ := addOwner_projs s1 n g
    refine ⟨al.trans hlen1, fun j => (ak j).trans (hk1 j), (ac g).trans hc1g,
      fun j hne => (ac j).trans (hc1o j hne), ?_, fun j hne => (aoo j hne).trans (ho1 j)⟩
    intro hsome
    rw [aos (by rw [hsome1]; exact hsome), ho1]
  | true =>
    simp only [if_pos]
    obtain ⟨al, ak, ac, aoo, aos⟩ := addOwnerWithUpdate_projs fuel s1 n g .added
    refine ⟨al.trans hlen1, fun j => (ak j).trans (hk1 j), (ac g).trans hc1g,
      fun j hne => (ac j).trans (hc1o j hne), ?_, fun j hne => (aoo j hne).trans (ho1 j)⟩
    intro hsome
    rw [aos (by rw [hsome1]; exact hsome), ho1]

/-! ### The owner/child symmetry invariant -/

/-- The owner/child bidirectional consistency invariant, in its counting
form (which is what the paired bookkeeping of the source maintains): for
every group g and object n, the number of occurrences of n in the child
list of g equals the multiplicity of g in the owner multiset of n. -/
def ownerChildSymmetry (s : Scene) : Prop :=
  ∀ g n gk, kindOf s g = some gk → gk.isGroupKind = true → n < s.nodes.length →
    (childrenOf s g).count n = (ownersOf s n).count g

/-- Reference well-formedness: every child and owner reference points at an
allocated object. -/
def wfRefs (s : Scene) : Prop :=
  ∀ id, (∀ c ∈ childrenOf s id, c < s.nodes.length) ∧
    (∀ o ∈ ownersOf s id, o < s.nodes.length)

theorem sym_addChild (s : Scene) (hsym : ownerChildSymmetry s) (fuel g : Nat)
    (nr : Option Nat) (dn : Bool) : ownerChildSymmetry (addChild fuel s g nr dn) := by
  cases nr with
  | none => exact hsym
  | some n =>
    cases hg : s.get g with
    | none =>
      unfold addChild
      rw [hg]
      exact hsym
    | some gn =>
      obtain ⟨hlen, hkinds, hcg, hco, hon, hoo⟩ := addChild_projs fuel s g n dn hg
      intro g2 n2 gk hk hgrp hn2
      rw [hlen] at hn2
      have hk0 : kindOf s g2 = some gk := by rw [← hkinds g2]; exact hk
      have hbase := hsym g2 n2 gk hk0 hgrp hn2
      rcases Decidable.em (g2 = g) with rfl | hgne
      · rcases Decidable.em (n2 = n) with rfl | hnne
        · rw [hcg, hon (by rw [get_isSome_iff]; exact hn2)]
          simp [List.count_append, List.count_cons, hbase]
        · rw [hcg, hoo n2 hnne, List.count_append, hbase]
          have h0 : List.count n2 [n] = 0 := by
            simp [List.count_singleton]
            omega
          rw [h0]
          omega
      · rcases Decidable.em (n2 = n) with rfl | hnne
        · rw [hco g2 hgne, hon (by rw [get_isSome_iff]; exact hn2), hbase,
            List.count_cons]
          simp [Ne.symm hgne]
        · rw [hco g2 hgne, hoo n2 hnne, hbase]

/-- Counting the erased element after removing the entry at an index. -/
theorem count_eraseIdx_self :
    ∀ (l : List Nat) (i : Nat) (c : Nat), l[i]? = some c →
      (l.eraseIdx i).count c = l.count c - 1 := by
  intro l
  induction l with
  | nil => intro i c h; simp at h
  | cons x xs ih =>
    intro i c h
    cases i with
    | zero =>
      simp at h
      subst h
      rw [List.eraseIdx_cons_zero, List.count_cons]
      simp
    | succ i =>
      rw [List.getElem?_cons_succ] at h
      have hmem : c ∈ xs := by
        rcases List.getElem?_eq_some_iff.mp h with ⟨hlt, hval⟩
        exact hval ▸ xs.getElem_mem hlt
      have hcnt : 0 < xs.count c := List.count_pos_iff.mpr hmem
      rw [List.eraseIdx_cons_succ, List.count_cons, List.count_cons, ih i c h]
      by_cases hx : x = c
      · simp only [hx, beq_self_eq_true, if_true]
        omega
      · simp only [beq_eq_false_iff_ne.mpr hx, if_false]
        omega

/-- Counting other elements after removing the entry at an index. -/
theorem count_eraseIdx_ne :
    ∀ (l : List Nat) (i : Nat) (c b : Nat), c ≠ b → l[i]? = some c →
      (l.eraseIdx i).count b = l.count b := by
  intro l
  induction l with
  | nil => intro i c b hne h; simp at h
  | cons x xs ih =>
    intro i c b hne h
    cases i with
    | zero =>
      simp at h
      subst h
      rw [List.eraseIdx_cons_zero, List.count_cons]
      simp only [beq_eq_false_iff_ne.mpr hne]
      simp
    | succ i =>
      rw [List.getElem?_cons_succ] at h
      rw [List.eraseIdx_cons_succ, List.count_cons, List.count_cons, ih i c b hne h]

theorem kindOf_modifyNode_of_eq {s : Scene} {x : Nat} {f : SgNodeState → SgNodeState}
    (hk : ∀ n, (f n).kind = n.kind) : ∀ j, kindOf (s.modifyNode x f) j = kindOf s j := by
  intro j
  cases hg : s.get x with
  | none =>
    unfold Scene.modifyNode
    rw [show s.nodes[x]? = none from hg]
  | some n =>
    rcases Decidable.em (j = x) with rfl | hne
    · rw [kindOf, get_modifyNode_self f hg, kindOf, hg]
      simp [hk]
    · rw [kindOf, get_modifyNode_other f hne, kindOf]

theorem ownersOf_modifyNode_of_eq {s : Scene} {x : Nat} {f : SgNodeState → SgNodeState}
    (ho : ∀ n, (f n).owners = n.owners) : ∀ j, ownersOf (s.modifyNode x f) j = ownersOf s j := by
  intro j
  cases hg : s.get x with
  | none =>
    unfold Scene.modifyNode
    rw [show s.nodes[x]? = none from hg]
  | some n =>
    rcases Decidable.em (j = x) with rfl | hne
    · rw [ownersOf, get_modifyNode_self f hg, ownersOf, hg]
      simp [ho]
    · rw [ownersOf, get_modifyNode_other f hne, ownersOf]

theorem childrenOf_modifyNode_of_eq {s : Scene} {x : Nat} {f : SgNodeState → SgNodeState}
    (hc : ∀ n, (f n).children = n.children) :
    ∀ j, childrenOf (s.modifyNode x f) j = childrenOf s j := by
  intro j
  cases hg : s.get x with
  | none =>
    unfold Scene.modifyNode
    rw [show s.nodes[x]? = none from hg]
  | some n =>
    rcases Decidable.em (j = x) with rfl | hne
    · rw [childrenOf, get_modifyNode_self f hg, childrenOf, hg]
      simp [hc]
    · rw [childrenOf, get_modifyNode_other f hne, childrenOf]

theorem childrenOf_modifyNode_self {s : Scene} {x : Nat} {n : SgNodeState}
    (f : SgNodeState → SgNodeState) (hg : s.get x = some n) :
    childrenOf (s.modifyNode x f) x = (f n).children := by
  rw [childrenOf, get_modifyNode_self f hg]
  rfl

theorem childrenOf_modifyNode_other {s : Scene} {x j : Nat}
    (f : SgNodeState → SgNodeState) (hne : j ≠ x) :
    childrenOf (s.modifyNode x f) j = childrenOf s j := by
  rw [childrenOf, get_modifyNode_other f hne, childrenOf]

theorem sym_removeChildAt (s : Scene) (hsym : ownerChildSymmetry s) (fuel g i : Nat)
    (dn : Bool) : ownerChildSymmetry (removeChildAt fuel s g i dn) := by
  cases hg : s.get g with
  | none =>
    have he : removeChildAt fuel s g i dn = s := by
      unfold removeChildAt
      simp only [hg]
    rw [he]
    exact hsym
  | some gn =>
    cases hc : gn.children[i]? with
    | none =>
      have he : removeChildAt fuel s g i dn = s := by
        unfold removeChildAt
        simp only [hg, hc]
      rw [he]
      exact hsym
    | some c =>
      have hrw : removeChildAt fuel s g i dn =
          (removeOwner (if dn then notifyUpdate fuel s c .removed else s) c g).modifyNode g
            (fun m => { m with children := m.children.eraseIdx i }) := by
        unfold removeChildAt
        simp only [hg, hc]
      rw [hrw]
      set s1 := if dn then notifyUpdate fuel s c .removed else s with hs1
      have hst1 : SameStruct s s1 := by
        rw [hs1]
        cases dn
        · exact SameStruct.refl s
        · exact sameStruct_transferUpdate ..
      set s2 := removeOwner s1 c g with hs2
      obtain ⟨rl, rk, rc, _, roo, ros⟩ := removeOwner_projs s1 c g
      have hlen2 : s2.nodes.length = s.nodes.length := by rw [hs2, rl, hst1.len]
      have hk2 : ∀ j, kindOf s2 j = kindOf s j := fun j => by
        rw [hs2, rk j, hst1.kinds j]
      have hc2 : ∀ j, childrenOf s2 j = childrenOf s j := fun j => by
        rw [hs2, rc j, hst1.childs j]
      have ho2o : ∀ j, j ≠ c → ownersOf s2 j = ownersOf s j := fun j hj => by
        rw [hs2, roo j hj, hst1.owns j]
      have ho2c : ownersOf s2 c = (ownersOf s c).erase g := by
        cases hsc : s1.get c with
        | none =>
          rw [hs2, removeOwner_eq_none g hsc]
          have : ownersOf s c = [] := by
            rw [← hst1.owns c, ownersOf, hsc]
            rfl
          rw [this, ownersOf, hsc]
          rfl
        | some cn =>
          rw [hs2, ros (by rw [hsc]; rfl), hst1.owns c]
      -- the final modify
      have hg2 : ∃ m, s2.get g = some m := by
        rcases Option.isSome_iff_exists.mp ((get_isSome_iff s2 g).mpr
          (by rw [hlen2]; exact get_lt_length hg)) with ⟨m, hm⟩
        exact ⟨m, hm⟩
      rcases hg2 with ⟨m, hm⟩
      have hmc : m.children = childrenOf s g := by
        rw [← hc2 g, childrenOf, hm]
        rfl
      set t := s2.modifyNode g (fun k => { k with children := k.children.eraseIdx i }) with ht
      have hlent : t.nodes.length = s.nodes.length := by rw [ht, modifyNode_length, hlen2]
      have hkt : ∀ j, kindOf t j = kindOf s j := fun j => by
        rw [ht, kindOf_modifyNode_of_eq
          (f := fun k => { k with children := k.children.eraseIdx i }) (fun _ => rfl) j,
          hk2 j]
      have hct_g : childrenOf t g = (childrenOf s g).eraseIdx i := by
        rw [ht, childrenOf_modifyNode_self _ hm]
        simp [hmc]
      have hct_o : ∀ j, j ≠ g → childrenOf t j = childrenOf s j := fun j hj => by
        rw [ht, childrenOf_modifyNode_other _ hj, hc2 j]
      have hot : ∀ j, ownersOf t j = ownersOf s2 j :=
        fun j => by
          rw [ht, ownersOf_modifyNode_of_eq
            (f := fun k => { k with children := k.children.eraseIdx i }) (fun _ => rfl) j]
      -- the counting argument
      have hcs : childrenOf s g = gn.children := by rw [childrenOf, hg]; rfl
      have hidx : (childrenOf s g)[i]? = some c := by rw [hcs]; exact hc
      intro g2 n2 gk hk hgrp hn2
      rw [hlent] at hn2
      have hbase := hsym g2 n2 gk (by rw [← hkt g2]; exact hk) hgrp hn2
      rcases Decidable.em (g2 = g) with rfl | hgne
      · rcases Decidable.em (n2 = c) with rfl | hnne
        · rw [hct_g, hot n2, ho2c, count_eraseIdx_self _ i n2 hidx,
            List.count_erase_self, hbase]
        · rw [hct_g, hot n2, ho2o n2 hnne, count_eraseIdx_ne _ i c n2
            (fun h => hnne h.symm) hidx, hbase]
      · rcases Decidable.em (n2 = c) with rfl | hnne
        · rw [hct_o g2 hgne, hot n2, ho2c, List.count_erase_of_ne hgne, hbase]
        · rw [hct_o g2 hgne, hot n2, ho2o n2 hnne, hbase]

/-! ### Characterization of removeChild -/

/-- Iterated one-occurrence removal from a multiset. -/
def eraseN (l : List Nat) (a : Nat) : Nat → List Nat
  | 0 => l
  | k + 1 => eraseN (l.erase a) a k

theorem count_eraseN_self (a : Nat) :
    ∀ (k : Nat) (l : List Nat), (eraseN l a k).count a = l.count a - k := by
  intro k
  induction k with
  | zero => intro l; simp [eraseN]
  | succ k ih =>
    intro l
    rw [eraseN, ih, List.count_erase_self]
    omega

theorem count_eraseN_ne {a b : Nat} (hne : b ≠ a) :
    ∀ (k : Nat) (l : List Nat), (eraseN l a k).count b = l.count b := by
  intro k
  induction k with
  | zero => intro l; simp [eraseN]
  | succ k ih =>
    intro l
    rw [eraseN, ih, List.count_erase_of_ne hne]

theorem count_filter_self (n : Nat) :
    ∀ l : List Nat, (l.filter (fun c => !(c == n))).count n = 0 := by
  intro l
  induction l with
  | nil => rfl
  | cons c cs ih =>
    by_cases hc : c = n
    · simp [List.filter_cons, hc, ih]
    · simp only [List.filter_cons, beq_eq_false_iff_ne.mpr hc, Bool.not_false, if_pos,
        List.count_cons, ih, beq_eq_false_iff_ne.mpr hc]
      simp

theorem count_filter_other {m n : Nat} (hne : m ≠ n) :
    ∀ l : List Nat, (l.filter (fun c => !(c == n))).count m = l.count m := by
  intro l
  induction l with
  | nil => rfl
  | cons c cs ih =>
    by_cases hc : c = n
    · subst hc
      simp only [List.filter_cons, beq_self_eq_true, Bool.not_true, if_neg, ih,
        List.count_cons, beq_eq_false_iff_ne.mpr (fun h => hne h.symm)]
      exact ih
    · simp only [List.filter_cons, beq_eq_false_iff_ne.mpr hc, Bool.not_false, if_pos,
        List.count_cons, ih]

/-- The owner multiset after removeOwner, unconditionally. -/
theorem ownersOf_removeOwner_self (s : Scene) (x o : Nat) :
    ownersOf (removeOwner s x o) x = (ownersOf s x).erase o := by
  cases hg : s.get x with
  | none =>
    rw [removeOwner_eq_none o hg, ownersOf, hg]
    rfl
  | some nn => exact (removeOwner_projs s x o).2.2.2.2.2 (by rw [hg]; rfl)

/-- removeOwner on a present object records exactly one removeOwner call. -/
theorem ownerRemovedCount_removeOwner {s : Scene} {x : Nat} (o : Nat)
    (hx : (s.get x).isSome) :
    ownerRemovedCount x o (removeOwner s x o).log = ownerRemovedCount x o s.log + 1 := by
  rcases Option.isSome_iff_exists.mp hx with ⟨n, hg⟩
  rw [removeOwner_eq_some o hg]
  unfold ownerRemovedCount
  split <;> simp [emit_log, put_log, List.count_append]

/-- removeOwner never records a call on another object/owner pair. -/
theorem ownerRemovedCount_removeOwner_other {s : Scene} {x o n g : Nat}
    (h : ¬(x = n ∧ o = g)) :
    ownerRemovedCount n g (removeOwner s x o).log = ownerRemovedCount n g s.log := by
  cases hg : s.get x with
  | none => rw [removeOwner_eq_none o hg]
  | some nn =>
    rw [removeOwner_eq_some o hg]
    unfold ownerRemovedCount
    have hne : (Event.ownerRemoved x o) ≠ (Event.ownerRemoved n g) := by
      intro he
      injection he with h1 h2
      exact h ⟨h1, h2⟩
    split <;> simp [emit_log, put_log, List.count_append, List.count_cons, hne]

/-- transferUpdate walks record no removeOwner calls. -/
theorem ownerRemovedCount_transferUpdate (fuel : Nat) (s : Scene) (id : Nat) (a : SgAction)
    (n g : Nat) :
    ownerRemovedCount n g (transferUpdate fuel s id a).log = ownerRemovedCount n g s.log := by
  rcases transferUpdate_log_updated fuel s id a with ⟨ext, hext, hu⟩
  unfold ownerRemovedCount
  rw [hext, List.count_append]
  have : ext.count (Event.ownerRemoved n g) = 0 := by
    rw [List.count_eq_zero]
    intro hmem
    rcases hu _ hmem with ⟨j, b, he⟩
    cases he
  rw [this]
  omega

/-- Full characterization of the removeChild erase loop. -/
theorem removeChildLoop_spec (fuel g n : Nat) (dn : Bool) :
    ∀ (l : List Nat) (s : Scene),
      (removeChildLoop fuel g n dn s l).2.1 = l.filter (fun c => !(c == n)) ∧
      (removeChildLoop fuel g n dn s l).2.2 = l.contains n ∧
      (removeChildLoop fuel g n dn s l).1.nodes.length = s.nodes.length ∧
      (∀ j, kindOf (removeChildLoop fuel g n dn s l).1 j = kindOf s j) ∧
      (∀ j, childrenOf (removeChildLoop fuel g n dn s l).1 j = childrenOf s j) ∧
      (∀ j, j ≠ n → ownersOf (removeChildLoop fuel g n dn s l).1 j = ownersOf s j) ∧
      ownersOf (removeChildLoop fuel g n dn s l).1 n = eraseN (ownersOf s n) g (l.count n) ∧
      ((s.get n).isSome →
        ownerRemovedCount n g (removeChildLoop fuel g n dn s l).1.log
          = ownerRemovedCount n g s.log + l.count n) := by
  intro l
  induction l with
  | nil =>
    intro s
    refine ⟨rfl, rfl, rfl, fun _ => rfl, fun _ => rfl, fun _ _ => rfl, ?_, fun _ => rfl⟩
    simp [removeChildLoop, eraseN]
  | cons c cs ih =>
    intro s
    by_cases hc : c = n
    · subst hc
      have hrw : removeChildLoop fuel g c dn s (c :: cs) =
          ((removeChildLoop fuel g c dn
              (removeOwner (if dn then notifyUpdate fuel s c .removed else s) c g) cs).1,
           (removeChildLoop fuel g c dn
              (removeOwner (if dn then notifyUpdate fuel s c .removed else s) c g) cs).2.1,
           true) := by
        simp [removeChildLoop]
      set s1 := if dn then notifyUpdate fuel s c .removed else s with hs1
      have hst1 : SameStruct s s1 := by
        rw [hs1]
        cases dn
        · exact SameStruct.refl s
        · exact sameStruct_transferUpdate ..
      have hlog1 : ownerRemovedCount c g s1.log = ownerRemovedCount c g s.log := by
        rw [hs1]
        cases dn
        · rfl
        · exact ownerRemovedCount_transferUpdate ..
      set s2 := removeOwner s1 c g with hs2
      obtain ⟨rl, rk, rc, _, roo, _⟩ := removeOwner_projs s1 c g
      obtain ⟨f1, f2, f3, f4, f5, f6, f7, f8⟩ := ih s2
      have hsome12 : (s.get c).isSome → (s1.get c).isSome := by
        intro h
        rw [get_isSome_iff, hst1.len, ← get_isSome_iff]
        exact h
      refine ⟨?_, ?_, ?_, ?_, ?_, ?_, ?_, ?_⟩
      · rw [hrw]
        simp only [f1, List.filter_cons, beq_self_eq_true, Bool.not_true]
        simp
      · rw [hrw]
        simp [List.contains_cons]
      · rw [hrw]
        simp only [f3, hs2, rl, hst1.len]
      · intro j
        rw [hrw]
        simp only [f4 j, hs2, rk j, hst1.kinds j]
      · intro j
        rw [hrw]
        simp only [f5 j, hs2, rc j, hst1.childs j]
      · intro j hj
        rw [hrw]
        simp only [f6 j hj, hs2, roo j hj, hst1.owns j]
      · rw [hrw]
        simp only [f7]
        rw [hs2, ownersOf_removeOwner_self, hst1.owns c, List.count_cons]
        simp only [beq_self_eq_true, if_pos, eraseN]
      · intro hsome
        rw [hrw]
        simp only
        rw [f8 (by rw [get_isSome_iff, hs2, rl, ← get_isSome_iff]; exact hsome12 hsome),
          hs2, ownerRemovedCount_removeOwner g (hsome12 hsome), hlog1, List.count_cons]
        simp only [beq_self_eq_true, if_pos]
        omega
    · have hrw : removeChildLoop fuel g n dn s (c :: cs) =
          ((removeChildLoop fuel g n dn s cs).1,
           c :: (removeChildLoop fuel g n dn s cs).2.1,
           (removeChildLoop fuel g n dn s cs).2.2) := by
        simp only [removeChildLoop, if_neg hc]
      obtain ⟨f1, f2, f3, f4, f5, f6, f7, f8⟩ := ih s
      refine ⟨?_, ?_, ?_, ?_, ?_, ?_, ?_, ?_⟩
      · rw [hrw]
        simp only [f1, List.filter_cons, beq_eq_false_iff_ne.mpr hc, Bool.not_false]
        simp
      · rw [hrw]
        simp only [f2, List.contains_cons]
        have hnc : (n == c) = false := beq_eq_false_iff_ne.mpr (fun h => hc h.symm)
        rw [hnc]
        simp
      · rw [hrw]
        exact f3
      · intro j
        rw [hrw]
        exact f4 j
      · intro j
        rw [hrw]
        exact f5 j
      · intro j hj
        rw [hrw]
        exact f6 j hj
      · rw [hrw]
        simp only [f7, List.count_cons, beq_eq_false_iff_ne.mpr hc]
        simp
      · intro hsome
        rw [hrw]
        simp only [f8 hsome, List.count_cons, beq_eq_false_iff_ne.mpr hc]
        simp

/-- Full characterization of removeChild on a present group: every
occurrence of the node leaves the child list, removeOwner is called (and
recorded) once per occurrence, the return value reports whether any
occurrence existed, and nothing else structural changes. -/
theorem removeChild_spec (fuel : Nat) (s : Scene) (g n : Nat) (dn : Bool) {gn : SgNodeState}
    (hg : s.get g = some gn) :
    (removeChild fuel s g n dn).2 = gn.children.contains n ∧
    (removeChild fuel s g n dn).1.nodes.length = s.nodes.length ∧
    (∀ j, kindOf (removeChild fuel s g n dn).1 j = kindOf s j) ∧
    childrenOf (removeChild fuel s g n dn).1 g = gn.children.filter (fun c => !(c == n)) ∧
    (∀ j, j ≠ g → childrenOf (removeChild fuel s g n dn).1 j = childrenOf s j) ∧
    (∀ j, j ≠ n → ownersOf (removeChild fuel s g n dn).1 j = ownersOf s j) ∧
    ownersOf (removeChild fuel s g n dn).1 n = eraseN (ownersOf s n) g (gn.children.count n) ∧
    ((s.get n).isSome →
      ownerRemovedCount n g (removeChild fuel s g n dn).1.log
        = ownerRemovedCount n g s.log + gn.children.count n) := by
  have hrw : removeChild fuel s g n dn =
      ((removeChildLoop fuel g n dn s gn.children).1.modifyNode g
        (fun m => { m with children := (removeChildLoop fuel g n dn s gn.children).2.1 }),
       (removeChildLoop fuel g n dn s gn.children).2.2) := by
    unfold removeChild
    simp only [hg]
  obtain ⟨f1, f2, f3, f4, f5, f6, f7, f8⟩ := removeChildLoop_spec fuel g n dn gn.children s
  set r := removeChildLoop fuel g n dn s gn.children with hr
  have hsome : ∃ m, r.1.get g = some m := by
    rcases Option.isSome_iff_exists.mp ((get_isSome_iff r.1 g).mpr
      (by rw [f3]; exact get_lt_length hg)) with ⟨m, hm⟩
    exact ⟨m, hm⟩
  rcases hsome with ⟨m, hm⟩
  refine ⟨?_, ?_, ?_, ?_, ?_, ?_, ?_, ?_⟩
  · rw [hrw]
    exact f2
  · rw [hrw]
    simp only [modifyNode_length]
    exact f3
  · intro j
    rw [hrw]
    simp only [kindOf_modifyNode_of_eq (f := fun m => { m with children := r.2.1 })
      (fun _ => rfl) j]
    exact f4 j
  · rw [hrw]
    simp only [childrenOf_modifyNode_self (f := fun m => { m with children := r.2.1 }) hm]
    exact f1
  · intro j hj
    rw [hrw]
    simp only [childrenOf_modifyNode_other (f := fun m => { m with children := r.2.1 }) hj]
    exact f5 j
  · intro j hj
    rw [hrw]
    simp only [ownersOf_modifyNode_of_eq (f := fun m => { m with children := r.2.1 })
      (fun _ => rfl) j]
    exact f6 j hj
  · rw [hrw]
    simp only [ownersOf_modifyNode_of_eq (f := fun m => { m with children := r.2.1 })
      (fun _ => rfl) n]
    exact f7
  · intro hs
    rw [hrw]
    simp only [modifyNode_log]
    exact f8 hs

theorem sym_removeChild (s : Scene) (hsym : ownerChildSymmetry s) (fuel g n : Nat)
    (dn : Bool) : ownerChildSymmetry (removeChild fuel s g n dn).1 := by
  cases hg : s.get g with
  | none =>
    have he : (removeChild fuel s g n dn).1 = s := by
      unfold removeChild
      simp only [hg]
    rw [he]
    exact hsym
  | some gn =>
    obtain ⟨_, hlen, hk, hcg, hco, hoo, hon, _⟩ := removeChild_spec fuel s g n dn hg
    have hcs : childrenOf s g = gn.children := by rw [childrenOf, hg]; rfl
    intro g2 n2 gk hk2 hgrp hn2
    rw [hlen] at hn2
    have hbase := hsym g2 n2 gk (by rw [← hk g2]; exact hk2) hgrp hn2
    rcases Decidable.em (g2 = g) with rfl | hgne
    · rcases Decidable.em (n2 = n) with rfl | hnne
      · rw [hcg, hon, count_filter_self, count_eraseN_self, ← hcs, hbase]
        omega
      · rw [hcg, hoo n2 hnne, ← hcs, count_filter_other hnne, hbase]
    · rcases Decidable.em (n2 = n) with rfl | hnne
      · rw [hco g2 hgne, hon, count_eraseN_ne hgne, hbase]
      · rw [hco g2 hgne, hoo n2 hnne, hbase]

/-! ### Frame transport of the invariants -/

theorem sym_of_frame {s t : Scene} (hsym : ownerChildSymmetry s)
    (hlen : t.nodes.length = s.nodes.length)
    (hch : ∀ j, childrenOf t j = childrenOf s j)
    (hkg : ∀ g2 gk, kindOf t g2 = some gk → gk.isGroupKind = true → kindOf s g2 = some gk)
    (hoc : ∀ j g2 gk, kindOf t g2 = some gk → gk.isGroupKind = true →
      (ownersOf t j).count g2 = (ownersOf s j).count g2) :
    ownerChildSymmetry t := by
  intro g2 n2 gk hk hgrp hn2
  rw [hch, hoc n2 g2 gk hk hgrp]
  exact hsym g2 n2 gk (hkg g2 gk hk hgrp) hgrp (by rw [← hlen]; exact hn2)

theorem wf_of_frame {s t : Scene} (hwf : wfRefs s)
    (hlen : t.nodes.length = s.nodes.length)
    (hch : ∀ j, childrenOf t j = childrenOf s j)
    (how : ∀ j o, o ∈ ownersOf t j → o ∈ ownersOf s j ∨ o < s.nodes.length) : wfRefs t := by
  intro id
  refine ⟨?_, ?_⟩
  · intro c hc
    rw [hlen]
    exact (hwf id).1 c (by rw [← hch id]; exact hc)
  · intro o ho
    rw [hlen]
    rcases how id o ho with h | h
    · exact (hwf id).2 o h
    · exact h

theorem sym_of_sameStruct {s t : Scene} (h : SameStruct s t)
    (hsym : ownerChildSymmetry s) : ownerChildSymmetry t :=
  sym_of_frame hsym h.len h.childs (fun g2 gk hk _ => by rw [← h.kinds g2]; exact hk)
    (fun j _ _ _ _ => by rw [h.owns j])

theorem wf_of_sameStruct {s t : Scene} (h : SameStruct s t) (hwf : wfRefs s) : wfRefs t :=
  wf_of_frame hwf h.len h.childs (fun j o ho => Or.inl (by rw [← h.owns j]; exact ho))

/-- The owner multiset after addOwner, unconditionally. -/
theorem ownersOf_addOwner_self (s : Scene) (x o : Nat) :
    ownersOf (addOwner s x o) x
      = if (s.get x).isSome then o :: ownersOf s x else ownersOf s x := by
  cases hg : s.get x with
  | none =>
    rw [addOwner_eq_none o hg]
    simp [hg]
  | some nn =>
    rw [(addOwner_projs s x o).2.2.2.2.2 (by rw [hg]; rfl)]
    simp [hg]

theorem count_ownersOf_addOwner {g2 o : Nat} (s : Scene) (x : Nat) (hne : g2 ≠ o) (j : Nat) :
    (ownersOf (addOwner s x o) j).count g2 = (ownersOf s j).count g2 := by
  rcases Decidable.em (j = x) with rfl | hj
  · rw [ownersOf_addOwner_self]
    split
    · rw [List.count_cons, beq_eq_false_iff_ne.mpr (fun h => hne h.symm)]
      simp
    · rfl
  · rw [(addOwner_projs s x o).2.2.2.2.1 j hj]

theorem count_ownersOf_removeOwner {g2 o : Nat} (s : Scene) (x : Nat) (hne : g2 ≠ o)
    (j : Nat) :
    (ownersOf (removeOwner s x o) j).count g2 = (ownersOf s j).count g2 := by
  rcases Decidable.em (j = x) with rfl | hj
  · rw [ownersOf_removeOwner_self, List.count_erase_of_ne hne]
  · rw [(removeOwner_projs s x o).2.2.2.2.1 j hj]

theorem mem_ownersOf_addOwner {s : Scene} {x o j q : Nat}
    (h : q ∈ ownersOf (addOwner s x o) j) : q ∈ ownersOf s j ∨ q = o := by
  rcases Decidable.em (j = x) with rfl | hj
  · rw [ownersOf_addOwner_self] at h
    split at h
    · rcases List.mem_cons.mp h with rfl | h
      · exact Or.inr rfl
      · exact Or.inl h
    · exact Or.inl h
  · rw [(addOwner_projs s x o).2.2.2.2.1 j hj] at h
    exact Or.inl h

theorem mem_ownersOf_removeOwner {s : Scene} {x o j q : Nat}
    (h : q ∈ ownersOf (removeOwner s x o) j) : q ∈ ownersOf s j := by
  rcases Decidable.em (j = x) with rfl | hj
  · rw [ownersOf_removeOwner_self] at h
    exact List.mem_of_mem_erase h
  · rw [(removeOwner_projs s x o).2.2.2.2.1 j hj] at h
    exact h

/-! ### The payload setters preserve the invariants -/

/-- The generic deregister/store/register step common to all eight payload
setters.  The holder keeps a non-group kind, the child lists are
untouched, and owner multisets only gain or lose occurrences of the
holder, so both invariants survive. -/
theorem sym_wf_payload_write (s : Scene) (hwf : wfRefs s) (hsym : ownerChildSymmetry s)
    {sh : Nat} {shn : SgNodeState} (hsh : s.get sh = some shn)
    (oldRef newRef : Option Nat) (knew : SgKind) (hk : knew.isGroupKind = false)
    (hshk : shn.kind.isGroupKind = false) :
    wfRefs (match newRef with
      | some mm => addOwner (((match oldRef with
          | some om => removeOwner s om sh
          | none => s)).modifyNode sh (fun k => { k with kind := knew })) mm sh
      | none => ((match oldRef with
          | some om => removeOwner s om sh
          | none => s)).modifyNode sh (fun k => { k with kind := knew })) ∧
    ownerChildSymmetry (match newRef with
      | some mm => addOwner (((match oldRef with
          | some om => removeOwner s om sh
          | none => s)).modifyNode sh (fun k => { k with kind := knew })) mm sh
      | none => ((match oldRef with
          | some om => removeOwner s om sh
          | none => s)).modifyNode sh (fun k => { k with kind := knew })) ∧
    (match newRef with
      | some mm => addOwner (((match oldRef with
          | some om => removeOwner s om sh
          | none => s)).modifyNode sh (fun k => { k with kind := knew })) mm sh
      | none => ((match oldRef with
          | some om => removeOwner s om sh
          | none => s)).modifyNode sh (fun k => { k with kind := knew })).nodes.length
      = s.nodes.length := by
  set s1 := (match oldRef with
    | some om => removeOwner s om sh
    | none => s) with hs1
  have h1len : s1.nodes.length = s.nodes.length := by
    rw [hs1]
    cases oldRef
    · rfl
    · exact (removeOwner_projs ..).1
  have h1kind : ∀ j, kindOf s1 j = kindOf s j := by
    intro j
    rw [hs1]
    cases oldRef
    · rfl
    · exact (removeOwner_projs ..).2.1 j
  have h1ch : ∀ j, childrenOf s1 j = childrenOf s j := by
    intro j
    rw [hs1]
    cases oldRef
    · rfl
    · exact (removeOwner_projs ..).2.2.1 j
  have h1cnt : ∀ j g2, g2 ≠ sh → (ownersOf s1 j).count g2 = (ownersOf s j).count g2 := by
    intro j g2 hne
    rw [hs1]
    cases oldRef
    · rfl
    · exact count_ownersOf_removeOwner _ _ hne j
  have h1mem : ∀ j q, q ∈ ownersOf s1 j → q ∈ ownersOf s j := by
    intro j q hq
    rw [hs1] at hq
    cases oldRef
    · exact hq
    · exact mem_ownersOf_removeOwner hq
  set s2 := s1.modifyNode sh (fun k => { k with kind := knew }) with hs2
  have h2len : s2.nodes.length = s1.nodes.length := modifyNode_length ..
  have h2kindo : ∀ j, j ≠ sh → kindOf s2 j = kindOf s1 j :=
    fun j hj => by rw [hs2, kindOf, get_modifyNode_other _ hj, kindOf]
  have h2kinds : ∀ gk, kindOf s2 sh = some gk → gk = knew := by
    intro gk hgk
    have hs1sh : ∃ m, s1.get sh = some m := by
      rcases Option.isSome_iff_exists.mp ((get_isSome_iff s1 sh).mpr
        (by rw [h1len]; exact get_lt_length hsh)) with ⟨m, hm⟩
      exact ⟨m, hm⟩
    rcases hs1sh with ⟨m, hm⟩
    rw [hs2, kindOf, get_modifyNode_self _ hm] at hgk
    simp at hgk
    exact hgk.symm
  have h2ch : ∀ j, childrenOf s2 j = childrenOf s1 j :=
    childrenOf_modifyNode_of_eq (f := fun k => { k with kind := knew }) (fun _ => rfl)
  have h2own : ∀ j, ownersOf s2 j = ownersOf s1 j :=
    ownersOf_modifyNode_of_eq (f := fun k => { k with kind := knew }) (fun _ => rfl)
  -- the holder stays non-group in s and in s2
  have hshk1 : ∀ gk, kindOf s sh = some gk → gk.isGroupKind = false := by
    intro gk hgk
    rw [kindOf, hsh] at hgk
    simp at hgk
    rw [← hgk]
    exact hshk
  have hfinal : ∀ (t : Scene),
      (t.nodes.length = s2.nodes.length) →
      (∀ j, childrenOf t j = childrenOf s2 j) →
      (∀ j, kindOf t j = kindOf s2 j) →
      (∀ j g2, g2 ≠ sh → (ownersOf t j).count g2 = (ownersOf s2 j).count g2) →
      (∀ j q, q ∈ ownersOf t j → q ∈ ownersOf s2 j ∨ q = sh) →
      wfRefs t ∧ ownerChildSymmetry t ∧ t.nodes.length = s.nodes.length := by
    intro t htlen htch htk htcnt htmem
    have hlen : t.nodes.length = s.nodes.length := by rw [htlen, h2len, h1len]
    refine ⟨?_, ?_, hlen⟩
    · refine wf_of_frame hwf hlen (fun j => by rw [htch j, h2ch j, h1ch j]) ?_
      intro j o ho
      rcases htmem j o ho with h | rfl
      · rw [h2own j] at h
        exact Or.inl (h1mem j o h)
      · exact Or.inr (get_lt_length hsh)
    · refine sym_of_frame hsym hlen (fun j => by rw [htch j, h2ch j, h1ch j]) ?_ ?_
      · intro g2 gk hk2 hgrp
        rcases Decidable.em (g2 = sh) with rfl | hne
        · exfalso
          have hgk : gk = knew := h2kinds gk (by rw [← htk g2]; exact hk2)
          rw [hgk, hk] at hgrp
          cases hgrp
        · rw [htk g2, h2kindo g2 hne, h1kind g2] at hk2
          exact hk2
      · intro j g2 gk hk2 hgrp
        have hne : g2 ≠ sh := by
          intro h
          subst h
          have := h2kinds gk (by rw [← htk g2]; exact hk2)
          subst this
          rw [hk] at hgrp
          cases hgrp
        rw [htcnt j g2 hne, h2own j, h1cnt j g2 hne]
  cases newRef with
  | none =>
    exact hfinal s2 rfl (fun _ => rfl) (fun _ => rfl) (fun _ _ _ => rfl)
      (fun _ _ h => Or.inl h)
  | some mm =>
    refine hfinal (addOwner s2 mm sh) (addOwner_projs ..).1
      (fun j => (addOwner_projs ..).2.2.1 j) (fun j => (addOwner_projs ..).2.1 j) ?_ ?_
    · intro j g2 hne
      exact count_ownersOf_addOwner s2 mm hne j
    · intro j q hq
      exact mem_ownersOf_addOwner hq

theorem sym_wf_setMesh (s : Scene) (hwf : wfRefs s) (hsym : ownerChildSymmetry s)
    (sh : Nat) (m : Option Nat) :
    wfRefs (setMesh s sh m) ∧ ownerChildSymmetry (setMesh s sh m) ∧
    (setMesh s sh m).nodes.length = s.nodes.length := by
  unfold setMesh
  cases hg : s.get sh with
  | none =>
    simp only [hg]
    exact ⟨hwf, hsym, by trivial⟩
  | some n =>
    simp only [hg]
    cases hkk : n.kind with
    | shape om omat otex =>
      exact sym_wf_payload_write s hwf hsym hg om m (.shape m omat otex) rfl
        (by rw [hkk]; rfl)
    | node => exact ⟨hwf, hsym, by trivial⟩
    | group => exact ⟨hwf, hsym, by trivial⟩
    | posTransform T => exact ⟨hwf, hsym, by trivial⟩
    | scaleTransform sc => exact ⟨hwf, hsym, by trivial⟩
    | mesh v nr co b => exact ⟨hwf, hsym, by trivial⟩
    | vertexArray d => exact ⟨hwf, hsym, by trivial⟩
    | material => exact ⟨hwf, hsym, by trivial⟩
    | texture i tt => exact ⟨hwf, hsym, by trivial⟩
    | image px => exact ⟨hwf, hsym, by trivial⟩
    | textureTransform => exact ⟨hwf, hsym, by trivial⟩

theorem sym_wf_setMaterial (s : Scene) (hwf : wfRefs s) (hsym : ownerChildSymmetry s)
    (sh : Nat) (m : Option Nat) :
    wfRefs (setMaterial s sh m) ∧ ownerChildSymmetry (setMaterial s sh m) ∧
    (setMaterial s sh m).nodes.length = s.nodes.length := by
  unfold setMaterial
  cases hg : s.get sh with
  | none =>
    simp only [hg]
    exact ⟨hwf, hsym, by trivial⟩
  | some n =>
    simp only [hg]
    cases hkk : n.kind with
    | shape om omat otex =>
      exact sym_wf_payload_write s hwf hsym hg omat m (.shape om m otex) rfl
        (by rw [hkk]; rfl)
    | node => exact ⟨hwf, hsym, by trivial⟩
    | group => exact ⟨hwf, hsym, by trivial⟩
    | posTransform T => exact ⟨hwf, hsym, by trivial⟩
    | scaleTransform sc => exact ⟨hwf, hsym, by trivial⟩
    | mesh v nr co b => exact ⟨hwf, hsym, by trivial⟩
    | vertexArray d => exact ⟨hwf, hsym, by trivial⟩
    | material => exact ⟨hwf, hsym, by trivial⟩
    | texture i tt => exact ⟨hwf, hsym, by trivial⟩
    | image px => exact ⟨hwf, hsym, by trivial⟩
    | textureTransform => exact ⟨hwf, hsym, by trivial⟩

theorem sym_wf_setTexture (s : Scene) (hwf : wfRefs s) (hsym : ownerChildSymmetry s)
    (sh : Nat) (m : Option Nat) :
    wfRefs (setTexture s sh m) ∧ ownerChildSymmetry (setTexture s sh m) ∧
    (setTexture s sh m).nodes.length = s.nodes.length := by
  unfold setTexture
  cases hg : s.get sh with
  | none =>
    simp only [hg]
    exact ⟨hwf, hsym, by trivial⟩
  | some n =>
    simp only [hg]
    cases hkk : n.kind with
    | shape om omat otex =>
      exact sym_wf_payload_write s hwf hsym hg otex m (.shape om omat m) rfl
        (by rw [hkk]; rfl)
    | node => exact ⟨hwf, hsym, by trivial⟩
    | group => exact ⟨hwf, hsym, by trivial⟩
    | posTransform T => exact ⟨hwf, hsym, by trivial⟩
    | scaleTransform sc => exact ⟨hwf, hsym, by trivial⟩
    | mesh v nr co b => exact ⟨hwf, hsym, by trivial⟩
    | vertexArray d => exact ⟨hwf, hsym, by trivial⟩
    | material => exact ⟨hwf, hsym, by trivial⟩
    | texture i tt => exact ⟨hwf, hsym, by trivial⟩
    | image px => exact ⟨hwf, hsym, by trivial⟩
    | textureTransform => exact ⟨hwf, hsym, by trivial⟩

theorem sym_wf_setVertices (s : Scene) (hwf : wfRefs s) (hsym : ownerChildSymmetry s)
    (mid : Nat) (v : Option Nat) :
    wfRefs (setVertices s mid v) ∧ ownerChildSymmetry (setVertices s mid v) ∧
    (setVertices s mid v).nodes.length = s.nodes.length := by
  unfold setVertices
  cases hg : s.get mid with
  | none =>
    simp only [hg]
    exact ⟨hwf, hsym, by trivial⟩
  | some n =>
    simp only [hg]
    cases hkk : n.kind with
    | mesh ov onr oco b =>
      exact sym_wf_payload_write s hwf hsym hg ov v (.mesh v onr oco b) rfl
        (by rw [hkk]; rfl)
    | node => exact ⟨hwf, hsym, by trivial⟩
    | group => exact ⟨hwf, hsym, by trivial⟩
    | posTransform T => exact ⟨hwf, hsym, by trivial⟩
    | scaleTransform sc => exact ⟨hwf, hsym, by trivial⟩
    | shape a b c => exact ⟨hwf, hsym, by trivial⟩
    | vertexArray d => exact ⟨hwf, hsym, by trivial⟩
    | material => exact ⟨hwf, hsym, by trivial⟩
    | texture i tt => exact ⟨hwf, hsym, by trivial⟩
    | image px => exact ⟨hwf, hsym, by trivial⟩
    | textureTransform => exact ⟨hwf, hsym, by trivial⟩

theorem sym_wf_setNormals (s : Scene) (hwf : wfRefs s) (hsym : ownerChildSymmetry s)
    (mid : Nat) (v : Option Nat) :
    wfRefs (setNormals s mid v) ∧ ownerChildSymmetry (setNormals s mid v) ∧
    (setNormals s mid v).nodes.length = s.nodes.length := by
  unfold setNormals
  cases hg : s.get mid with
  | none =>
    simp only [hg]
    exact ⟨hwf, hsym, by trivial⟩
  | some n =>
    simp only [hg]
    cases hkk : n.kind with
    | mesh ov onr oco b =>
      exact sym_wf_payload_write s hwf hsym hg onr v (.mesh ov v oco b) rfl
        (by rw [hkk]; rfl)
    | node => exact ⟨hwf, hsym, by trivial⟩
    | group => exact ⟨hwf, hsym, by trivial⟩
    | posTransform T => exact ⟨hwf, hsym, by trivial⟩
    | scaleTransform sc => exact ⟨hwf, hsym, by trivial⟩
    | shape a b c => exact ⟨hwf, hsym, by trivial⟩
    | vertexArray d => exact ⟨hwf, hsym, by trivial⟩
    | material => exact ⟨hwf, hsym, by trivial⟩
    | texture i tt => exact ⟨hwf, hsym, by trivial⟩
    | image px => exact ⟨hwf, hsym, by trivial⟩
    | textureTransform => exact ⟨hwf, hsym, by trivial⟩

theorem sym_wf_setColors (s : Scene) (hwf : wfRefs s) (hsym : ownerChildSymmetry s)
    (mid : Nat) (v : Option Nat) :
    wfRefs (setColors s mid v) ∧ ownerChildSymmetry (setColors s mid v) ∧
    (setColors s mid v).nodes.length = s.nodes.length := by
  unfold setColors
  cases hg : s.get mid with
  | none =>
    simp only [hg]
    exact ⟨hwf, hsym, by trivial⟩
  | some n =>
    simp only [hg]
    cases hkk : n.kind with
    | mesh ov onr oco b =>
      exact sym_wf_payload_write s hwf hsym hg oco v (.mesh ov onr v b) rfl
        (by rw [hkk]; rfl)
    | node => exact ⟨hwf, hsym, by trivial⟩
    | group => exact ⟨hwf, hsym, by trivial⟩
    | posTransform T => exact ⟨hwf, hsym, by trivial⟩
    | scaleTransform sc => exact ⟨hwf, hsym, by trivial⟩
    | shape a b c => exact ⟨hwf, hsym, by trivial⟩
    | vertexArray d => exact ⟨hwf, hsym, by trivial⟩
    | material => exact ⟨hwf, hsym, by trivial⟩
    | texture i tt => exact ⟨hwf, hsym, by trivial⟩
    | image px => exact ⟨hwf, hsym, by trivial⟩
    | textureTransform => exact ⟨hwf, hsym, by trivial⟩

theorem sym_wf_setImage (s : Scene) (hwf : wfRefs s) (hsym : ownerChildSymmetry s)
    (t : Nat) (img : Option Nat) :
    wfRefs (setImage s t img) ∧ ownerChildSymmetry (setImage s t img) ∧
    (setImage s t img).nodes.length = s.nodes.length := by
  unfold setImage
  cases hg : s.get t with
  | none =>
    simp only [hg]
    exact ⟨hwf, hsym, by trivial⟩
  | some n =>
    simp only [hg]
    cases hkk : n.kind with
    | texture oi ott =>
      exact sym_wf_payload_write s hwf hsym hg oi img (.texture img ott) rfl
        (by rw [hkk]; rfl)
    | node => exact ⟨hwf, hsym, by trivial⟩
    | group => exact ⟨hwf, hsym, by trivial⟩
    | posTransform T => exact ⟨hwf, hsym, by trivial⟩
    | scaleTransform sc => exact ⟨hwf, hsym, by trivial⟩
    | shape a b c => exact ⟨hwf, hsym, by trivial⟩
    | mesh v nr co b => exact ⟨hwf, hsym, by trivial⟩
    | vertexArray d => exact ⟨hwf, hsym, by trivial⟩
    | material => exact ⟨hwf, hsym, by trivial⟩
    | image px => exact ⟨hwf, hsym, by trivial⟩
    | textureTransform => exact ⟨hwf, hsym, by trivial⟩

theorem sym_wf_setTextureTransformRef (s : Scene) (hwf : wfRefs s)
    (hsym : ownerChildSymmetry s) (t : Nat) (tt : Option Nat) :
    wfRefs (setTextureTransformRef s t tt) ∧
    ownerChildSymmetry (setTextureTransformRef s t tt) ∧
    (setTextureTransformRef s t tt).nodes.length = s.nodes.length := by
  unfold setTextureTransformRef
  cases hg : s.get t with
  | none =>
    simp only [hg]
    exact ⟨hwf, hsym, by trivial⟩
  | some n =>
    simp only [hg]
    cases hkk : n.kind with
    | texture oi ott =>
      exact sym_wf_payload_write s hwf hsym hg ott tt (.texture oi tt) rfl
        (by rw [hkk]; rfl)
    | node => exact ⟨hwf, hsym, by trivial⟩
    | group => exact ⟨hwf, hsym, by trivial⟩
    | posTransform T => exact ⟨hwf, hsym, by trivial⟩
    | scaleTransform sc => exact ⟨hwf, hsym, by trivial⟩
    | shape a b c => exact ⟨hwf, hsym, by trivial⟩
    | mesh v nr co b => exact ⟨hwf, hsym, by trivial⟩
    | vertexArray d => exact ⟨hwf, hsym, by trivial⟩
    | material => exact ⟨hwf, hsym, by trivial⟩
    | image px => exact ⟨hwf, hsym, by trivial⟩
    | textureTransform => exact ⟨hwf, hsym, by trivial⟩

/-! ### addChild, allocation and the copy constructor preserve the
invariants -/

theorem ownersOf_dangling {s : Scene} {j : Nat} (h : ¬(s.get j).isSome) :
    ownersOf s j = [] := by
  rw [ownersOf, Option.not_isSome_iff_eq_none.mp h]
  rfl

theorem wf_addChild (s : Scene) (hwf : wfRefs s) (fuel g : Nat) (nr : Option Nat)
    (dn : Bool) (hn : ∀ n, nr = some n → n < s.nodes.length) :
    wfRefs (addChild fuel s g nr dn) := by
  cases nr with
  | none => exact hwf
  | some n =>
    cases hg : s.get g with
    | none =>
      have : addChild fuel s g (some n) dn = s := by
        unfold addChild
        simp only [hg]
      rw [this]
      exact hwf
    | some gn =>
      obtain ⟨hlen, _, hcg, hco, hon, hoo⟩ := addChild_projs fuel s g n dn hg
      intro id
      constructor
      · intro c hc
        rw [hlen]
        rcases Decidable.em (id = g) with rfl | hne
        · rw [hcg] at hc
          rcases List.mem_append.mp hc with h | h
          · exact (hwf id).1 c h
          · rw [List.mem_singleton.mp h]
            exact hn n rfl
        · exact (hwf id).1 c (by rw [← hco id hne]; exact hc)
      · intro o ho
        rw [hlen]
        rcases Decidable.em (id = n) with rfl | hne
        · cases hns : (s.get id).isSome
          · have : ownersOf (addChild fuel s g (some id) dn) id = [] := by
              apply ownersOf_dangling
              rw [get_isSome_iff, hlen, ← get_isSome_iff]
              simp [hns]
            rw [this] at ho
            cases ho
          · rw [hon (by simp [hns])] at ho
            rcases List.mem_cons.mp ho with rfl | h
            · exact get_lt_length hg
            · exact (hwf id).2 o h
        · exact (hwf id).2 o (by rw [← hoo id hne]; exact ho)

/-- Allocating a node with empty child and owner lists preserves both
invariants and gives it a fresh id. -/
theorem sym_wf_alloc (s : Scene) (hwf : wfRefs s) (hsym : ownerChildSymmetry s)
    (nd : SgNodeState) (hc : nd.children = []) (ho : nd.owners = []) :
    wfRefs (s.alloc nd).1 ∧ ownerChildSymmetry (s.alloc nd).1 ∧
    (s.alloc nd).1.nodes.length = s.nodes.length + 1 ∧
    (s.alloc nd).2 = s.nodes.length ∧
    (∀ j, j < s.nodes.length → (s.alloc nd).1.get j = s.get j) ∧
    (s.alloc nd).1.get s.nodes.length = some nd := by
  have hget : ∀ j, j < s.nodes.length → (s.alloc nd).1.get j = s.get j := by
    intro j hj
    show (s.nodes ++ [nd])[j]? = s.nodes[j]?
    rw [List.getElem?_append_left hj]
  have hgetn : (s.alloc nd).1.get s.nodes.length = some nd := by
    show (s.nodes ++ [nd])[s.nodes.length]? = some nd
    rw [List.getElem?_append_right (Nat.le_refl _)]
    simp
  have hlen : (s.alloc nd).1.nodes.length = s.nodes.length + 1 := by
    show (s.nodes ++ [nd]).length = _
    simp
  refine ⟨?_, ?_, hlen, rfl, hget, hgetn⟩
  · intro id
    constructor
    · intro c hcm
      rcases Nat.lt_trichotomy id s.nodes.length with hlt | heq | hgt
      · rw [childrenOf, hget id hlt, ← childrenOf] at hcm
        rw [hlen]
        exact Nat.lt_succ_of_lt ((hwf id).1 c hcm)
      · subst heq
        rw [childrenOf, hgetn] at hcm
        simp [hc] at hcm
      · have : (s.alloc nd).1.get id = none := by
          rw [← Option.not_isSome_iff_eq_none, get_isSome_iff, hlen]
          omega
        rw [childrenOf, this] at hcm
        cases hcm
    · intro o hom
      rcases Nat.lt_trichotomy id s.nodes.length with hlt | heq | hgt
      · rw [ownersOf, hget id hlt, ← ownersOf] at hom
        rw [hlen]
        exact Nat.lt_succ_of_lt ((hwf id).2 o hom)
      · subst heq
        rw [ownersOf, hgetn] at hom
        simp [ho] at hom
      · have : (s.alloc nd).1.get id = none := by
          rw [← Option.not_isSome_iff_eq_none, get_isSome_iff, hlen]
          omega
        rw [ownersOf, this] at hom
        cases hom
  · intro g2 n2 gk hk hgrp hn2
    rw [hlen] at hn2
    rcases Nat.lt_trichotomy g2 s.nodes.length with hg2 | hg2 | hg2
    · have hchg : childrenOf (s.alloc nd).1 g2 = childrenOf s g2 := by
        rw [childrenOf, hget g2 hg2, childrenOf]
      have hkg : kindOf s g2 = some gk := by
        rw [kindOf, ← hget g2 hg2, ← kindOf]
        exact hk
      rcases Nat.lt_trichotomy n2 s.nodes.length with hn | hn | hn
      · rw [hchg, ownersOf, hget n2 hn, ← ownersOf]
        exact hsym g2 n2 gk hkg hgrp hn
      · have hnot : List.count n2 (childrenOf s g2) = 0 := by
          rw [List.count_eq_zero]
          intro hmem
          have := (hwf g2).1 n2 hmem
          omega
        have hown : ownersOf (s.alloc nd).1 n2 = [] := by
          rw [ownersOf, hn, hgetn]
          simp [ho]
        rw [hchg, hnot, hown]
        rfl
      · omega
    · have hchg : childrenOf (s.alloc nd).1 g2 = [] := by
        rw [childrenOf, hg2, hgetn]
        simp [hc]
      rw [hchg]
      have hrhs : List.count g2 (ownersOf (s.alloc nd).1 n2) = 0 := by
        rcases Nat.lt_trichotomy n2 s.nodes.length with hn | hn | hn
        · rw [ownersOf, hget n2 hn, ← ownersOf, List.count_eq_zero]
          intro hmem
          have := (hwf n2).2 g2 hmem
          omega
        · rw [ownersOf, hn, hgetn]
          simp [ho]
        · omega
      rw [hrhs]
      rfl
    · have hnone : (s.alloc nd).1.get g2 = none := by
        rw [← Option.not_isSome_iff_eq_none, get_isSome_iff, hlen]
        omega
      rw [kindOf, hnone] at hk
      cases hk

/-- The addChild fold of the copy and clone constructors preserves the
invariants. -/
theorem sym_wf_addChild_fold (fuel g : Nat) (dn : Bool) :
    ∀ (l : List Nat) (s : Scene), wfRefs s → ownerChildSymmetry s →
      (∀ c ∈ l, c < s.nodes.length) →
      wfRefs (l.foldl (fun acc c => addChild fuel acc g (some c) dn) s) ∧
      ownerChildSymmetry (l.foldl (fun acc c => addChild fuel acc g (some c) dn) s) ∧
      (l.foldl (fun acc c => addChild fuel acc g (some c) dn) s).nodes.length
        = s.nodes.length := by
  intro l
  induction l with
  | nil => intro s hwf hsym _; exact ⟨hwf, hsym, rfl⟩
  | cons c cs ih =>
    intro s hwf hsym hlt
    have hlen1 : (addChild fuel s g (some c) dn).nodes.length = s.nodes.length := by
      cases hg : s.get g with
      | none =>
        have he : addChild fuel s g (some c) dn = s := by
          unfold addChild
          simp only [hg]
        rw [he]
      | some gn => exact (addChild_projs fuel s g c dn hg).1
    rw [List.foldl_cons]
    obtain ⟨w, y, z⟩ := ih (addChild fuel s g (some c) dn)
      (wf_addChild s hwf fuel g (some c) dn
        (fun m hm => by injection hm with h; rw [← h]; exact hlt c (List.mem_cons_self c cs)))
      (sym_addChild s hsym fuel g (some c) dn)
      (fun m hm => by rw [hlen1]; exact hlt m (List.mem_cons_of_mem c hm))
    exact ⟨w, y, z.trans hlen1⟩

/-- The SgGroup copy constructor preserves the invariants. -/
theorem sym_wf_sgGroupCopy (s : Scene) (hwf : wfRefs s) (hsym : ownerChildSymmetry s)
    (orgId : Nat) :
    wfRefs (sgGroupCopy s orgId).1 ∧ ownerChildSymmetry (sgGroupCopy s orgId).1 := by
  cases hg : s.get orgId with
  | none =>
    have he : (sgGroupCopy s orgId).1 = s := by
      unfold sgGroupCopy
      simp only [hg]
    rw [he]
    exact ⟨hwf, hsym⟩
  | some org =>
    have he : (sgGroupCopy s orgId).1 =
        ((org.children.foldl
            (fun acc c => addChild 0 acc (s.alloc { name := org.name, kind := .group }).2
              (some c) false)
            (s.alloc { name := org.name, kind := .group }).1).modifyNode
          (s.alloc { name := org.name, kind := .group }).2
          (fun n => { n with isBboxCacheValid := true, bboxCache := org.bboxCache })) := by
      unfold sgGroupCopy
      simp only [hg]
    rw [he]
    obtain ⟨awf, asym, alen, _, _, _⟩ :=
      sym_wf_alloc s hwf hsym { name := org.name, kind := .group } rfl rfl
    have hco : ∀ c ∈ org.children, c < (s.alloc { name := org.name, kind := .group }).1.nodes.length := by
      intro c hcm
      rw [alen]
      have : c < s.nodes.length := (hwf orgId).1 c (by rw [childrenOf, hg]; exact hcm)
      omega
    obtain ⟨fwf, fsym, _⟩ := sym_wf_addChild_fold 0
      (s.alloc { name := org.name, kind := .group }).2 false org.children
      (s.alloc { name := org.name, kind := .group }).1 awf asym hco
    have hmod := sameStruct_modify_cache
      (org.children.foldl
        (fun acc c => addChild 0 acc (s.alloc { name := org.name, kind := .group }).2
          (some c) false)
        (s.alloc { name := org.name, kind := .group }).1)
      (s.alloc { name := org.name, kind := .group }).2
      (fun n => { n with isBboxCacheValid := true, bboxCache := org.bboxCache })
      (fun _ => rfl) (fun _ => rfl) (fun _ => rfl)
    exact ⟨wf_of_sameStruct hmod fwf, sym_of_sameStruct hmod fsym⟩

/-! ### The clone-with-map constructors preserve the invariants -/

/-- Clone-map boundedness: every stored clone id is an allocated object. -/
def cmBounded (cm : SgCloneMap) (s : Scene) : Prop :=
  ∀ e ∈ cm.entries, e.2 < s.nodes.length

theorem cmBounded_mono {cm : SgCloneMap} {s t : Scene} (h : cmBounded cm s)
    (hl : s.nodes.length ≤ t.nodes.length) : cmBounded cm t :=
  fun e he => Nat.lt_of_lt_of_le (h e he) hl

theorem cmBounded_insert {cm : SgCloneMap} {s : Scene} {org c : Nat} (h : cmBounded cm s)
    (hc : c < s.nodes.length) : cmBounded (cm.insert org c) s := by
  intro e he
  rcases List.mem_cons.mp he with rfl | hm
  · exact hc
  · exact h e hm

theorem cm_find_bounded {cm : SgCloneMap} {s : Scene} {org c : Nat} (h : cmBounded cm s)
    (hf : cm.find org = some c) : c < s.nodes.length := by
  unfold SgCloneMap.find at hf
  cases he : cm.entries.find? (fun e => e.fst = org) with
  | none => rw [he] at hf; cases hf
  | some e =>
    rw [he] at hf
    have hm : e ∈ cm.entries := List.mem_of_find?_eq_some he
    have : e.2 = c := by simpa using hf
    rw [← this]
    exact h e hm

theorem alloc_snd (s : Scene) (nd : SgNodeState) : (s.alloc nd).2 = s.nodes.length := rfl

/-- The joint invariant-preservation statement for the four mutually
recursive cloning functions: starting from a well-formed, symmetric scene
and a bounded clone map, a successful run yields a well-formed, symmetric
scene, a bounded map, a grown heap, and in-range results. -/
theorem clone_preserves_inv :
    ∀ fuel : Nat,
      (∀ s cm org s2 cm2 c, wfRefs s → ownerChildSymmetry s → cmBounded cm s →
        findOrCreateClone fuel s cm org = some (s2, cm2, c) →
        wfRefs s2 ∧ ownerChildSymmetry s2 ∧ cmBounded cm2 s2 ∧
          s.nodes.length ≤ s2.nodes.length ∧ c < s2.nodes.length) ∧
      (∀ s cm n s2 cm2 c, wfRefs s → ownerChildSymmetry s → cmBounded cm s →
        (∀ q ∈ n.children, q < s.nodes.length) →
        cloneObject fuel s cm n = some (s2, cm2, c) →
        wfRefs s2 ∧ ownerChildSymmetry s2 ∧ cmBounded cm2 s2 ∧
          s.nodes.length ≤ s2.nodes.length ∧ c < s2.nodes.length) ∧
      (∀ s cm r s2 cm2 rr, wfRefs s → ownerChildSymmetry s → cmBounded cm s →
        cloneOptionalRef fuel s cm r = some (s2, cm2, rr) →
        wfRefs s2 ∧ ownerChildSymmetry s2 ∧ cmBounded cm2 s2 ∧
          s.nodes.length ≤ s2.nodes.length) ∧
      (∀ s cm g l s2 cm2, wfRefs s → ownerChildSymmetry s → cmBounded cm s →
        g < s.nodes.length → (∀ q ∈ l, q < s.nodes.length) →
        cloneAddChildren fuel s cm g l = some (s2, cm2) →
        wfRefs s2 ∧ ownerChildSymmetry s2 ∧ cmBounded cm2 s2 ∧
          s.nodes.length ≤ s2.nodes.length) := by
  intro fuel
  induction fuel using Nat.strong_induction_on with
  | _ fuel ih =>
    cases fuel with
    | zero =>
      refine ⟨?_, ?_, ?_, ?_⟩
      · intro s cm org s2 cm2 c _ _ _ h
        cases h
      · intro s cm n s2 cm2 c _ _ _ _ h
        cases h
      · intro s cm r s2 cm2 rr hwf hsym hcm h
        cases r with
        | none =>
          have : s2 = s ∧ cm2 = cm := by
            unfold cloneOptionalRef at h
            injection h with h2
            injection h2 with ha hb
            injection hb with hb hc
            exact ⟨ha.symm, hb.symm⟩
          rcases this with ⟨rfl, rfl⟩
          exact ⟨hwf, hsym, hcm, Nat.le_refl _⟩
        | some q => cases h
      · intro s cm g l s2 cm2 hwf hsym hcm _ _ h
        cases l with
        | nil =>
          have : s2 = s ∧ cm2 = cm := by
            unfold cloneAddChildren at h
            injection h with h2
            injection h2 with ha hb
            exact ⟨ha.symm, hb.symm⟩
          rcases this with ⟨rfl, rfl⟩
          exact ⟨hwf, hsym, hcm, Nat.le_refl _⟩
        | cons q qs => cases h
    | succ f =>
      have ihf := ih f (Nat.lt_succ_self f)
      refine ⟨?_, ?_, ?_, ?_⟩
      -- findOrCreateClone
      · intro s cm org s2 cm2 c hwf hsym hcm h
        unfold findOrCreateClone at h
        cases hfind : cm.find org with
        | some c0 =>
          simp only [hfind] at h
          injection h with h2
          injection h2 with ha hb
          injection hb with hb hc
          subst ha
          subst hb
          subst hc
          exact ⟨hwf, hsym, hcm, Nat.le_refl _, cm_find_bounded hcm hfind⟩
        | none =>
          simp only [hfind] at h
          cases hget : s.get org with
          | none => simp only [hget] at h; cases h
          | some n =>
            simp only [hget] at h
            cases hco : cloneObject f s cm n with
            | none => simp only [hco] at h; cases h
            | some out =>
              simp only [hco] at h
              rcases out with ⟨s1, cm1, c1⟩
              injection h with h2
              injection h2 with ha hb
              injection hb with hb hc
              subst ha
              subst hb
              subst hc
              have hchb : ∀ q ∈ n.children, q < s.nodes.length := by
                intro q hq
                exact (hwf org).1 q (by rw [childrenOf, hget]; exact hq)
              obtain ⟨w1, w2, w3, w4, w5⟩ := ihf.2.1 s cm n s1 cm1 c1 hwf hsym hcm hchb hco
              exact ⟨w1, w2, cmBounded_insert w3 w5, w4, w5⟩
      -- cloneObject
      · intro s cm n s2 cm2 c hwf hsym hcm hch h
        unfold cloneObject at h
        cases hk : n.kind with
        | node =>
          simp only [hk] at h
          injection h with h2
          injection h2 with ha hb
          injection hb with hb hc
          subst ha
          subst hb
          subst hc
          obtain ⟨w1, w2, w3, _, _, _⟩ := sym_wf_alloc s hwf hsym
            { name := n.name, kind := .node } rfl rfl
          refine ⟨w1, w2, cmBounded_mono hcm (by rw [w3]; omega), by rw [w3]; omega,
            by rw [w3, alloc_snd]; omega⟩
        | vertexArray d =>
          simp only [hk] at h
          injection h with h2
          injection h2 with ha hb
          injection hb with hb hc
          subst ha
          subst hb
          subst hc
          obtain ⟨w1, w2, w3, _, _, _⟩ := sym_wf_alloc s hwf hsym
            { name := n.name, kind := .vertexArray d } rfl rfl
          refine ⟨w1, w2, cmBounded_mono hcm (by rw [w3]; omega), by rw [w3]; omega,
            by rw [w3, alloc_snd]; omega⟩
        | material =>
          simp only [hk] at h
          injection h with h2
          injection h2 with ha hb
          injection hb with hb hc
          subst ha
          subst hb
          subst hc
          obtain ⟨w1, w2, w3, _, _, _⟩ := sym_wf_alloc s hwf hsym
            { name := n.name, kind := .material } rfl rfl
          refine ⟨w1, w2, cmBounded_mono hcm (by rw [w3]; omega), by rw [w3]; omega,
            by rw [w3, alloc_snd]; omega⟩
        | image px =>
          simp only [hk] at h
          injection h with h2
          injection h2 with ha hb
          injection hb with hb hc
          subst ha
          subst hb
          subst hc
          obtain ⟨w1, w2, w3, _, _, _⟩ := sym_wf_alloc s hwf hsym
            { name := n.name, kind := .image px } rfl rfl
          refine ⟨w1, w2, cmBounded_mono hcm (by rw [w3]; omega), by rw [w3]; omega,
            by rw [w3, alloc_snd]; omega⟩
        | textureTransform =>
          simp only [hk] at h
          injection h with h2
          injection h2 with ha hb
          injection hb with hb hc
          subst ha
          subst hb
          subst hc
          obtain ⟨w1, w2, w3, _, _, _⟩ := sym_wf_alloc s hwf hsym
            { name := n.name, kind := .textureTransform } rfl rfl
          refine ⟨w1, w2, cmBounded_mono hcm (by rw [w3]; omega), by rw [w3]; omega,
            by rw [w3, alloc_snd]; omega⟩
        | group =>
          simp only [hk] at h
          obtain ⟨w1, w2, w3, w4, w5, w6⟩ := sym_wf_alloc s hwf hsym
            { name := n.name, kind := .group } rfl rfl
          cases hca : cloneAddChildren f (s.alloc { name := n.name, kind := .group }).1 cm
              (s.alloc { name := n.name, kind := .group }).2 n.children with
          | none => simp only [hca] at h; cases h
          | some out =>
            simp only [hca] at h
            rcases out with ⟨s3, cm3⟩
            injection h with h2
            injection h2 with ha hb
            injection hb with hb hc
            obtain ⟨v1, v2, v3, v4⟩ := ihf.2.2.2
              (s.alloc { name := n.name, kind := .group }).1 cm
              (s.alloc { name := n.name, kind := .group }).2 n.children s3 cm3
              w1 w2 (cmBounded_mono hcm (by rw [w3]; omega))
              (by rw [w3, w4]; omega)
              (fun q hq => by rw [w3]; exact Nat.lt_succ_of_lt (hch q hq))
              hca
            have hmod := sameStruct_modify_cache s3
              (s.alloc { name := n.name, kind := .group }).2
              (fun k => { k with isBboxCacheValid := true, bboxCache := n.bboxCache })
              (fun _ => rfl) (fun _ => rfl) (fun _ => rfl)
            subst ha
            subst hb
            subst hc
            refine ⟨wf_of_sameStruct hmod v1, sym_of_sameStruct hmod v2, ?_, ?_, ?_⟩
            · exact cmBounded_mono v3 (le_of_eq hmod.len.symm)
            · rw [hmod.len]
              omega
            · rw [hmod.len, w4]
              omega
        | posTransform T =>
          simp only [hk] at h
          obtain ⟨w1, w2, w3, w4, w5, w6⟩ := sym_wf_alloc s hwf hsym
            { name := n.name, kind := .posTransform T } rfl rfl
          cases hca : cloneAddChildren f (s.alloc { name := n.name, kind := .posTransform T }).1 cm
              (s.alloc { name := n.name, kind := .posTransform T }).2 n.children with
          | none => simp only [hca] at h; cases h
          | some out =>
            simp only [hca] at h
            rcases out with ⟨s3, cm3⟩
            injection h with h2
            injection h2 with ha hb
            injection hb with hb hc
            obtain ⟨v1, v2, v3, v4⟩ := ihf.2.2.2
              (s.alloc { name := n.name, kind := .posTransform T }).1 cm
              (s.alloc { name := n.name, kind := .posTransform T }).2 n.children s3 cm3
              w1 w2 (cmBounded_mono hcm (by rw [w3]; omega))
              (by rw [w3, w4]; omega)
              (fun q hq => by rw [w3]; exact Nat.lt_succ_of_lt (hch q hq))
              hca
            have hmod := sameStruct_modify_cache s3
              (s.alloc { name := n.name, kind := .posTransform T }).2
              (fun k => { k with
                            isBboxCacheValid := true,
                            bboxCache := n.bboxCache,
                            untransformedBboxCache := n.untransformedBboxCache })
              (fun _ => rfl) (fun _ => rfl) (fun _ => rfl)
            subst ha
            subst hb
            subst hc
            refine ⟨wf_of_sameStruct hmod v1, sym_of_sameStruct hmod v2, ?_, ?_, ?_⟩
            · exact cmBounded_mono v3 (le_of_eq hmod.len.symm)
            · rw [hmod.len]
              omega
            · rw [hmod.len, w4]
              omega
        | scaleTransform sc =>
          simp only [hk] at h
          obtain ⟨w1, w2, w3, w4, w5, w6⟩ := sym_wf_alloc s hwf hsym
            { name := n.name, kind := .scaleTransform sc } rfl rfl
          cases hca : cloneAddChildren f (s.alloc { name := n.name, kind := .scaleTransform sc }).1 cm
              (s.alloc { name := n.name, kind := .scaleTransform sc }).2 n.children with
          | none => simp only [hca] at h; cases h
          | some out =>
            simp only [hca] at h
            rcases out with ⟨s3, cm3⟩
            injection h with h2
            injection h2 with ha hb
            injection hb with hb hc
            obtain ⟨v1, v2, v3, v4⟩ := ihf.2.2.2
              (s.alloc { name := n.name, kind := .scaleTransform sc }).1 cm
              (s.alloc { name := n.name, kind := .scaleTransform sc }).2 n.children s3 cm3
              w1 w2 (cmBounded_mono hcm (by rw [w3]; omega))
              (by rw [w3, w4]; omega)
              (fun q hq => by rw [w3]; exact Nat.lt_succ_of_lt (hch q hq))
              hca
            have hmod := sameStruct_modify_cache s3
              (s.alloc { name := n.name, kind := .scaleTransform sc }).2
              (fun k => { k with
                            isBboxCacheValid := true,
                            bboxCache := n.bboxCache,
                            untransformedBboxCache := n.untransformedBboxCache })
              (fun _ => rfl) (fun _ => rfl) (fun _ => rfl)
            subst ha
            subst hb
            subst hc
            refine ⟨wf_of_sameStruct hmod v1, sym_of_sameStruct hmod v2, ?_, ?_, ?_⟩
            · exact cmBounded_mono v3 (le_of_eq hmod.len.symm)
            · rw [hmod.len]
              omega
            · rw [hmod.len, w4]
              omega
        | shape m mat tex =>
          simp only [hk] at h
          obtain ⟨w1, w2, w3, w4, w5, w6⟩ := sym_wf_alloc s hwf hsym
            { name := n.name, kind := .shape none none none } rfl rfl
          set sA := (s.alloc { name := n.name, kind := .shape none none none }).1 with hsA
          set idA := (s.alloc { name := n.name, kind := .shape none none none }).2 with hidA
          have hcmA : cmBounded cm sA := cmBounded_mono hcm (by rw [w3]; omega)
          cases hflag : cm.isNonNodeCloningEnabled with
          | true =>
            simp only [hflag, if_pos] at h
            cases h1 : cloneOptionalRef f sA cm m with
            | none => simp only [h1] at h; cases h
            | some o1 =>
              simp only [h1] at h
              rcases o1 with ⟨sB, cmB, m2⟩
              obtain ⟨x1, x2, x3, x4⟩ := ihf.2.2.1 sA cm m sB cmB m2 w1 w2 hcmA h1
              obtain ⟨y1, y2, y3⟩ := sym_wf_setMesh sB x1 x2 idA m2
              cases h2 : cloneOptionalRef f (setMesh sB idA m2) cmB mat with
              | none => simp only [h2] at h; cases h
              | some o2 =>
                simp only [h2] at h
                rcases o2 with ⟨sC, cmC, mat3⟩
                obtain ⟨z1, z2, z3, z4⟩ := ihf.2.2.1 (setMesh sB idA m2) cmB mat sC cmC mat3
                  y1 y2 (cmBounded_mono x3 (by rw [y3])) h2
                obtain ⟨u1, u2, u3⟩ := sym_wf_setMaterial sC z1 z2 idA mat3
                cases h3 : cloneOptionalRef f (setMaterial sC idA mat3) cmC tex with
                | none => simp only [h3] at h; cases h
                | some o3 =>
                  simp only [h3] at h
                  rcases o3 with ⟨sD, cmD, tex4⟩
                  dsimp only at h
                  obtain ⟨p1, p2, p3, p4⟩ := ihf.2.2.1 (setMaterial sC idA mat3) cmC tex
                    sD cmD tex4 u1 u2 (cmBounded_mono z3 (by rw [u3])) h3
                  obtain ⟨q1, q2, q3⟩ := sym_wf_setTexture sD p1 p2 idA tex4
                  injection h with h2x
                  injection h2x with ha hb
                  injection hb with hb hc
                  subst ha
                  subst hb
                  subst hc
                  have hlenD : s.nodes.length + 1 ≤ (setTexture sD idA tex4).nodes.length := by
                    rw [q3]
                    calc s.nodes.length + 1 = sA.nodes.length := by rw [w3]
                    _ ≤ sB.nodes.length := x4
                    _ = (setMesh sB idA m2).nodes.length := y3.symm
                    _ ≤ sC.nodes.length := z4
                    _ = (setMaterial sC idA mat3).nodes.length := u3.symm
                    _ ≤ sD.nodes.length := p4
                  refine ⟨q1, q2, cmBounded_mono p3 (le_of_eq q3.symm), by omega, ?_⟩
                  have hidv : idA = s.nodes.length := rfl
                  omega
          | false =>
            simp only [hflag, Bool.false_eq_true, if_neg, if_false] at h
            obtain ⟨y1, y2, y3⟩ := sym_wf_setMesh sA w1 w2 idA m
            obtain ⟨u1, u2, u3⟩ := sym_wf_setMaterial (setMesh sA idA m) y1 y2 idA mat
            obtain ⟨q1, q2, q3⟩ := sym_wf_setTexture
              (setMaterial (setMesh sA idA m) idA mat) u1 u2 idA tex
            injection h with h2x
            injection h2x with ha hb
            injection hb with hb hc
            subst ha
            subst hb
            subst hc
            have hlen2 : (setTexture (setMaterial (setMesh sA idA m) idA mat) idA
                tex).nodes.length = s.nodes.length + 1 := by
              rw [q3, u3, y3, w3]
            refine ⟨q1, q2, cmBounded_mono hcm (by omega), by omega, ?_⟩
            have hidv : idA = s.nodes.length := rfl
            omega
        | mesh v nrm col b =>
          simp only [hk] at h
          obtain ⟨w1, w2, w3, w4, w5, w6⟩ := sym_wf_alloc s hwf hsym
            { name := n.name, kind := .mesh none none none b } rfl rfl
          set sA := (s.alloc { name := n.name, kind := .mesh none none none b }).1 with hsA
          set idA := (s.alloc { name := n.name, kind := .mesh none none none b }).2 with hidA
          have hcmA : cmBounded cm sA := cmBounded_mono hcm (by rw [w3]; omega)
          cases hflag : cm.isNonNodeCloningEnabled with
          | true =>
            simp only [hflag, if_pos] at h
            cases h1 : cloneOptionalRef f sA cm v with
            | none => simp only [h1] at h; cases h
            | some o1 =>
              simp only [h1] at h
              rcases o1 with ⟨sB, cmB, v2⟩
              obtain ⟨x1, x2, x3, x4⟩ := ihf.2.2.1 sA cm v sB cmB v2 w1 w2 hcmA h1
              obtain ⟨y1, y2, y3⟩ := sym_wf_setVertices sB x1 x2 idA v2
              cases h2 : cloneOptionalRef f (setVertices sB idA v2) cmB nrm with
              | none => simp only [h2] at h; cases h
              | some o2 =>
                simp only [h2] at h
                rcases o2 with ⟨sC, cmC, n3⟩
                obtain ⟨z1, z2, z3, z4⟩ := ihf.2.2.1 (setVertices sB idA v2) cmB nrm sC cmC n3
                  y1 y2 (cmBounded_mono x3 (by rw [y3])) h2
                obtain ⟨u1, u2, u3⟩ := sym_wf_setNormals sC z1 z2 idA n3
                cases h3 : cloneOptionalRef f (setNormals sC idA n3) cmC col with
                | none => simp only [h3] at h; cases h
                | some o3 =>
                  simp only [h3] at h
                  rcases o3 with ⟨sD, cmD, c4⟩
                  dsimp only at h
                  obtain ⟨p1, p2, p3, p4⟩ := ihf.2.2.1 (setNormals sC idA n3) cmC col
                    sD cmD c4 u1 u2 (cmBounded_mono z3 (by rw [u3])) h3
                  obtain ⟨q1, q2, q3⟩ := sym_wf_setColors sD p1 p2 idA c4
                  injection h with h2x
                  injection h2x with ha hb
                  injection hb with hb hc
                  subst ha
                  subst hb
                  subst hc
                  have hlenD : s.nodes.length + 1 ≤ (setColors sD idA c4).nodes.length := by
                    rw [q3]
                    calc s.nodes.length + 1 = sA.nodes.length := by rw [w3]
                    _ ≤ sB.nodes.length := x4
                    _ = (setVertices sB idA v2).nodes.length := y3.symm
                    _ ≤ sC.nodes.length := z4
                    _ = (setNormals sC idA n3).nodes.length := u3.symm
                    _ ≤ sD.nodes.length := p4
                  refine ⟨q1, q2, cmBounded_mono p3 (le_of_eq q3.symm), by omega, ?_⟩
                  have hidv : idA = s.nodes.length := rfl
                  omega
          | false =>
            simp only [hflag, Bool.false_eq_true, if_neg, if_false] at h
            obtain ⟨y1, y2, y3⟩ := sym_wf_setVertices sA w1 w2 idA v
            obtain ⟨u1, u2, u3⟩ := sym_wf_setNormals (setVertices sA idA v) y1 y2 idA nrm
            obtain ⟨q1, q2, q3⟩ := sym_wf_setColors
              (setNormals (setVertices sA idA v) idA nrm) u1 u2 idA col
            injection h with h2x
            injection h2x with ha hb
            injection hb with hb hc
            subst ha
            subst hb
            subst hc
            have hlen2 : (setColors (setNormals (setVertices sA idA v) idA nrm) idA
                col).nodes.length = s.nodes.length + 1 := by
              rw [q3, u3, y3, w3]
            refine ⟨q1, q2, cmBounded_mono hcm (by omega), by omega, ?_⟩
            have hidv : idA = s.nodes.length := rfl
            omega
        | texture img tt =>
          simp only [hk] at h
          obtain ⟨w1, w2, w3, w4, w5, w6⟩ := sym_wf_alloc s hwf hsym
            { name := n.name, kind := .texture none none } rfl rfl
          set sA := (s.alloc { name := n.name, kind := .texture none none }).1 with hsA
          set idA := (s.alloc { name := n.name, kind := .texture none none }).2 with hidA
          have hcmA : cmBounded cm sA := cmBounded_mono hcm (by rw [w3]; omega)
          cases hflag : cm.isNonNodeCloningEnabled with
          | true =>
            simp only [hflag, if_pos] at h
            cases h1 : cloneOptionalRef f sA cm img with
            | none => simp only [h1] at h; cases h
            | some o1 =>
              simp only [h1] at h
              rcases o1 with ⟨sB, cmB, i2⟩
              obtain ⟨x1, x2, x3, x4⟩ := ihf.2.2.1 sA cm img sB cmB i2 w1 w2 hcmA h1
              obtain ⟨y1, y2, y3⟩ := sym_wf_setImage sB x1 x2 idA i2
              cases h2 : cloneOptionalRef f (setImage sB idA i2) cmB tt with
              | none => simp only [h2] at h; cases h
              | some o2 =>
                simp only [h2] at h
                rcases o2 with ⟨sC, cmC, t3⟩
                dsimp only at h
                obtain ⟨z1, z2, z3, z4⟩ := ihf.2.2.1 (setImage sB idA i2) cmB tt sC cmC t3
                  y1 y2 (cmBounded_mono x3 (by rw [y3])) h2
                obtain ⟨q1, q2, q3⟩ := sym_wf_setTextureTransformRef sC z1 z2 idA t3
                injection h with h2x
                injection h2x with ha hb
                injection hb with hb hc
                subst ha
                subst hb
                subst hc
                have hlenD : s.nodes.length + 1
                    ≤ (setTextureTransformRef sC idA t3).nodes.length := by
                  rw [q3]
                  calc s.nodes.length + 1 = sA.nodes.length := by rw [w3]
                  _ ≤ sB.nodes.length := x4
                  _ = (setImage sB idA i2).nodes.length := y3.symm
                  _ ≤ sC.nodes.length := z4
                refine ⟨q1, q2, cmBounded_mono z3 (le_of_eq q3.symm), by omega, ?_⟩
                have hidv : idA = s.nodes.length := rfl
                omega
          | false =>
            simp only [hflag, Bool.false_eq_true, if_neg, if_false] at h
            obtain ⟨y1, y2, y3⟩ := sym_wf_setImage sA w1 w2 idA img
            obtain ⟨q1, q2, q3⟩ := sym_wf_setTextureTransformRef (setImage sA idA img)
              y1 y2 idA tt
            injection h with h2x
            injection h2x with ha hb
            injection hb with hb hc
            subst ha
            subst hb
            subst hc
            have hlen2 : (setTextureTransformRef (setImage sA idA img) idA
                tt).nodes.length = s.nodes.length + 1 := by
              rw [q3, y3, w3]
            refine ⟨q1, q2, cmBounded_mono hcm (by omega), by omega, ?_⟩
            have hidv : idA = s.nodes.length := rfl
            omega
      -- cloneOptionalRef
      · intro s cm r s2 cm2 rr hwf hsym hcm h
        cases r with
        | none =>
          unfold cloneOptionalRef at h
          injection h with h2
          injection h2 with ha hb
          injection hb with hb hc
          subst ha
          subst hb
          exact ⟨hwf, hsym, hcm, Nat.le_refl _⟩
        | some q =>
          unfold cloneOptionalRef at h
          cases hfc : findOrCreateClone f s cm q with
          | none => simp only [hfc] at h; cases h
          | some o1 =>
            simp only [hfc] at h
            rcases o1 with ⟨s1, cm1, c1⟩
            injection h with h2
            injection h2 with ha hb
            injection hb with hb hc
            subst ha
            subst hb
            obtain ⟨w1, w2, w3, w4, _⟩ := ihf.1 s cm q s1 cm1 c1 hwf hsym hcm hfc
            exact ⟨w1, w2, w3, w4⟩
      -- cloneAddChildren
      · intro s cm g l s2 cm2 hwf hsym hcm hg hl h
        cases l with
        | nil =>
          unfold cloneAddChildren at h
          injection h with h2
          injection h2 with ha hb
          subst ha
          subst hb
          exact ⟨hwf, hsym, hcm, Nat.le_refl _⟩
        | cons q qs =>
          unfold cloneAddChildren at h
          cases hfc : findOrCreateClone f s cm q with
          | none => simp only [hfc] at h; cases h
          | some o1 =>
            simp only [hfc] at h
            rcases o1 with ⟨s1, cm1, c1⟩
            obtain ⟨w1, w2, w3, w4, w5⟩ := ihf.1 s cm q s1 cm1 c1 hwf hsym hcm hfc
            have hadd1 : (addChild 0 s1 g (some c1) false).nodes.length
                = s1.nodes.length := by
              cases hgg : s1.get g with
              | none =>
                have he : addChild 0 s1 g (some c1) false = s1 := by
                  unfold addChild
                  simp only [hgg]
                rw [he]
              | some gn => exact (addChild_projs 0 s1 g c1 false hgg).1
            obtain ⟨v1, v2, v3, v4⟩ := ihf.2.2.2 (addChild 0 s1 g (some c1) false) cm1 g qs
              s2 cm2
              (wf_addChild s1 w1 0 g (some c1) false
                (fun m hm => by injection hm with hh; rw [← hh]; exact w5))
              (sym_addChild s1 w2 0 g (some c1) false)
              (cmBounded_mono w3 (by rw [hadd1]))
              (by rw [hadd1]; omega)
              (fun m hm => by
                rw [hadd1]
                exact Nat.lt_of_lt_of_le (hl m (List.mem_cons_of_mem q hm)) w4)
              h
            refine ⟨v1, v2, v3, ?_⟩
            calc s.nodes.length ≤ s1.nodes.length := w4
            _ = (addChild 0 s1 g (some c1) false).nodes.length := hadd1.symm
            _ ≤ s2.nodes.length := v4

/-! ### Stability of bounding-box values -/

/-- A node whose boundingBox() answer is settled: any call returns this
box and leaves the scene untouched (a leaf, or a group with a valid
cache). -/
def stableBox (s : Scene) (c : Nat) (B : BoundingBox) : Prop :=
  ∀ f, boundingBox (f + 1) s c = some (B, s)

/-- meshBBox reads only object kinds. -/
theorem meshBBox_congr {s t : Scene} (hkind : ∀ j, kindOf t j = kindOf s j)
    (m : Option Nat) : meshBBox t m = meshBBox s m := by
  cases m with
  | none => rfl
  | some mid =>
    unfold meshBBox
    simp only [hkind]

theorem modify_valid_ne {s : Scene} {c : Nat} {n : SgNodeState}
    (hg : s.get c = some n) (hv : n.isBboxCacheValid = false)
    (f : SgNodeState → SgNodeState) (hf : ∀ m, (f m).isBboxCacheValid = true) :
    ¬(s.modifyNode c f = s) := by
  intro he
  have h1 : (s.modifyNode c f).get c = some (f n) := get_modifyNode_self f hg
  rw [he, hg] at h1
  have h2 : n = f n := by injection h1
  have h3 := hf n
  rw [← h2, hv] at h3
  cases h3

/-- A stable node is present, and if it is group-like then its cache is
valid and holds the stable box. -/
theorem stable_node_cases {s : Scene} {c : Nat} {B : BoundingBox}
    (hs : stableBox s c B) :
    ∃ n, s.get c = some n ∧
      (n.kind.isGroupKind = true → n.isBboxCacheValid = true ∧ n.bboxCache = B) := by
  have h0 := hs 0
  unfold boundingBox at h0
  cases hg : s.get c with
  | none =>
    simp only [hg] at h0
    cases h0
  | some n =>
    simp only [hg] at h0
    refine ⟨n, rfl, ?_⟩
    intro hgk
    cases hk : n.kind with
    | group =>
      rw [hk] at h0
      cases hv : n.isBboxCacheValid with
      | true =>
        refine ⟨?_, ?_⟩
        · first
          | exact hv
          | rfl
        · try simp only [hv, if_pos] at h0
          simp only [Option.some.injEq, Prod.mk.injEq, and_true] at h0
          first
            | exact h0
            | exact h0.1
      | false =>
        simp only [hv, Bool.false_eq_true, if_false] at h0
        cases hch : n.children with
        | nil =>
          rw [hch] at h0
          simp only [childUnion] at h0
          injection h0 with h1
          injection h1 with h1 h2
          exact absurd h2 (modify_valid_ne hg hv _ (fun _ => rfl))
        | cons q qs =>
          rw [hch] at h0
          simp only [childUnion] at h0
          cases h0
    | posTransform T =>
      rw [hk] at h0
      cases hv : n.isBboxCacheValid with
      | true =>
        refine ⟨?_, ?_⟩
        · first
          | exact hv
          | rfl
        · try simp only [hv, if_pos] at h0
          simp only [Option.some.injEq, Prod.mk.injEq, and_true] at h0
          first
            | exact h0
            | exact h0.1
      | false =>
        simp only [hv, Bool.false_eq_true, if_false] at h0
        cases hch : n.children with
        | nil =>
          rw [hch] at h0
          simp only [childUnion] at h0
          injection h0 with h1
          injection h1 with h1 h2
          exact absurd h2 (modify_valid_ne hg hv _ (fun _ => rfl))
        | cons q qs =>
          rw [hch] at h0
          simp only [childUnion] at h0
          cases h0
    | scaleTransform sc =>
      rw [hk] at h0
      cases hv : n.isBboxCacheValid with
      | true =>
        refine ⟨?_, ?_⟩
        · first
          | exact hv
          | rfl
        · try simp only [hv, if_pos] at h0
          simp only [Option.some.injEq, Prod.mk.injEq, and_true] at h0
          first
            | exact h0
            | exact h0.1
      | false =>
        simp only [hv, Bool.false_eq_true, if_false] at h0
        cases hch : n.children with
        | nil =>
          rw [hch] at h0
          simp only [childUnion] at h0
          injection h0 with h1
          injection h1 with h1 h2
          exact absurd h2 (modify_valid_ne hg hv _ (fun _ => rfl))
        | cons q qs =>
          rw [hch] at h0
          simp only [childUnion] at h0
          cases h0
    | node => rw [hk] at hgk; cases hgk
    | shape a b c2 => rw [hk] at hgk; cases hgk
    | mesh a b c2 d => rw [hk] at hgk; cases hgk
    | vertexArray d => rw [hk] at hgk; cases hgk
    | material => rw [hk] at hgk; cases hgk
    | texture a b => rw [hk] at hgk; cases hgk
    | image px => rw [hk] at hgk; cases hgk
    | textureTransform => rw [hk] at hgk; cases hgk

/-- A settled boundingBox answer only depends on the node itself and the
kind table, so it survives cache writes elsewhere. -/
theorem stable_agree {s t : Scene} {c : Nat} {B : BoundingBox}
    (hget : t.get c = s.get c) (hkind : ∀ j, kindOf t j = kindOf s j)
    (hs : stableBox s c B) : stableBox t c B := by
  rcases stable_node_cases hs with ⟨n, hg, hgrp⟩
  intro f
  have h0 := hs f
  unfold boundingBox at h0 ⊢
  simp only [hg] at h0
  simp only [hget, hg]
  cases hk : n.kind with
  | node =>
    simp only [hk] at h0
    simp only [Option.some.injEq, Prod.mk.injEq, and_true] at h0 ⊢
    first
      | exact h0
      | exact h0.1
  | shape m mat tex =>
    simp only [hk] at h0
    simp only [Option.some.injEq, Prod.mk.injEq, and_true] at h0 ⊢
    rw [meshBBox_congr hkind m]
    first
      | exact h0
      | exact h0.1
  | mesh v nr co b =>
    simp only [hk] at h0
    simp only [Option.some.injEq, Prod.mk.injEq, and_true] at h0 ⊢
    first
      | exact h0
      | exact h0.1
  | vertexArray d =>
    simp only [hk] at h0
    simp only [Option.some.injEq, Prod.mk.injEq, and_true] at h0 ⊢
    first
      | exact h0
      | exact h0.1
  | material =>
    simp only [hk] at h0
    simp only [Option.some.injEq, Prod.mk.injEq, and_true] at h0 ⊢
    first
      | exact h0
      | exact h0.1
  | texture i tt =>
    simp only [hk] at h0
    simp only [Option.some.injEq, Prod.mk.injEq, and_true] at h0 ⊢
    first
      | exact h0
      | exact h0.1
  | image px =>
    simp only [hk] at h0
    simp only [Option.some.injEq, Prod.mk.injEq, and_true] at h0 ⊢
    first
      | exact h0
      | exact h0.1
  | textureTransform =>
    simp only [hk] at h0
    simp only [Option.some.injEq, Prod.mk.injEq, and_true] at h0 ⊢
    first
      | exact h0
      | exact h0.1
  | group =>
    have hv := hgrp (by rw [hk]; rfl)
    simp only [hk, hv.1, if_pos, Option.some.injEq, Prod.mk.injEq, and_true]
    exact hv.2
  | posTransform T =>
    have hv := hgrp (by rw [hk]; rfl)
    simp only [hk, hv.1, if_pos, Option.some.injEq, Prod.mk.injEq, and_true]
    exact hv.2
  | scaleTransform sc =>
    have hv := hgrp (by rw [hk]; rfl)
    simp only [hk, hv.1, if_pos, Option.some.injEq, Prod.mk.injEq, and_true]
    exact hv.2

/-- If writing a validity-setting update over some scene yields s, then
the written node is valid in s. -/
theorem valid_after_write {t s : Scene} {c : Nat} {n : SgNodeState}
    (f : SgNodeState → SgNodeState) (hf : ∀ m, (f m).isBboxCacheValid = true)
    (hs : t.modifyNode c f = s) (hg : s.get c = some n) :
    n.isBboxCacheValid = true := by
  cases hg1 : t.get c with
  | none =>
    have hnone : (t.modifyNode c f).get c = none := by
      unfold Scene.modifyNode
      rw [show t.nodes[c]? = none from hg1]
      exact hg1
    rw [hs, hg] at hnone
    cases hnone
  | some n1 =>
    have h2 := get_modifyNode_self f hg1
    rw [hs, hg] at h2
    have h4 : n = f n1 := by
      injection h2 with h3
      try exact h3
      try exact h3.symm
    rw [h4]
    exact hf n1

/-- A boundingBox() call that returns without changing the scene has a
settled answer at every fuel. -/
theorem stable_of_once {s : Scene} {c : Nat} {B : BoundingBox} {k : Nat}
    (h1 : boundingBox (k + 1) s c = some (B, s)) : stableBox s c B := by
  intro f
  unfold boundingBox at h1 ⊢
  cases hg : s.get c with
  | none =>
    simp only [hg] at h1
    cases h1
  | some n =>
    simp only [hg] at h1 ⊢
    cases hk : n.kind with
    | node => simp only [hk] at h1 ⊢; exact h1
    | shape m mt tx => simp only [hk] at h1 ⊢; exact h1
    | mesh a b c2 d => simp only [hk] at h1 ⊢; exact h1
    | vertexArray d => simp only [hk] at h1 ⊢; exact h1
    | material => simp only [hk] at h1 ⊢; exact h1
    | texture a b => simp only [hk] at h1 ⊢; exact h1
    | image px => simp only [hk] at h1 ⊢; exact h1
    | textureTransform => simp only [hk] at h1 ⊢; exact h1
    | group =>
      simp only [hk] at h1 ⊢
      cases hv : n.isBboxCacheValid with
      | true => simp only [hv, if_pos] at h1 ⊢; exact h1
      | false =>
        simp only [hv, Bool.false_eq_true, if_false] at h1
        cases hcu : childUnion k s n.children BoundingBox.empty with
        | none => simp only [hcu] at h1; cases h1
        | some p =>
          rcases p with ⟨u, s1⟩
          simp only [hcu] at h1
          injection h1 with h2
          injection h2 with hB hs
          have hvt := valid_after_write _ (fun m => rfl) hs hg
          rw [hvt] at hv
          cases hv
    | posTransform T =>
      simp only [hk] at h1 ⊢
      cases hv : n.isBboxCacheValid with
      | true => simp only [hv, if_pos] at h1 ⊢; exact h1
      | false =>
        simp only [hv, Bool.false_eq_true, if_false] at h1
        cases hcu : childUnion k s n.children BoundingBox.empty with
        | none => simp only [hcu] at h1; cases h1
        | some p =>
          rcases p with ⟨u, s1⟩
          simp only [hcu] at h1
          injection h1 with h2
          injection h2 with hB hs
          have hvt := valid_after_write _ (fun m => rfl) hs hg
          rw [hvt] at hv
          cases hv
    | scaleTransform sc =>
      simp only [hk] at h1 ⊢
      cases hv : n.isBboxCacheValid with
      | true => simp only [hv, if_pos] at h1 ⊢; exact h1
      | false =>
        simp only [hv, Bool.false_eq_true, if_false] at h1
        cases hcu : childUnion k s n.children BoundingBox.empty with
        | none => simp only [hcu] at h1; cases h1
        | some p =>
          rcases p with ⟨u, s1⟩
          simp only [hcu] at h1
          injection h1 with h2
          injection h2 with hB hs
          have hvt := valid_after_write _ (fun m => rfl) hs hg
          rw [hvt] at hv
          cases hv

theorem stable_of_valid_group {s : Scene} {c : Nat} {n : SgNodeState}
    (hg : s.get c = some n) (hk : n.kind.isGroupKind = true)
    (hv : n.isBboxCacheValid = true) : stableBox s c n.bboxCache := by
  intro f
  unfold boundingBox
  simp only [hg]
  cases hkk : n.kind with
  | group => simp [hv]
  | posTransform T => simp [hv]
  | scaleTransform sc => simp [hv]
  | node => rw [hkk] at hk; cases hk
  | shape a b c2 => rw [hkk] at hk; cases hk
  | mesh a b c2 d => rw [hkk] at hk; cases hk
  | vertexArray d => rw [hkk] at hk; cases hk
  | material => rw [hkk] at hk; cases hk
  | texture a b => rw [hkk] at hk; cases hk
  | image px => rw [hkk] at hk; cases hk
  | textureTransform => rw [hkk] at hk; cases hk

theorem kindOf_eq_some {s : Scene} {c : Nat} {n : SgNodeState}
    (hg : s.get c = some n) : kindOf s c = some n.kind := by
  rw [kindOf, hg]
  rfl

theorem kindOf_eq_none {s : Scene} {c : Nat}
    (hg : s.get c = none) : kindOf s c = none := by
  rw [kindOf, hg]
  rfl

/-- Main characterization of the recursive bounding-box walk: it only
writes caches (structure is preserved), every already-settled answer stays
settled, the queried node's answer becomes settled, and a successful
childUnion is the fold of settled child boxes over the accumulator. -/
theorem bbMain :
    ∀ fuel : Nat,
      (∀ s id B s2, boundingBox fuel s id = some (B, s2) →
        SameStruct s s2 ∧ (∀ c B0, stableBox s c B0 → stableBox s2 c B0) ∧
          stableBox s2 id B) ∧
      (∀ s cs acc u s2, childUnion fuel s cs acc = some (u, s2) →
        SameStruct s s2 ∧ (∀ c B0, stableBox s c B0 → stableBox s2 c B0) ∧
          ∃ bs, List.Forall₂ (stableBox s2) cs bs ∧
            u = bs.foldl BoundingBox.expandBy acc) := by
  intro fuel
  induction fuel using Nat.strong_induction_on with
  | _ fuel ih =>
    cases fuel with
    | zero =>
      constructor
      · intro s id B s2 h
        simp only [boundingBox] at h
        cases h
      · intro s cs acc u s2 h
        cases cs with
        | nil =>
          simp only [childUnion] at h
          injection h with h1
          injection h1 with hu hs
          subst hs
          subst hu
          exact ⟨SameStruct.refl s, fun c B0 hc => hc, [], List.Forall₂.nil, rfl⟩
        | cons c1 cs2 =>
          simp only [childUnion] at h
          cases h
    | succ f =>
      constructor
      · intro s id B s2 h
        unfold boundingBox at h
        cases hg : s.get id with
        | none =>
          simp only [hg] at h
          cases h
        | some n =>
          simp only [hg] at h
          cases hk : n.kind with
          | node =>
            simp only [hk] at h
            injection h with h1
            injection h1 with hB hs
            subst hs
            subst hB
            exact ⟨SameStruct.refl s, fun c B0 hc => hc,
              stable_of_once (k := f) (by unfold boundingBox; simp only [hg, hk])⟩
          | shape m mt tx =>
            simp only [hk] at h
            injection h with h1
            injection h1 with hB hs
            subst hs
            subst hB
            exact ⟨SameStruct.refl s, fun c B0 hc => hc,
              stable_of_once (k := f) (by unfold boundingBox; simp only [hg, hk])⟩
          | mesh a b c2 d =>
            simp only [hk] at h
            injection h with h1
            injection h1 with hB hs
            subst hs
            subst hB
            exact ⟨SameStruct.refl s, fun c B0 hc => hc,
              stable_of_once (k := f) (by unfold boundingBox; simp only [hg, hk])⟩
          | vertexArray d =>
            simp only [hk] at h
            injection h with h1
            injection h1 with hB hs
            subst hs
            subst hB
            exact ⟨SameStruct.refl s, fun c B0 hc => hc,
              stable_of_once (k := f) (by unfold boundingBox; simp only [hg, hk])⟩
          | material =>
            simp only [hk] at h
            injection h with h1
            injection h1 with hB hs
            subst hs
            subst hB
            exact ⟨SameStruct.refl s, fun c B0 hc => hc,
              stable_of_once (k := f) (by unfold boundingBox; simp only [hg, hk])⟩
          | texture a b =>
            simp only [hk] at h
            injection h with h1
            injection h1 with hB hs
            subst hs
            subst hB
            exact ⟨SameStruct.refl s, fun c B0 hc => hc,
              stable_of_once (k := f) (by unfold boundingBox; simp only [hg, hk])⟩
          | image px =>
            simp only [hk] at h
            injection h with h1
            injection h1 with hB hs
            subst hs
            subst hB
            exact ⟨SameStruct.refl s, fun c B0 hc => hc,
              stable_of_once (k := f) (by unfold boundingBox; simp only [hg, hk])⟩
          | textureTransform =>
            simp only [hk] at h
            injection h with h1
            injection h1 with hB hs
            subst hs
            subst hB
            exact ⟨SameStruct.refl s, fun c B0 hc => hc,
              stable_of_once (k := f) (by unfold boundingBox; simp only [hg, hk])⟩
          | group =>
            simp only [hk] at h
            cases hv : n.isBboxCacheValid with
            | true =>
              simp only [hv, if_pos] at h
              injection h with h1
              injection h1 with hB hs
              subst hs
              subst hB
              exact ⟨SameStruct.refl s, fun c B0 hc => hc,
                stable_of_valid_group hg (by rw [hk]; rfl) hv⟩
            | false =>
              simp only [hv, Bool.false_eq_true, if_false] at h
              cases hcu : childUnion f s n.children BoundingBox.empty with
              | none =>
                simp only [hcu] at h
                cases h
              | some p =>
                rcases p with ⟨u, s1⟩
                simp only [hcu] at h
                injection h with h1
                injection h1 with hB hs
                subst hs
                subst hB
                obtain ⟨hss, hpres, bs, hfa, hu⟩ :=
                  (ih f (Nat.lt_succ_self f)).2 s n.children BoundingBox.empty u s1 hcu
                have hmod : SameStruct s1 (s1.modifyNode id
                    (fun m => { m with isBboxCacheValid := true, bboxCache := u })) :=
                  sameStruct_modify_cache s1 id _ (fun _ => rfl) (fun _ => rfl) (fun _ => rfl)
                refine ⟨hss.trans hmod, ?_, ?_⟩
                · intro c B0 hc
                  rcases Decidable.em (c = id) with he | he
                  · subst he
                    rcases stable_node_cases hc with ⟨n2, hg2, hgrp2⟩
                    rw [hg] at hg2
                    injection hg2 with he2
                    have hcontra := (hgrp2 (by rw [← he2, hk]; rfl)).1
                    rw [← he2] at hcontra
                    rw [hcontra] at hv
                    cases hv
                  · exact stable_agree (get_modifyNode_other _ he) hmod.kinds
                      (hpres c B0 hc)
                · have hk1o : kindOf s1 id = some SgKind.group := by
                    rw [hss.kinds id, kindOf_eq_some hg, hk]
                  cases hg1 : s1.get id with
                  | none =>
                    rw [kindOf_eq_none hg1] at hk1o
                    cases hk1o
                  | some n1 =>
                    have hk1 : n1.kind = SgKind.group := by
                      rw [kindOf_eq_some hg1] at hk1o
                      injection hk1o with h5
                      try exact h5
                      try exact h5.symm
                    exact stable_of_valid_group
                      (get_modifyNode_self _ hg1)
                      (by show n1.kind.isGroupKind = true; rw [hk1]; rfl)
                      rfl
          | posTransform T =>
            simp only [hk] at h
            cases hv : n.isBboxCacheValid with
            | true =>
              simp only [hv, if_pos] at h
              injection h with h1
              injection h1 with hB hs
              subst hs
              subst hB
              exact ⟨SameStruct.refl s, fun c B0 hc => hc,
                stable_of_valid_group hg (by rw [hk]; rfl) hv⟩
            | false =>
              simp only [hv, Bool.false_eq_true, if_false] at h
              cases hcu : childUnion f s n.children BoundingBox.empty with
              | none =>
                simp only [hcu] at h
                cases h
              | some p =>
                rcases p with ⟨u, s1⟩
                simp only [hcu] at h
                injection h with h1
                injection h1 with hB hs
                subst hs
                subst hB
                obtain ⟨hss, hpres, bs, hfa, hu⟩ :=
                  (ih f (Nat.lt_succ_self f)).2 s n.children BoundingBox.empty u s1 hcu
                have hmod : SameStruct s1 (s1.modifyNode id
                    (fun m => { m with isBboxCacheValid := true,
                                       untransformedBboxCache := u,
                                       bboxCache := u.transform T })) :=
                  sameStruct_modify_cache s1 id _ (fun _ => rfl) (fun _ => rfl) (fun _ => rfl)
                refine ⟨hss.trans hmod, ?_, ?_⟩
                · intro c B0 hc
                  rcases Decidable.em (c = id) with he | he
                  · subst he
                    rcases stable_node_cases hc with ⟨n2, hg2, hgrp2⟩
                    rw [hg] at hg2
                    injection hg2 with he2
                    have hcontra := (hgrp2 (by rw [← he2, hk]; rfl)).1
                    rw [← he2] at hcontra
                    rw [hcontra] at hv
                    cases hv
                  · exact stable_agree (get_modifyNode_other _ he) hmod.kinds
                      (hpres c B0 hc)
                · have hk1o : kindOf s1 id = some (SgKind.posTransform T) := by
                    rw [hss.kinds id, kindOf_eq_some hg, hk]
                  cases hg1 : s1.get id with
                  | none =>
                    rw [kindOf_eq_none hg1] at hk1o
                    cases hk1o
                  | some n1 =>
                    have hk1 : n1.kind = SgKind.posTransform T := by
                      rw [kindOf_eq_some hg1] at hk1o
                      injection hk1o with h5
                      try exact h5
                      try exact h5.symm
                    exact stable_of_valid_group
                      (get_modifyNode_self _ hg1)
                      (by show n1.kind.isGroupKind = true; rw [hk1]; rfl)
                      rfl
          | scaleTransform sc =>
            simp only [hk] at h
            cases hv : n.isBboxCacheValid with
            | true =>
              simp only [hv, if_pos] at h
              injection h with h1
              injection h1 with hB hs
              subst hs
              subst hB
              exact ⟨SameStruct.refl s, fun c B0 hc => hc,
                stable_of_valid_group hg (by rw [hk]; rfl) hv⟩
            | false =>
              simp only [hv, Bool.false_eq_true, if_false] at h
              cases hcu : childUnion f s n.children BoundingBox.empty with
              | none =>
                simp only [hcu] at h
                cases h
              | some p =>
                rcases p with ⟨u, s1⟩
                simp only [hcu] at h
                injection h with h1
                injection h1 with hB hs
                subst hs
                subst hB
                obtain ⟨hss, hpres, bs, hfa, hu⟩ :=
                  (ih f (Nat.lt_succ_self f)).2 s n.children BoundingBox.empty u s1 hcu
                have hmod : SameStruct s1 (s1.modifyNode id
                    (fun m => { m with isBboxCacheValid := true,
                                       untransformedBboxCache := u,
                                       bboxCache := u.transform (Affine3.diagonal sc) })) :=
                  sameStruct_modify_cache s1 id _ (fun _ => rfl) (fun _ => rfl) (fun _ => rfl)
                refine ⟨hss.trans hmod, ?_, ?_⟩
                · intro c B0 hc
                  rcases Decidable.em (c = id) with he | he
                  · subst he
                    rcases stable_node_cases hc with ⟨n2, hg2, hgrp2⟩
                    rw [hg] at hg2
                    injection hg2 with he2
                    have hcontra := (hgrp2 (by rw [← he2, hk]; rfl)).1
                    rw [← he2] at hcontra
                    rw [hcontra] at hv
                    cases hv
                  · exact stable_agree (get_modifyNode_other _ he) hmod.kinds
                      (hpres c B0 hc)
                · have hk1o : kindOf s1 id = some (SgKind.scaleTransform sc) := by
                    rw [hss.kinds id, kindOf_eq_some hg, hk]
                  cases hg1 : s1.get id with
                  | none =>
                    rw [kindOf_eq_none hg1] at hk1o
                    cases hk1o
                  | some n1 =>
                    have hk1 : n1.kind = SgKind.scaleTransform sc := by
                      rw [kindOf_eq_some hg1] at hk1o
                      injection hk1o with h5
                      try exact h5
                      try exact h5.symm
                    exact stable_of_valid_group
                      (get_modifyNode_self _ hg1)
                      (by show n1.kind.isGroupKind = true; rw [hk1]; rfl)
                      rfl
      · intro s cs acc u s2 h
        cases cs with
        | nil =>
          simp only [childUnion] at h
          injection h with h1
          injection h1 with hu hs
          subst hs
          subst hu
          exact ⟨SameStruct.refl s, fun c B0 hc => hc, [], List.Forall₂.nil, rfl⟩
        | cons c1 cs2 =>
          unfold childUnion at h
          cases hbb : boundingBox f s c1 with
          | none =>
            simp only [hbb] at h
            cases h
          | some p =>
            rcases p with ⟨b, s1⟩
            simp only [hbb] at h
            obtain ⟨hss1, hpres1, hstab1⟩ := (ih f (Nat.lt_succ_self f)).1 s c1 b s1 hbb
            obtain ⟨hss2, hpres2, bs2, hfa2, hu2⟩ :=
              (ih f (Nat.lt_succ_self f)).2 s1 cs2 (acc.expandBy b) u s2 h
            refine ⟨hss1.trans hss2, fun c B0 hc => hpres2 c B0 (hpres1 c B0 hc),
              b :: bs2, List.Forall₂.cons (hpres2 c1 b hstab1) hfa2, ?_⟩
            rw [hu2]
            rfl

/-! ### Claim theorems -/

/-- C9: invalid geometric input is reported by an absent result, never an
exception: MeshGenerator::generateBox returns the null pointer exactly
when some size component is negative, SgMesh::setBox returns false
exactly then, and in that failure case the mesh state is unchanged. -/
theorem c9_invalid_geometry (size : Vec3) (m : SgMeshData) :
    ((generateBox size).isNone ↔ (size.x < 0 ∨ size.y < 0 ∨ size.z < 0)) ∧
    ((setBox m size).1 = false ↔ (size.x < 0 ∨ size.y < 0 ∨ size.z < 0)) ∧
    ((size.x < 0 ∨ size.y < 0 ∨ size.z < 0) → (setBox m size).2 = m) := by
  unfold generateBox setBox
  by_cases h : size.x < 0 ∨ size.y < 0 ∨ size.z < 0
  · simp [h]
  · simp [h]

theorem c9_invalid_geometry_witness :
    ((generateBox ⟨-1, 1, 1⟩).isNone ↔
      ((-1 : ℚ) < 0 ∨ (1 : ℚ) < 0 ∨ (1 : ℚ) < 0)) ∧
    ((setBox {} ⟨-1, 1, 1⟩).1 = false ↔
      ((-1 : ℚ) < 0 ∨ (1 : ℚ) < 0 ∨ (1 : ℚ) < 0)) ∧
    (((-1 : ℚ) < 0 ∨ (1 : ℚ) < 0 ∨ (1 : ℚ) < 0) → (setBox {} ⟨-1, 1, 1⟩).2 = {}) :=
  c9_invalid_geometry ⟨-1, 1, 1⟩ {}

/-- C8 (amended): every node class except SgFog implements accept(visitor)
as exactly one invocation of its kind-specific visit method, passing the
node itself; SgFog::accept has an empty body, and the visitor interface
has no fog-specific method. -/
theorem c8_accept_dispatch (k : NodeClass) (self : Nat) (h : k ≠ NodeClass.sgFog) :
    ∃ m, kindVisitMethod k = some m ∧ accept k self = [(m, self)] := by
  cases k
  case sgFog => exact absurd rfl h
  all_goals exact ⟨_, rfl, rfl⟩

theorem c8_accept_dispatch_witness :
    NodeClass.sgShape ≠ NodeClass.sgFog ∧
      ∃ m, kindVisitMethod NodeClass.sgShape = some m ∧
        accept NodeClass.sgShape 7 = [(m, 7)] :=
  ⟨by decide, c8_accept_dispatch NodeClass.sgShape 7 (by decide)⟩

/-- C8 counterexample: SgFog::accept performs no visitor invocation at
all (its body is empty), and the visitor interface provides no
fog-specific visit method, so SgFog does not invoke a kind-specific
method once with itself. -/
theorem c8_counterexample :
    accept NodeClass.sgFog 0 = [] ∧ kindVisitMethod NodeClass.sgFog = none :=
  ⟨rfl, rfl⟩

/-- C5: addOwner on a previously unowned object fires sigGraphConnection
exactly once with true, removeOwner emptying the owner multiset fires it
exactly once with false, and owner additions or removals that leave the
owner multiset non-empty fire no connectivity notification. -/
theorem c5_connectivity (s : Scene) (x o : Nat) {n : SgNodeState}
    (hg : s.get x = some n) :
    (n.owners = [] →
      connEventsAt x (addOwner s x o).log
        = connEventsAt x s.log ++ [Event.graphConnection x true]) ∧
    (n.owners ≠ [] →
      connEventsAt x (addOwner s x o).log = connEventsAt x s.log) ∧
    (n.owners.erase o = [] →
      connEventsAt x (removeOwner s x o).log
        = connEventsAt x s.log ++ [Event.graphConnection x false]) ∧
    (n.owners.erase o ≠ [] →
      connEventsAt x (removeOwner s x o).log = connEventsAt x s.log) := by
  refine ⟨?_, ?_, ?_, ?_⟩
  · intro ho
    rw [addOwner_eq_some o hg, ho]
    simp [connEventsAt, emit_log, put_log, List.filter_append]
  · intro ho
    rw [addOwner_eq_some o hg]
    split
    · rename_i hcond
      cases hos : n.owners with
      | nil => exact absurd hos ho
      | cons a t =>
        rw [hos] at hcond
        simp at hcond
    · rw [connEventsAt, put_log, connEventsAt]
  · intro ho
    rw [removeOwner_eq_some o hg, ho]
    simp [connEventsAt, emit_log, put_log, List.filter_append]
  · intro ho
    rw [removeOwner_eq_some o hg]
    split
    · rename_i hcond
      cases he : n.owners.erase o with
      | nil => exact absurd he ho
      | cons a t =>
        rw [he] at hcond
        simp [List.isEmpty] at hcond
    · simp [connEventsAt, emit_log, put_log, List.filter_append]

def demoC5 : Scene := { nodes := [{ kind := SgKind.node }], log := [] }

theorem c5_connectivity_witness :
    connEventsAt 0 (addOwner demoC5 0 5).log
      = connEventsAt 0 demoC5.log ++ [Event.graphConnection 0 true] :=
  (c5_connectivity demoC5 0 5 rfl).1 rfl

/-- C10: removeChild removes every occurrence of the node from the
group's child list (a child present twice is removed twice), calls
removeOwner once per removed occurrence, returns true exactly when at
least one occurrence was present, and leaves the child list unchanged
returning false when the node is not a child. -/
theorem c10_removeChild_all (fuel : Nat) (s : Scene) (g n : Nat) (dn : Bool)
    {gn : SgNodeState} (hg : s.get g = some gn) :
    ((removeChild fuel s g n dn).2 = true ↔ n ∈ gn.children) ∧
    childrenOf (removeChild fuel s g n dn).1 g
      = gn.children.filter (fun c => !(c == n)) ∧
    (n ∉ gn.children →
      childrenOf (removeChild fuel s g n dn).1 g = gn.children ∧
      (removeChild fuel s g n dn).2 = false) ∧
    ((s.get n).isSome →
      ownerRemovedCount n g (removeChild fuel s g n dn).1.log
        = ownerRemovedCount n g s.log + gn.children.count n) := by
  obtain ⟨f1, f2, f3, f4, f5, f6, f7, f8⟩ := removeChild_spec fuel s g n dn hg
  refine ⟨?_, f4, ?_, f8⟩
  · rw [f1]
    simp
  · intro hn
    refine ⟨?_, ?_⟩
    · rw [f4]
      rw [List.filter_eq_self]
      intro c hc
      simp only [Bool.not_eq_eq_eq_not, Bool.not_true, beq_eq_false_iff_ne]
      intro he
      exact hn (he ▸ hc)
    · rw [f1]
      simpa using hn

def demoC10 : Scene :=
  { nodes :=
      [{ kind := SgKind.group, children := [1, 1, 2] },
       { kind := SgKind.node, owners := [0, 0] },
       { kind := SgKind.node, owners := [0] }],
    log := [] }

theorem c10_removeChild_all_witness :
    ((removeChild 5 demoC10 0 1 false).2 = true ↔ 1 ∈ [1, 1, 2]) ∧
    ownerRemovedCount 1 0 (removeChild 5 demoC10 0 1 false).1.log
      = ownerRemovedCount 1 0 demoC10.log + List.count 1 [1, 1, 2] :=
  ⟨(c10_removeChild_all 5 demoC10 0 1 false rfl).1,
   (c10_removeChild_all 5 demoC10 0 1 false rfl).2.2.2 rfl⟩

/-- The scene of a clone-operation result (the input scene placeholder is
never reached in the claims, which pair this with an isSome fact). -/
def cloneResultScene (r : Option (Scene × SgCloneMap × Nat)) : Scene :=
  match r with
  | some (s, _, _) => s
  | none => { nodes := [] }

/-- The clone map of a clone-operation result. -/
def cloneResultMap (r : Option (Scene × SgCloneMap × Nat)) : SgCloneMap :=
  match r with
  | some (_, cm, _) => cm
  | none => { entries := [] }

/-- The clone id of a clone-operation result. -/
def cloneResultId (r : Option (Scene × SgCloneMap × Nat)) : Nat :=
  match r with
  | some (_, _, c) => c
  | none => 0

def cmTrue : SgCloneMap := { entries := [], isNonNodeCloningEnabled := true }

def cmFalse : SgCloneMap := { entries := [], isNonNodeCloningEnabled := false }

/-- A shape 0 whose mesh 1 stores its coordinates in vertex array 2. -/
def demoC7 : Scene :=
  { nodes :=
      [{ kind := SgKind.shape (some 1) none none },
       { kind := SgKind.mesh (some 2) none none BoundingBox.empty },
       { kind := SgKind.vertexArray [⟨1, 2, 3⟩] }],
    log := [] }

def c7deep : Option (Scene × SgCloneMap × Nat) := findOrCreateClone 10 demoC7 cmTrue 0

def c7shared : Option (Scene × SgCloneMap × Nat) := findOrCreateClone 10 demoC7 cmFalse 0

/-- C7: with non-node cloning enabled, the cloned shape references a
deep-cloned payload chain (fresh mesh 4 and vertex array 5), and mutating
the clone's vertex array leaves the original array untouched; with the
flag disabled, the clone references the original mesh 1 verbatim, whose
data lives in the shared vertex array 2, so a mutation through that
shared array is seen by original and clone alike. -/
theorem c7_clone_payload :
    c7deep.isSome = true ∧
    cloneResultId c7deep = 3 ∧
    kindOf (cloneResultScene c7deep) 3 = some (SgKind.shape (some 4) none none) ∧
    kindOf (cloneResultScene c7deep) 4
      = some (SgKind.mesh (some 5) none none BoundingBox.empty) ∧
    vertexDataOf (cloneResultScene c7deep) 5 = some [⟨1, 2, 3⟩] ∧
    vertexDataOf (mutateVertexArray (cloneResultScene c7deep) 5 [⟨9, 9, 9⟩]) 2
      = some [⟨1, 2, 3⟩] ∧
    vertexDataOf (mutateVertexArray (cloneResultScene c7deep) 5 [⟨9, 9, 9⟩]) 5
      = some [⟨9, 9, 9⟩] ∧
    c7shared.isSome = true ∧
    cloneResultId c7shared = 3 ∧
    kindOf (cloneResultScene c7shared) 3 = some (SgKind.shape (some 1) none none) ∧
    kindOf (cloneResultScene c7shared) 1
      = some (SgKind.mesh (some 2) none none BoundingBox.empty) ∧
    vertexDataOf (mutateVertexArray (cloneResultScene c7shared) 2 [⟨9, 9, 9⟩]) 2
      = some [⟨9, 9, 9⟩] :=
  ⟨rfl, rfl, rfl, rfl, rfl, rfl, rfl, rfl, rfl, rfl, rfl, rfl⟩

/-- Two groups 0 and 1 sharing the node 2 as their child. -/
def demoC3 : Scene :=
  { nodes :=
      [{ kind := SgKind.group, children := [2] },
       { kind := SgKind.group, children := [2] },
       { kind := SgKind.node, owners := [0, 1] }],
    log := [] }

def c3r1 : Option (Scene × SgCloneMap × Nat) := findOrCreateClone 10 demoC3 cmTrue 0

def c3r2 : Option (Scene × SgCloneMap × Nat) :=
  findOrCreateClone 10 (cloneResultScene c3r1) (cloneResultMap c3r1) 1

/-- C3: findOrCreateClone returns the stored clone unchanged on a map
hit; concretely, cloning the two groups 0 and 1 that share child 2
through one map yields clones 3 and 5 whose child lists reference the
identical clone 4 of the shared node, the map holds exactly one entry for
the shared node, and a further findOrCreateClone of it returns that
stored clone with scene and map untouched. -/
theorem c3_clone_once (f : Nat) (s : Scene) (cm : SgCloneMap) (org c : Nat)
    (h : cm.find org = some c) :
    findOrCreateClone (f + 1) s cm org = some (s, cm, c) ∧
    cloneResultId c3r1 = 3 ∧
    childrenOf (cloneResultScene c3r1) 3 = [4] ∧
    cloneResultId c3r2 = 5 ∧
    childrenOf (cloneResultScene c3r2) 5 = [4] ∧
    (cloneResultMap c3r2).entries.countP (fun e => e.1 == 2) = 1 ∧
    findOrCreateClone 10 (cloneResultScene c3r2) (cloneResultMap c3r2) 2
      = some (cloneResultScene c3r2, cloneResultMap c3r2, 4) := by
  refine ⟨?_, rfl, rfl, rfl, rfl, rfl, rfl⟩
  unfold findOrCreateClone
  rw [h]

theorem c3_clone_once_witness :
    SgCloneMap.find { entries := [(9, 7)], isNonNodeCloningEnabled := true } 9
      = some 7 ∧
    findOrCreateClone 1 demoC3 { entries := [(9, 7)], isNonNodeCloningEnabled := true } 9
      = some (demoC3, { entries := [(9, 7)], isNonNodeCloningEnabled := true }, 7) :=
  ⟨rfl, (c3_clone_once 0 demoC3
    { entries := [(9, 7)], isNonNodeCloningEnabled := true } 9 7 rfl).1⟩

/-- The symmetry invariant follows from its restriction to allocated
ids (a decidable check on a concrete scene): ids beyond the heap have no
kind. -/
theorem sym_of_bounded (s : Scene)
    (h : ∀ g, g < s.nodes.length → ∀ n, n < s.nodes.length →
      ((kindOf s g).map SgKind.isGroupKind).getD false = true →
      (childrenOf s g).count n = (ownersOf s n).count g) :
    ownerChildSymmetry s := by
  intro g n gk hk hgk hn
  have hgl : g < s.nodes.length := by
    cases hgget : s.get g with
    | some nn => exact get_lt_length hgget
    | none =>
      unfold kindOf at hk
      rw [hgget] at hk
      simp at hk
  refine h g hgl n hn ?_
  rw [hk]
  simpa using hgk

/-- Reference well-formedness follows from its restriction to allocated
ids: dangling ids have empty child and owner lists. -/
theorem wf_of_bounded (s : Scene)
    (h : ∀ id, id < s.nodes.length →
      (∀ c ∈ childrenOf s id, c < s.nodes.length) ∧
      (∀ o ∈ ownersOf s id, o < s.nodes.length)) : wfRefs s := by
  intro id
  rcases Decidable.em (id < s.nodes.length) with hl | hl
  · exact h id hl
  · have hgget : s.get id = none := by
      rw [Scene.get]
      exact List.getElem?_eq_none (by omega)
    constructor
    · intro c hc
      rw [childrenOf, hgget] at hc
      simp at hc
    · intro o ho
      rw [ownersOf, hgget] at ho
      simp at ho

/-- C1 (amended): the owner/child symmetry invariant, read as matching
multiplicities, is preserved by addChild, removeChild, removeChildAt, the
group copy constructor, and the clone-with-map machinery — but not by
clearChildren (see the counterexample); on a symmetric scene membership
itself is biconditional. -/
theorem c1_symmetry_invariant (s : Scene) (hwf : wfRefs s)
    (hsym : ownerChildSymmetry s) (fuel g n i : Nat) (nr : Option Nat) (dn : Bool)
    (cm : SgCloneMap) (hcm : cmBounded cm s) :
    ownerChildSymmetry (addChild fuel s g nr dn) ∧
    ownerChildSymmetry (removeChild fuel s g n dn).1 ∧
    ownerChildSymmetry (removeChildAt fuel s g i dn) ∧
    ownerChildSymmetry (sgGroupCopy s g).1 ∧
    (∀ s2 cm2 c, findOrCreateClone fuel s cm g = some (s2, cm2, c) →
      ownerChildSymmetry s2) ∧
    (∀ g2 n2 gk, kindOf s g2 = some gk → gk.isGroupKind = true →
      n2 < s.nodes.length → (n2 ∈ childrenOf s g2 ↔ g2 ∈ ownersOf s n2)) := by
  refine ⟨sym_addChild s hsym fuel g nr dn, sym_removeChild s hsym fuel g n dn,
    sym_removeChildAt s hsym fuel g i dn, (sym_wf_sgGroupCopy s hwf hsym g).2, ?_, ?_⟩
  · intro s2 cm2 c hclone
    exact ((clone_preserves_inv fuel).1 s cm g s2 cm2 c hwf hsym hcm hclone).2.1
  · intro g2 n2 gk hk hgk hn
    have hcount := hsym g2 n2 gk hk hgk hn
    constructor
    · intro hmem
      have := List.count_pos_iff.mpr hmem
      rw [hcount] at this
      exact List.count_pos_iff.mp this
    · intro hmem
      have := List.count_pos_iff.mpr hmem
      rw [← hcount] at this
      exact List.count_pos_iff.mp this

/-- A group 0 owning the node 1. -/
def demoC1 : Scene :=
  { nodes :=
      [{ kind := SgKind.group, children := [1] },
       { kind := SgKind.node, owners := [0] }],
    log := [] }

theorem c1_symmetry_invariant_witness :
    ownerChildSymmetry (addChild 3 demoC1 0 (some 1) true) ∧
    (1 ∈ childrenOf demoC1 0 ↔ 0 ∈ ownersOf demoC1 1) := by
  have h := c1_symmetry_invariant demoC1 (wf_of_bounded demoC1 (by decide))
    (sym_of_bounded demoC1 (by decide)) 3 0 1 0 (some 1) true
    { entries := [], isNonNodeCloningEnabled := true }
    (fun e he => absurd he (List.not_mem_nil e))
  exact ⟨h.1, h.2.2.2.2.2 0 1 SgKind.group rfl rfl (by decide)⟩

/-- C1 counterexample: clearChildren empties the child list without
calling removeOwner, so the node keeps the group in its owner set while
the group no longer lists it as a child — the symmetry invariant is
violated. -/
theorem c1_counterexample :
    ¬ ownerChildSymmetry (clearChildren 3 demoC1 0 false) := by
  intro h
  exact absurd (h 0 1 SgKind.group rfl rfl (by decide)) (by decide)

theorem validOf_ite_emit (c : Prop) [Decidable c] (t : Scene) (e : Event) (j : Nat) :
    validOf (if c then t.emit e else t) j = validOf t j := by
  split
  · rfl
  · rfl

theorem validOf_removeOwner (s : Scene) (x o j : Nat) :
    validOf (removeOwner s x o) j = validOf s j := by
  cases hg : s.get x with
  | none => rw [removeOwner_eq_none o hg]
  | some n =>
    rw [removeOwner_eq_some o hg, validOf_ite_emit]
    have hg0 : (s.emit (Event.ownerRemoved x o)).get x = some n := hg
    rw [validOf_put_of_eq (n := { n with owners := n.owners.erase o }) hg0 rfl j]
    rfl

theorem validOf_modify_keep {s : Scene} {x : Nat} (f : SgNodeState → SgNodeState)
    (hf : ∀ m, (f m).isBboxCacheValid = m.isBboxCacheValid) (j : Nat) :
    validOf (s.modifyNode x f) j = validOf s j := by
  unfold Scene.modifyNode
  cases hg : s.nodes[x]? with
  | none => rfl
  | some m => exact validOf_put_of_eq (show s.get x = some m from hg) (hf m) j

/-- The removeChild erase loop never revalidates a cache. -/
theorem loop_valid_persist (fuel g n : Nat) (dn : Bool) :
    ∀ (cs : List Nat) (s : Scene), validOf s g = false →
      validOf (removeChildLoop fuel g n dn s cs).1 g = false := by
  intro cs
  induction cs with
  | nil => intro s h; exact h
  | cons c cs ih =>
    intro s h
    by_cases hc : c = n
    · subst hc
      have hrw : removeChildLoop fuel g c dn s (c :: cs) =
          ((removeChildLoop fuel g c dn
              (removeOwner (if dn then notifyUpdate fuel s c .removed else s) c g) cs).1,
           (removeChildLoop fuel g c dn
              (removeOwner (if dn then notifyUpdate fuel s c .removed else s) c g) cs).2.1,
           true) := by
        simp [removeChildLoop]
      rw [hrw]
      refine ih _ ?_
      rw [validOf_removeOwner]
      cases dn
      · exact h
      · exact tu_valid_false_persist fuel s c SgAction.removed g h
    · have hrw : removeChildLoop fuel g n dn s (c :: cs) =
          ((removeChildLoop fuel g n dn s cs).1,
           c :: (removeChildLoop fuel g n dn s cs).2.1,
           (removeChildLoop fuel g n dn s cs).2.2) := by
        simp only [removeChildLoop, if_neg hc]
      rw [hrw]
      exact ih s h

/-- With doNotify, the erase loop hitting an occurrence of a child whose
owner set contains the group invalidates that group's cache (the REMOVED
notification walks from the child into its owners). -/
theorem loop_invalidates (f : Nat) {g n : Nat} {gk : SgKind}
    (hgrp : gk.isGroupKind = true) :
    ∀ (cs : List Nat) (s : Scene), kindOf s g = some gk → g ∈ ownersOf s n →
      n ∈ cs → validOf (removeChildLoop (f + 2) g n true s cs).1 g = false := by
  intro cs
  induction cs with
  | nil => intro s _ _ hmem; cases hmem
  | cons c cs ih =>
    intro s hk hown hmem
    by_cases hc : c = n
    · subst hc
      have hrw : removeChildLoop (f + 2) g c true s (c :: cs) =
          ((removeChildLoop (f + 2) g c true
              (removeOwner (if true then notifyUpdate (f + 2) s c .removed else s) c g)
              cs).1,
           (removeChildLoop (f + 2) g c true
              (removeOwner (if true then notifyUpdate (f + 2) s c .removed else s) c g)
              cs).2.1,
           true) := by
        simp [removeChildLoop]
      rw [hrw]
      refine loop_valid_persist (f + 2) g c true cs _ ?_
      rw [validOf_removeOwner]
      show validOf (notifyUpdate (f + 2) s c SgAction.removed) g = false
      have hgc : ∃ m, s.get c = some m ∧ g ∈ m.owners := by
        cases hgg : s.get c with
        | none =>
          rw [ownersOf, hgg] at hown
          simp at hown
        | some m =>
          refine ⟨m, rfl, ?_⟩
          rw [ownersOf, hgg] at hown
          simpa using hown
      rcases hgc with ⟨m, hgm, hgmem⟩
      show validOf (transferUpdate (f + 1 + 1) s c SgAction.removed) g = false
      unfold transferUpdate
      simp only [hgm]
      refine foldl_tu_invalidates f SgAction.removed m.owners _ hgmem gk ?_ hgrp
      have hk1 : kindOf (if m.kind.isGroupKind then invalidateBoundingBox s c else s) g
          = some gk := by
        cases m.kind.isGroupKind
        · exact hk
        · show kindOf (invalidateBoundingBox s c) g = some gk
          rw [(sameStruct_invalidate s c).kinds g]
          exact hk
      exact hk1
    · have hrw : removeChildLoop (f + 2) g n true s (c :: cs) =
          ((removeChildLoop (f + 2) g n true s cs).1,
           c :: (removeChildLoop (f + 2) g n true s cs).2.1,
           (removeChildLoop (f + 2) g n true s cs).2.2) := by
        simp only [removeChildLoop, if_neg hc]
      rw [hrw]
      have hmem2 : n ∈ cs := by
        rcases List.mem_cons.mp hmem with h | h
        · exact absurd h.symm hc
        · exact h
      exact ih s hk hown hmem2

/-- C2 (amended): a group's bounding-box cache is invalidated by
addChild with doNotify, by removeChild with doNotify removing a present
child, and by any received transferUpdate walk; an invalid cache makes
the next boundingBox() call recompute (it revalidates the cache and
changes the state).  With doNotify false the structural mutations do not
invalidate (see the counterexample). -/
theorem c2_cache_invalidation (f : Nat) (s : Scene) (g n : Nat) {gk : SgKind}
    (a : SgAction) (hk : kindOf s g = some gk) (hgrp : gk.isGroupKind = true) :
    (∀ gn nn, s.get g = some gn → s.get n = some nn →
      validOf (addChild (f + 2) s g (some n) true) g = false) ∧
    (n ∈ childrenOf s g → g ∈ ownersOf s n →
      validOf (removeChild (f + 2) s g n true).1 g = false) ∧
    validOf (transferUpdate (f + 1) s g a) g = false ∧
    (validOf s g = false → ∀ B s2, boundingBox (f + 1) s g = some (B, s2) →
      validOf s2 g = true ∧ s2 ≠ s) := by
  refine ⟨?_, ?_, tu_invalidates_group f a hk hgrp, ?_⟩
  · intro gn nn hg hn
    unfold addChild
    simp only [hg]
    show validOf (addOwnerWithUpdate (f + 2)
      (s.put g { gn with children := gn.children ++ [n] }) n g SgAction.added) g = false
    set s1 := s.put g { gn with children := gn.children ++ [n] } with hs1
    have hs1n : ∃ m, s1.get n = some m := by
      rcases Decidable.em (n = g) with rfl | hne
      · exact ⟨_, get_put_self (get_lt_length hg) _⟩
      · rw [hs1, get_put_other hne]
        exact ⟨nn, hn⟩
    rcases hs1n with ⟨m, hm⟩
    rw [addOwnerWithUpdate_eq_some (f + 2) g SgAction.added hm, validOf_ite_emit]
    set s2 := s1.put n { m with owners := g :: m.owners } with hs2
    have hgets2 : s2.get n = some { m with owners := g :: m.owners } :=
      get_put_self (get_lt_length hm) _
    show validOf (transferUpdate (f + 1 + 1) s2 n SgAction.added) g = false
    unfold transferUpdate
    simp only [hgets2]
    refine foldl_tu_invalidates f SgAction.added _ _ (List.mem_cons_self g m.owners)
      gk ?_ hgrp
    have hk1 : kindOf s1 g = some gk := by
      rw [hs1, kindOf_put_of_eq (n := { gn with children := gn.children ++ [n] }) hg rfl g]
      exact hk
    have hk2 : kindOf s2 g = some gk := by
      rw [hs2, kindOf_put_of_eq (n := { m with owners := g :: m.owners })
        (show s1.get n = some m from hm) rfl g]
      exact hk1
    have hk3 : kindOf (if ({ m with owners := g :: m.owners } : SgNodeState).kind.isGroupKind
        then invalidateBoundingBox s2 n else s2) g = some gk := by
      cases ({ m with owners := g :: m.owners } : SgNodeState).kind.isGroupKind
      · exact hk2
      · show kindOf (invalidateBoundingBox s2 n) g = some gk
        rw [(sameStruct_invalidate s2 n).kinds g]
        exact hk2
    exact hk3
  · intro hmem hown
    have hgx : ∃ gn, s.get g = some gn := by
      cases hgg : s.get g with
      | none =>
        rw [childrenOf, hgg] at hmem
        simp at hmem
      | some gn => exact ⟨gn, rfl⟩
    rcases hgx with ⟨gn, hg⟩
    unfold removeChild
    simp only [hg]
    rw [validOf_modify_keep
      (fun m => { m with
        children := (removeChildLoop (f + 2) g n true s gn.children).2.1 })
      (fun m => rfl) g]
    refine loop_invalidates f hgrp gn.children s hk hown ?_
    rw [childrenOf, hg] at hmem
    simpa using hmem
  · intro hv B s2 hbb
    obtain ⟨hss, _, hstab⟩ := (bbMain (f + 1)).1 s g B s2 hbb
    rcases stable_node_cases hstab with ⟨n2, hg2, hgrp2⟩
    have hk2 : kindOf s2 g = some gk := by
      rw [hss.kinds g]
      exact hk
    have hkn2 : n2.kind = gk := by
      rw [kindOf_eq_some hg2] at hk2
      injection hk2 with h5
      try exact h5
      try exact h5.symm
    have hvalid := (hgrp2 (by rw [hkn2]; exact hgrp)).1
    constructor
    · rw [validOf, hg2]
      simpa using hvalid
    · intro he
      rw [he] at hg2
      rw [validOf, hg2] at hv
      simp [hvalid] at hv

/-- An initially valid cached group 0 over mesh child 1, with a detached
mesh 2 ready to be added. -/
def demoC2 : Scene :=
  { nodes :=
      [{ kind := SgKind.group, children := [1], isBboxCacheValid := true,
         bboxCache := BoundingBox.corners ⟨0, 0, 0⟩ ⟨1, 1, 1⟩ },
       { kind := SgKind.mesh none none none (BoundingBox.corners ⟨0, 0, 0⟩ ⟨1, 1, 1⟩),
         owners := [0] },
       { kind := SgKind.mesh none none none (BoundingBox.corners ⟨2, 2, 2⟩ ⟨3, 3, 3⟩) }],
    log := [] }

/-- The box part of a boundingBox result. -/
def bbValue (r : Option (BoundingBox × Scene)) : Option BoundingBox := r.map Prod.fst

/-- C2 counterexample: addChild with doNotify = false does not invalidate
the cache — two consecutive boundingBox() calls return the same box even
though a structural mutation intervened, and the stale box differs from
what a recomputation over the new child set yields. -/
theorem c2_counterexample :
    boundingBox 5 demoC2 0 = some (BoundingBox.corners ⟨0, 0, 0⟩ ⟨1, 1, 1⟩, demoC2) ∧
    validOf (addChild 5 demoC2 0 (some 2) false) 0 = true ∧
    childrenOf (addChild 5 demoC2 0 (some 2) false) 0 = [1, 2] ∧
    bbValue (boundingBox 5 (addChild 5 demoC2 0 (some 2) false) 0)
      = some (BoundingBox.corners ⟨0, 0, 0⟩ ⟨1, 1, 1⟩) ∧
    addChild 5 demoC2 0 (some 2) false ≠ demoC2 ∧
    bbValue (boundingBox 5
        (invalidateBoundingBox (addChild 5 demoC2 0 (some 2) false) 0) 0)
      = some (BoundingBox.corners ⟨0, 0, 0⟩ ⟨3, 3, 3⟩) ∧
    BoundingBox.corners (⟨0, 0, 0⟩ : Vec3) (⟨1, 1, 1⟩ : Vec3)
      ≠ BoundingBox.corners ⟨0, 0, 0⟩ ⟨3, 3, 3⟩ := by
  refine ⟨rfl, rfl, rfl, rfl, ?_, rfl, ?_⟩
  · decide
  · decide

/-- An invalid-cache group 0 over mesh child 1. -/
def demoC2w : Scene :=
  { nodes :=
      [{ kind := SgKind.group, children := [1] },
       { kind := SgKind.mesh none none none (BoundingBox.corners ⟨0, 0, 0⟩ ⟨1, 1, 1⟩),
         owners := [0] }],
    log := [] }

theorem c2_cache_invalidation_witness :
    validOf (transferUpdate 1 demoC2w 0 SgAction.modified) 0 = false ∧
    validOf (addChild 2 demoC2w 0 (some 1) true) 0 = false := by
  have h := c2_cache_invalidation 0 demoC2w 0 1 SgAction.modified rfl rfl
  exact ⟨h.2.2.1, h.1 _ _ rfl rfl⟩

/-- Forall₂ transport that also sees the left element's membership. -/
theorem forall2_imp_mem {R S : Nat → BoundingBox → Prop} :
    ∀ {l1 : List Nat} {l2 : List BoundingBox}, List.Forall₂ R l1 l2 →
      (∀ a b, a ∈ l1 → R a b → S a b) → List.Forall₂ S l1 l2 := by
  intro l1 l2 h
  induction h with
  | nil => intro _; exact List.Forall₂.nil
  | cons hab htail ih =>
    intro himp
    refine List.Forall₂.cons (himp _ _ (List.mem_cons_self _ _) hab) (ih ?_)
    intro a b ha hr
    exact himp a b (List.mem_cons_of_mem _ ha) hr

/-- C4 (amended): a group's boundingBox() returns the cached box
unchanged when the cache is valid; when the cache is invalid it
recomputes the box as the fold of the children's settled boxes, marks the
cache valid and stores the result.  The returned value equals the union
of the current children's boxes only in the recompute case — a valid but
stale cache is returned as is (see the counterexample). -/
theorem c4_group_boundingBox (f : Nat) (s : Scene) (g : Nat) {gn : SgNodeState}
    (hg : s.get g = some gn) (hk : gn.kind = SgKind.group) :
    (gn.isBboxCacheValid = true →
      boundingBox (f + 1) s g = some (gn.bboxCache, s)) ∧
    (gn.isBboxCacheValid = false → g ∉ gn.children → ∀ B s2,
      boundingBox (f + 1) s g = some (B, s2) →
      validOf s2 g = true ∧ cacheOf s2 g = B ∧ SameStruct s s2 ∧
      ∃ bs, List.Forall₂ (stableBox s2) gn.children bs ∧
        B = bs.foldl BoundingBox.expandBy BoundingBox.empty) := by
  constructor
  · intro hv
    unfold boundingBox
    simp only [hg, hk, hv, if_pos]
  · intro hv hnc B s2 hbb
    unfold boundingBox at hbb
    simp only [hg, hk, hv, Bool.false_eq_true, if_false] at hbb
    cases hcu : childUnion f s gn.children BoundingBox.empty with
    | none =>
      simp only [hcu] at hbb
      cases hbb
    | some p =>
      rcases p with ⟨u, s1⟩
      simp only [hcu] at hbb
      injection hbb with h1
      injection h1 with hB hs
      subst hs
      obtain ⟨hss1, hpres1, bs, hfa, hu⟩ :=
        (bbMain f).2 s gn.children BoundingBox.empty u s1 hcu
      have hmod : SameStruct s1 (s1.modifyNode g
          (fun m => { m with isBboxCacheValid := true, bboxCache := u })) :=
        sameStruct_modify_cache s1 g _ (fun _ => rfl) (fun _ => rfl) (fun _ => rfl)
      have hg1 : ∃ n1, s1.get g = some n1 := by
        rcases Option.isSome_iff_exists.mp ((get_isSome_iff s1 g).mpr
          (by rw [hss1.len]; exact get_lt_length hg)) with ⟨n1, hn1⟩
        exact ⟨n1, hn1⟩
      rcases hg1 with ⟨n1, hg1⟩
      refine ⟨?_, ?_, ?_, bs, ?_, ?_⟩
      · rw [validOf, get_modifyNode_self
          (fun m => { m with isBboxCacheValid := true, bboxCache := u }) hg1]
        rfl
      · rw [cacheOf, get_modifyNode_self
          (fun m => { m with isBboxCacheValid := true, bboxCache := u }) hg1]
        exact hB
      · exact hss1.trans hmod
      · refine forall2_imp_mem hfa ?_
        intro c b hc hstab
        have hne : c ≠ g := fun he => hnc (he ▸ hc)
        exact stable_agree (get_modifyNode_other _ hne) hmod.kinds hstab
      · rw [← hB]
        exact hu

/-- A group 0 with a valid but stale cache over the mesh child 1. -/
def demoC4 : Scene :=
  { nodes :=
      [{ kind := SgKind.group, children := [1], isBboxCacheValid := true,
         bboxCache := BoundingBox.corners ⟨0, 0, 0⟩ ⟨1, 1, 1⟩ },
       { kind := SgKind.mesh none none none (BoundingBox.corners ⟨2, 2, 2⟩ ⟨3, 3, 3⟩),
         owners := [0] }],
    log := [] }

/-- C4 counterexample: with a valid but stale cache, boundingBox()
returns the cached box, which differs from the union of the current
children's boxes — refuting "the returned value always equals the union
of all current children's bounding boxes". -/
theorem c4_counterexample :
    boundingBox 5 demoC4 0 = some (BoundingBox.corners ⟨0, 0, 0⟩ ⟨1, 1, 1⟩, demoC4) ∧
    childrenOf demoC4 0 = [1] ∧
    bbValue (childUnion 5 demoC4 [1] BoundingBox.empty)
      = some (BoundingBox.corners ⟨2, 2, 2⟩ ⟨3, 3, 3⟩) ∧
    BoundingBox.corners (⟨0, 0, 0⟩ : Vec3) (⟨1, 1, 1⟩ : Vec3)
      ≠ BoundingBox.corners ⟨2, 2, 2⟩ ⟨3, 3, 3⟩ :=
  ⟨rfl, rfl, rfl, by decide⟩

theorem c4_group_boundingBox_witness :
    boundingBox 5 demoC4 0 = some (BoundingBox.corners ⟨0, 0, 0⟩ ⟨1, 1, 1⟩, demoC4) :=
  (c4_group_boundingBox 4 demoC4 0 rfl rfl).1 rfl

/-- The affine transform a kind applies to its aggregated child box
(none for non-transform kinds): SgPosTransform applies its matrix,
SgScaleTransform applies scale.asDiagonal(). -/
def transformOf : SgKind → Option Affine3
  | .posTransform T => some T
  | .scaleTransform sc => some (Affine3.diagonal sc)
  | _ => none

/-- C6 (amended): when the cache is valid, a transform node's
boundingBox() returns the cached (possibly stale) box as is, and
untransformedBoundingBox() the cached pre-transform box; when the cache
is invalid, boundingBox() recomputes the aggregate of the children's
boxes, stores it in the untransformed cache, and stores and returns it
transformed by the node's matrix, so that untransformedBoundingBox()
returns the untransformed aggregate of the same recomputation, one
validity flag serving both caches.  The unconditional "equals the
transformed union of the current children" reading fails on a valid
stale cache (see the counterexample). -/
theorem c6_transform_boundingBox (f : Nat) (s : Scene) (g : Nat) {gn : SgNodeState}
    {T : Affine3} (hg : s.get g = some gn) (hk : transformOf gn.kind = some T) :
    (gn.isBboxCacheValid = true →
      boundingBox (f + 1) s g = some (gn.bboxCache, s) ∧
      untransformedBoundingBox (f + 1) s g = some (gn.untransformedBboxCache, s)) ∧
    (gn.isBboxCacheValid = false → g ∉ gn.children → ∀ B s2,
      boundingBox (f + 1) s g = some (B, s2) →
      ∃ u, B = u.transform T ∧ validOf s2 g = true ∧
        cacheOf s2 g = u.transform T ∧ uncacheOf s2 g = u ∧ SameStruct s s2 ∧
        untransformedBoundingBox (f + 1) s2 g = some (u, s2) ∧
        ∃ bs, List.Forall₂ (stableBox s2) gn.children bs ∧
          u = bs.foldl BoundingBox.expandBy BoundingBox.empty) := by
  cases hkk : gn.kind with
  | posTransform t =>
    rw [hkk] at hk
    simp only [transformOf, Option.some.injEq] at hk
    subst hk
    constructor
    · intro hv
      constructor
      · unfold boundingBox
        simp only [hg, hkk, hv, if_pos]
      · unfold untransformedBoundingBox
        simp only [hg, hv, if_pos]
    · intro hv hnc B s2 hbb
      unfold boundingBox at hbb
      simp only [hg, hkk, hv, Bool.false_eq_true, if_false] at hbb
      cases hcu : childUnion f s gn.children BoundingBox.empty with
      | none =>
        simp only [hcu] at hbb
        cases hbb
      | some p =>
        rcases p with ⟨u, s1⟩
        simp only [hcu] at hbb
        injection hbb with h1
        injection h1 with hB hs
        subst hs
        obtain ⟨hss1, hpres1, bs, hfa, hu⟩ :=
          (bbMain f).2 s gn.children BoundingBox.empty u s1 hcu
        have hmod : SameStruct s1 (s1.modifyNode g
            (fun m => { m with isBboxCacheValid := true,
                               untransformedBboxCache := u,
                               bboxCache := u.transform t })) :=
          sameStruct_modify_cache s1 g _ (fun _ => rfl) (fun _ => rfl) (fun _ => rfl)
        have hg1 : ∃ n1, s1.get g = some n1 := by
          rcases Option.isSome_iff_exists.mp ((get_isSome_iff s1 g).mpr
            (by rw [hss1.len]; exact get_lt_length hg)) with ⟨n1, hn1⟩
          exact ⟨n1, hn1⟩
        rcases hg1 with ⟨n1, hg1⟩
        have hgets2 := get_modifyNode_self
          (fun m => { m with isBboxCacheValid := true,
                             untransformedBboxCache := u,
                             bboxCache := u.transform t }) hg1
        refine ⟨u, hB.symm, ?_, ?_, ?_, hss1.trans hmod, ?_, bs, ?_, ?_⟩
        · rw [validOf, hgets2]
          rfl
        · rw [cacheOf, hgets2]
          rfl
        · rw [uncacheOf, hgets2]
          rfl
        · unfold untransformedBoundingBox
          simp only [hgets2]
          rfl
        · refine forall2_imp_mem hfa ?_
          intro c b hc hstab
          have hne : c ≠ g := fun he => hnc (he ▸ hc)
          exact stable_agree (get_modifyNode_other _ hne) hmod.kinds hstab
        · exact hu
  | scaleTransform v =>
    rw [hkk] at hk
    simp only [transformOf, Option.some.injEq] at hk
    subst hk
    constructor
    · intro hv
      constructor
      · unfold boundingBox
        simp only [hg, hkk, hv, if_pos]
      · unfold untransformedBoundingBox
        simp only [hg, hv, if_pos]
    · intro hv hnc B s2 hbb
      unfold boundingBox at hbb
      simp only [hg, hkk, hv, Bool.false_eq_true, if_false] at hbb
      cases hcu : childUnion f s gn.children BoundingBox.empty with
      | none =>
        simp only [hcu] at hbb
        cases hbb
      | some p =>
        rcases p with ⟨u, s1⟩
        simp only [hcu] at hbb
        injection hbb with h1
        injection h1 with hB hs
        subst hs
        obtain ⟨hss1, hpres1, bs, hfa, hu⟩ :=
          (bbMain f).2 s gn.children BoundingBox.empty u s1 hcu
        have hmod : SameStruct s1 (s1.modifyNode g
            (fun m => { m with isBboxCacheValid := true,
                               untransformedBboxCache := u,
                               bboxCache := u.transform (Affine3.diagonal v) })) :=
          sameStruct_modify_cache s1 g _ (fun _ => rfl) (fun _ => rfl) (fun _ => rfl)
        have hg1 : ∃ n1, s1.get g = some n1 := by
          rcases Option.isSome_iff_exists.mp ((get_isSome_iff s1 g).mpr
            (by rw [hss1.len]; exact get_lt_length hg)) with ⟨n1, hn1⟩
          exact ⟨n1, hn1⟩
        rcases hg1 with ⟨n1, hg1⟩
        have hgets2 := get_modifyNode_self
          (fun m => { m with isBboxCacheValid := true,
                             untransformedBboxCache := u,
                             bboxCache := u.transform (Affine3.diagonal v) }) hg1
        refine ⟨u, hB.symm, ?_, ?_, ?_, hss1.trans hmod, ?_, bs, ?_, ?_⟩
        · rw [validOf, hgets2]
          rfl
        · rw [cacheOf, hgets2]
          rfl
        · rw [uncacheOf, hgets2]
          rfl
        · unfold untransformedBoundingBox
          simp only [hgets2]
          rfl
        · refine forall2_imp_mem hfa ?_
          intro c b hc hstab
          have hne : c ≠ g := fun he => hnc (he ▸ hc)
          exact stable_agree (get_modifyNode_other _ hne) hmod.kinds hstab
        · exact hu
  | node =>
    rw [hkk] at hk
    simp only [transformOf] at hk
    cases hk
  | group =>
    rw [hkk] at hk
    simp only [transformOf] at hk
    cases hk
  | shape m mt tx =>
    rw [hkk] at hk
    simp only [transformOf] at hk
    cases hk
  | mesh a b c d =>
    rw [hkk] at hk
    simp only [transformOf] at hk
    cases hk
  | vertexArray d =>
    rw [hkk] at hk
    simp only [transformOf] at hk
    cases hk
  | material =>
    rw [hkk] at hk
    simp only [transformOf] at hk
    cases hk
  | texture a b =>
    rw [hkk] at hk
    simp only [transformOf] at hk
    cases hk
  | image px =>
    rw [hkk] at hk
    simp only [transformOf] at hk
    cases hk
  | textureTransform =>
    rw [hkk] at hk
    simp only [transformOf] at hk
    cases hk

/-- A position-transform node 0 (translation by x+1) over mesh child 1,
with both caches valid and consistently prefilled. -/
def demoC6 : Scene :=
  { nodes :=
      [{ kind := SgKind.posTransform ⟨⟨1, 0, 0⟩, ⟨0, 1, 0⟩, ⟨0, 0, 1⟩, ⟨1, 0, 0⟩⟩,
         children := [1], isBboxCacheValid := true,
         bboxCache := BoundingBox.corners ⟨1, 0, 0⟩ ⟨3, 2, 2⟩,
         untransformedBboxCache := BoundingBox.corners ⟨0, 0, 0⟩ ⟨2, 2, 2⟩ },
       { kind := SgKind.mesh none none none (BoundingBox.corners ⟨0, 0, 0⟩ ⟨2, 2, 2⟩),
         owners := [0] }],
    log := [] }

theorem c6_transform_boundingBox_witness :
    boundingBox 5 demoC6 0 = some (BoundingBox.corners ⟨1, 0, 0⟩ ⟨3, 2, 2⟩, demoC6) ∧
    untransformedBoundingBox 5 demoC6 0
      = some (BoundingBox.corners ⟨0, 0, 0⟩ ⟨2, 2, 2⟩, demoC6) :=
  (c6_transform_boundingBox 4 demoC6 0 rfl rfl).1 rfl

/-- The transform node of demoC6 (caches valid and consistent with its
mesh child 1), plus a detached mesh 2 ready to be added. -/
def demoC6x : Scene :=
  { nodes :=
      [{ kind := SgKind.posTransform ⟨⟨1, 0, 0⟩, ⟨0, 1, 0⟩, ⟨0, 0, 1⟩, ⟨1, 0, 0⟩⟩,
         children := [1], isBboxCacheValid := true,
         bboxCache := BoundingBox.corners ⟨1, 0, 0⟩ ⟨3, 2, 2⟩,
         untransformedBboxCache := BoundingBox.corners ⟨0, 0, 0⟩ ⟨2, 2, 2⟩ },
       { kind := SgKind.mesh none none none (BoundingBox.corners ⟨0, 0, 0⟩ ⟨2, 2, 2⟩),
         owners := [0] },
       { kind := SgKind.mesh none none none (BoundingBox.corners ⟨2, 2, 2⟩ ⟨3, 3, 3⟩) }],
    log := [] }

/-- C6 counterexample: addChild with doNotify = false leaves the
transform node's cache valid, and boundingBox() then returns the stale
cached box, which differs from the union of the current children's boxes
transformed by the node's matrix — refuting the unconditional "equals
the transformed union of the children" reading. -/
theorem c6_counterexample :
    validOf (addChild 5 demoC6x 0 (some 2) false) 0 = true ∧
    childrenOf (addChild 5 demoC6x 0 (some 2) false) 0 = [1, 2] ∧
    bbValue (boundingBox 5 (addChild 5 demoC6x 0 (some 2) false) 0)
      = some (BoundingBox.corners ⟨1, 0, 0⟩ ⟨3, 2, 2⟩) ∧
    bbValue (childUnion 5 (addChild 5 demoC6x 0 (some 2) false) [1, 2]
        BoundingBox.empty)
      = some (BoundingBox.corners ⟨0, 0, 0⟩ ⟨3, 3, 3⟩) ∧
    (BoundingBox.corners (⟨0, 0, 0⟩ : Vec3) (⟨3, 3, 3⟩ : Vec3)).transform
        ⟨⟨1, 0, 0⟩, ⟨0, 1, 0⟩, ⟨0, 0, 1⟩, ⟨1, 0, 0⟩⟩
      = BoundingBox.corners ⟨1, 0, 0⟩ ⟨4, 3, 3⟩ ∧
    BoundingBox.corners (⟨1, 0, 0⟩ : Vec3) (⟨3, 2, 2⟩ : Vec3)
      ≠ BoundingBox.corners ⟨1, 0, 0⟩ ⟨4, 3, 3⟩ := by
  refine ⟨rfl, rfl, rfl, rfl, ?_, ?_⟩
  · simp only [BoundingBox.transform, Affine3.apply, dot, BoundingBox.expandByPoint,
      vmin, vmax, List.foldl]
    norm_num
  · decide

end Choreonoid














